import Mathlib

/-!
# genv: typed retrieval of environment values

A shallow embedding of `genv.go` (`Get`, `GetWithDefault`, `getVal`) together with
models of the Go standard-library parsers that `getVal` dispatches to
(`strconv.ParseBool`, `strconv.ParseUint`, `strconv.ParseInt`, `strconv.ParseFloat`,
`strconv.ParseComplex`, `time.ParseDuration`, `time.Parse` with the RFC1123 layout).

Conventions.
* A Go `string` is a Lean `String`, scanned as its list of characters.  Every parser
  modelled here compares the scanned bytes with ASCII constants only, and every byte of
  a multi-byte UTF-8 sequence is at least `0x80`; scanning by character therefore takes
  the same branches as scanning by byte.
* Machine integers are `Nat` / `Int` with explicit reduction modulo `2^w`.
* A Go result pair `(value, err)` is a Lean pair whose second component is an
  `Option` error; `none` is Go's `err == nil`.
* The library models follow the `strconv` and `time` packages of Go 1.20 to 1.22 (the
  module needs Go 1.18 or later for its type parameters).
-/

namespace Genv

/-! ## Machine integers -/

/-- Conversion of an integer to the unsigned type of width `w` (Go `uintW(x)`). -/
def wrapU (w : Nat) (x : Int) : Nat := (x % (2 : Int) ^ w).toNat

/-- Conversion of an integer to the signed type of width `w` (Go `intW(x)`). -/
def wrapS (w : Nat) (x : Int) : Int :=
  let r := x % (2 : Int) ^ w
  if r < (2 : Int) ^ (w - 1) then r else r - (2 : Int) ^ w

/-- The constant `maxUint64`. -/
def maxUint64 : Nat := 2 ^ 64 - 1

/-! ## strconv: errors and byte helpers -/

/-- The `Err` field of a `*strconv.NumError`. -/
inductive NumErr where
  | ErrSyntax
  | ErrRange
  | ErrBase
  | ErrBitSize
  deriving DecidableEq, Repr

/-- Go `lower(c) = c | ('x' - 'X')`. -/
def lower (c : Char) : Nat := c.toNat ||| 32

/-- The test `'0' <= c && c <= '9'`. -/
def isDigit (c : Char) : Bool := decide ('0'.toNat ≤ c.toNat) && decide (c.toNat ≤ '9'.toNat)

/-- The test `'a' <= lower(c) && lower(c) <= 'z'`. -/
def isLetter (c : Char) : Bool := decide ('a'.toNat ≤ lower c) && decide (lower c ≤ 'z'.toNat)

/-- The test `'a' <= lower(c) && lower(c) <= 'f'`. -/
def isHexLetter (c : Char) : Bool := decide ('a'.toNat ≤ lower c) && decide (lower c ≤ 'f'.toNat)

/-- State machine of `strconv.underscoreOK` over the number proper; `saw` is the last
class of character seen (`'^'`, `'0'`, `'_'` or `'!'`). -/
def underscoreOKLoop (hex : Bool) : List Char → Char → Bool
  | [], saw => saw != '_'
  | c :: cs, saw =>
    if isDigit c || (hex && isHexLetter c) then underscoreOKLoop hex cs '0'
    else if c = '_' then
      if saw != '0' then false else underscoreOKLoop hex cs '_'
    else if saw = '_' then false
    else underscoreOKLoop hex cs '!'

/-- Go `strconv.underscoreOK`: underscores appear only between digits or between a base
prefix and a digit. -/
def underscoreOK (s : List Char) : Bool :=
  let s1 := match s with
    | c :: cs => if c = '-' ∨ c = '+' then cs else s
    | [] => s
  match s1 with
  | c0 :: c1 :: rest =>
    if c0 = '0' ∧ (lower c1 = 'b'.toNat ∨ lower c1 = 'o'.toNat ∨ lower c1 = 'x'.toNat) then
      underscoreOKLoop (decide (lower c1 = 'x'.toNat)) rest '0'
    else underscoreOKLoop false s1 '^'
  | _ => underscoreOKLoop false s1 '^'

/-! ## strconv.ParseBool -/

/-- Go `strconv.ParseBool`. -/
def ParseBool (str : String) : Bool × Option NumErr :=
  if str = "1" ∨ str = "t" ∨ str = "T" ∨ str = "true" ∨ str = "TRUE" ∨ str = "True" then
    (true, none)
  else if str = "0" ∨ str = "f" ∨ str = "F" ∨ str = "false" ∨ str = "FALSE" ∨ str = "False" then
    (false, none)
  else (false, some .ErrSyntax)

/-! ## strconv.ParseUint and strconv.ParseInt -/

/-- The digit value of a byte in `ParseUint`: `c - '0'` for a decimal digit,
`lower(c) - 'a' + 10` for a letter, and no value (syntax error) otherwise. -/
def digitVal (c : Char) : Option Nat :=
  if isDigit c then some (c.toNat - '0'.toNat)
  else if isLetter c then some (lower c - 'a'.toNat + 10)
  else none

/-- The digit loop of `strconv.ParseUint`.  An early `return v, err` of the Go loop is
`Except.error (v, err)`; running off the end of the string is `Except.ok (n, underscores)`. -/
def parseUintLoop (base : Nat) (base0 : Bool) (cutoff maxVal : Nat) :
    List Char → Nat → Bool → Except (Nat × NumErr) (Nat × Bool)
  | [], n, underscores => .ok (n, underscores)
  | c :: cs, n, underscores =>
    if c = '_' ∧ base0 = true then parseUintLoop base base0 cutoff maxVal cs n true
    else
      match digitVal c with
      | none => .error (0, .ErrSyntax)
      | some d =>
        if d ≥ base % 256 then .error (0, .ErrSyntax)
        else if n ≥ cutoff then .error (maxVal, .ErrRange)
        else
          let n' := (n * base) % 2 ^ 64
          let n1 := (n' + d) % 2 ^ 64
          if n1 < n' ∨ n1 > maxVal then .error (maxVal, .ErrRange)
          else parseUintLoop base base0 cutoff maxVal cs n1 underscores

/-- Base selection of `strconv.ParseUint`: a base in `2..36` is kept, base `0` is
resolved from the prefix of the text (which is then dropped), any other base is an
error. -/
def pickBase (s : List Char) (base : Int) : Option (Nat × List Char) :=
  if 2 ≤ base ∧ base ≤ 36 then some (base.toNat, s)
  else if base = 0 then
    match s with
    | c0 :: rest =>
      if c0 = '0' then
        match rest with
        | c1 :: rest2 =>
          if s.length ≥ 3 ∧ lower c1 = 'b'.toNat then some (2, rest2)
          else if s.length ≥ 3 ∧ lower c1 = 'o'.toNat then some (8, rest2)
          else if s.length ≥ 3 ∧ lower c1 = 'x'.toNat then some (16, rest2)
          else some (8, rest)
        | [] => some (8, rest)
      else some (10, s)
    | [] => some (10, s)
  else none

/-- Go `strconv.ParseUint(s, base, bitSize)`; `intSize` is `strconv.IntSize`. -/
def ParseUint (intSize : Nat) (s : String) (base : Int) (bitSize : Int) : Nat × Option NumErr :=
  if s = "" then (0, some .ErrSyntax)
  else
    let base0 := decide (base = 0)
    match pickBase s.data base with
    | none => (0, some .ErrBase)
    | some (b, digits) =>
      if bitSize < 0 ∨ bitSize > 64 then (0, some .ErrBitSize)
      else
        let bits : Nat := if bitSize = 0 then intSize else bitSize.toNat
        let cutoff := maxUint64 / b + 1
        let maxVal := (2 ^ bits % 2 ^ 64 + 2 ^ 64 - 1) % 2 ^ 64
        match parseUintLoop b base0 cutoff maxVal digits 0 false with
        | .error (v, e) => (v, some e)
        | .ok (n, underscores) =>
          if underscores ∧ ¬ underscoreOK s.data then (0, some .ErrSyntax)
          else (n, none)

/-- Go `strconv.ParseInt(s, base, bitSize)`; `intSize` is `strconv.IntSize`. -/
def ParseInt (intSize : Nat) (s : String) (base : Int) (bitSize : Int) : Int × Option NumErr :=
  if s = "" then (0, some .ErrSyntax)
  else
    let neg : Bool := match s.data with
      | c :: _ => decide (c = '-')
      | [] => false
    let s1 : List Char := match s.data with
      | c :: cs => if c = '+' ∨ c = '-' then cs else s.data
      | [] => s.data
    let r := ParseUint intSize (String.mk s1) base bitSize
    let un := r.1
    if r.2 ≠ none ∧ r.2 ≠ some .ErrRange then (0, r.2)
    else
      let bits : Nat := if bitSize = 0 then intSize else bitSize.toNat
      let cutoff : Nat := 2 ^ (bits - 1) % 2 ^ 64
      if neg = false ∧ un ≥ cutoff then (wrapS 64 ((cutoff : Int) - 1), some .ErrRange)
      else if neg = true ∧ un > cutoff then (wrapS 64 (-(wrapS 64 cutoff)), some .ErrRange)
      else
        let n := wrapS 64 un
        (if neg then wrapS 64 (-n) else n, none)

/-! ## Floating-point values -/

/-- An IEEE 754 binary floating-point datum.  A finite datum is
`(-1)^neg * mant * 2^exp`, kept with `mant` odd, or with `mant = 0` and `exp = 0` for a
zero. -/
inductive GoFloat where
  | finite (neg : Bool) (mant : Nat) (exp : Int)
  | inf (neg : Bool)
  | nan
  deriving DecidableEq, Repr

/-- Go `strconv.floatInfo`. -/
structure FloatInfo where
  mantbits : Nat
  expbits : Nat
  bias : Int
  deriving DecidableEq, Repr

/-- Go `float32info`. -/
def float32info : FloatInfo := { mantbits := 23, expbits := 8, bias := -127 }

/-- Go `float64info`. -/
def float64info : FloatInfo := { mantbits := 52, expbits := 11, bias := -1023 }

/-- Number of binary digits of `n`, counted with `fuel` halvings. -/
def bitLenAux : Nat → Nat → Nat → Nat
  | 0, _, acc => acc
  | fuel + 1, n, acc => if n = 0 then acc else bitLenAux fuel (n / 2) (acc + 1)

/-- Number of binary digits of `n` (`0` for `n = 0`). -/
def bitLen (n : Nat) : Nat := bitLenAux n n 0

/-- The integer `l` with `2^l <= num/den < 2^(l+1)`, for positive `num` and `den`. -/
def floorLog2Ratio (num den : Nat) : Int :=
  let l : Int := (bitLen num : Int) - (bitLen den : Int)
  if den * 2 ^ l.toNat ≤ num * 2 ^ (-l).toNat then l else l - 1

/-- Removal of trailing zero bits from a mantissa, at most `fuel` of them. -/
def stripZeros : Nat → Nat → Int → Nat × Int
  | 0, m, e => (m, e)
  | fuel + 1, m, e => if m ≠ 0 ∧ m % 2 = 0 then stripZeros fuel (m / 2) (e + 1) else (m, e)

/-- Rounding of the exact value `num/den` (with sign `neg`) to the nearest datum of the
format `info`, ties to even, as `strconv` does on all of its conversion paths.  The flag
is the overflow report: the rounded value exceeds the largest finite datum and the
result is an infinity. -/
def roundFloat (info : FloatInfo) (neg : Bool) (num den : Nat) : GoFloat × Bool :=
  if num = 0 ∨ den = 0 then (.finite neg 0 0, false)
  else
    let p := info.mantbits + 1
    let emin : Int := info.bias + 1 - info.mantbits
    let emax : Int := (2 : Int) ^ info.expbits - 2 + info.bias - info.mantbits
    let e : Int := max (floorLog2Ratio num den - info.mantbits) emin
    let n := num * 2 ^ (-e).toNat
    let d := den * 2 ^ e.toNat
    let q := n / d
    let r := n % d
    let m := if 2 * r > d ∨ (2 * r = d ∧ q % 2 = 1) then q + 1 else q
    if (bitLen m : Int) + e > p + emax then (.inf neg, true)
    else
      let me := stripZeros p m e
      (.finite neg me.1 (if me.1 = 0 then 0 else me.2), false)

/-- Conversion `float32(x)` of a `float64` datum. -/
def toFloat32 : GoFloat → GoFloat
  | .finite neg m e => (roundFloat float32info neg (m * 2 ^ e.toNat) (2 ^ (-e).toNat)).1
  | x => x

/-- Go `strconv.commonPrefixLenIgnoreCase`; `pfx` is all lower-case. -/
def commonPrefixLenIgnoreCase : List Char → List Char → Nat
  | c :: cs, p :: ps =>
    let c1 : Nat := if 'A'.toNat ≤ c.toNat ∧ c.toNat ≤ 'Z'.toNat then c.toNat + 32 else c.toNat
    if c1 ≠ p.toNat then 0 else commonPrefixLenIgnoreCase cs ps + 1
  | _, _ => 0

/-- The `case 'i', 'I'` arm of `strconv.special`, entered directly or by fallthrough
from the sign arm with `s` already advanced. -/
def specialInf (s : List Char) (neg : Bool) (nsign : Nat) : Option (GoFloat × Nat) :=
  let n0 := commonPrefixLenIgnoreCase s "infinity".data
  let n := if 3 < n0 ∧ n0 < 8 then 3 else n0
  if n = 3 ∨ n = 8 then some (.inf neg, nsign + n) else none

/-- Go `strconv.special`: the text forms of infinities and NaN, with the number of
bytes consumed. -/
def special (s : List Char) : Option (GoFloat × Nat) :=
  match s with
  | [] => none
  | c :: cs =>
    if c = '+' ∨ c = '-' then specialInf cs (decide (c = '-')) 1
    else if c = 'i' ∨ c = 'I' then specialInf s false 0
    else if c = 'n' ∨ c = 'N' then
      if commonPrefixLenIgnoreCase s "nan".data = 3 then some (.nan, 3) else none
    else none

/-- Loop state of the mantissa scan of `strconv.readFloat`.  The Go code keeps the
first 19 digits (16 for hexadecimal) in a `uint64` and re-reads the text when digits
were dropped; here `mantissa` holds all `nd` digits. -/
structure MantState where
  mantissa : Nat
  sawdot : Bool
  sawdigits : Bool
  nd : Nat
  dp : Int
  underscores : Bool
  deriving DecidableEq, Repr

/-- The mantissa loop of `strconv.readFloat`; returns the state and the unread rest. -/
def readMantissa (hex : Bool) : List Char → MantState → MantState × List Char
  | [], st => (st, [])
  | c :: cs, st =>
    if c = '_' then readMantissa hex cs { st with underscores := true }
    else if c = '.' then
      if st.sawdot then (st, c :: cs)
      else readMantissa hex cs { st with sawdot := true, dp := st.nd }
    else if isDigit c then
      if c = '0' ∧ st.nd = 0 then
        readMantissa hex cs { st with sawdigits := true, dp := st.dp - 1 }
      else
        readMantissa hex cs { st with
          sawdigits := true, nd := st.nd + 1,
          mantissa := st.mantissa * (if hex then 16 else 10) + (c.toNat - '0'.toNat) }
    else if hex ∧ isHexLetter c then
      readMantissa hex cs { st with
        sawdigits := true, nd := st.nd + 1,
        mantissa := st.mantissa * 16 + (lower c - 'a'.toNat + 10) }
    else (st, c :: cs)

/-- The exponent digit loop of `strconv.readFloat`. -/
def readExpDigits : List Char → Nat → Bool → Nat × Bool × List Char
  | [], e, us => (e, us, [])
  | c :: cs, e, us =>
    if isDigit c ∨ c = '_' then
      if c = '_' then readExpDigits cs e true
      else readExpDigits cs (if e < 10000 then e * 10 + (c.toNat - '0'.toNat) else e) us
    else (e, us, c :: cs)

/-- Result of a successful `strconv.readFloat`: the value read is
`mantissa * 10^exp` (`mantissa * 2^exp` when `hex`), `rest` is the unread text. -/
structure ReadFloat where
  mantissa : Nat
  exp : Int
  neg : Bool
  hex : Bool
  rest : List Char
  deriving DecidableEq, Repr

/-- Go `strconv.readFloat`; `none` is `ok == false`. -/
def readFloat (s : List Char) : Option ReadFloat :=
  match s with
  | [] => none
  | c :: cs =>
    let neg := decide (c = '-')
    let s1 := if c = '+' ∨ c = '-' then cs else s
    let hex : Bool := match s1 with
      | c0 :: c1 :: _ :: _ => decide (c0 = '0' ∧ lower c1 = 'x'.toNat)
      | _ => false
    let s2 := if hex then s1.drop 2 else s1
    let (st, s3) := readMantissa hex s2
      { mantissa := 0, sawdot := false, sawdigits := false, nd := 0, dp := 0,
        underscores := false }
    if ¬ st.sawdigits then none
    else
      let dp0 : Int := if st.sawdot then st.dp else st.nd
      let dp1 : Int := if hex then dp0 * 4 else dp0
      let ndMant : Int := if hex then st.nd * 4 else st.nd
      let expChar := if hex then 'p' else 'e'
      let fin (dp : Int) (underscores : Bool) (rest : List Char) : Option ReadFloat :=
        if underscores ∧ ¬ underscoreOK (s.take (s.length - rest.length)) then none
        else some { mantissa := st.mantissa, exp := if st.mantissa ≠ 0 then dp - ndMant else 0,
                    neg := neg, hex := hex, rest := rest }
      match s3 with
      | ce :: s4 =>
        if lower ce = expChar.toNat then
          match s4 with
          | [] => none
          | cs0 :: s5 =>
            let esign : Int := if cs0 = '-' then -1 else 1
            let s6 := if cs0 = '+' ∨ cs0 = '-' then s5 else s4
            match s6 with
            | [] => none
            | cd :: _ =>
              if ¬ isDigit cd then none
              else
                let (e, us, s7) := readExpDigits s6 0 st.underscores
                fin (dp1 + e * esign) us s7
        else if hex then none
        else fin dp1 st.underscores s3
      | [] => if hex then none else fin dp1 st.underscores s3

/-- Go `strconv.atof32` / `strconv.atof64` for the format `info`: datum, number of bytes
consumed, error. -/
def atof (info : FloatInfo) (s : List Char) : GoFloat × Nat × Option NumErr :=
  match special s with
  | some (val, n) => (val, n, none)
  | none =>
    match readFloat s with
    | none => (.finite false 0 0, 0, some .ErrSyntax)
    | some r =>
      let n := s.length - r.rest.length
      let b : Nat := if r.hex then 2 else 10
      let f := roundFloat info r.neg (r.mantissa * b ^ r.exp.toNat) (b ^ (-r.exp).toNat)
      (f.1, n, if f.2 then some .ErrRange else none)

/-- Go `strconv.parseFloatPrefix`. -/
def parseFloatPrefix (s : List Char) (bitSize : Int) : GoFloat × Nat × Option NumErr :=
  if bitSize = 32 then atof float32info s else atof float64info s

/-- Go `strconv.ParseFloat(s, bitSize)`. -/
def ParseFloat (s : String) (bitSize : Int) : GoFloat × Option NumErr :=
  let r := parseFloatPrefix s.data bitSize
  if r.2.1 ≠ s.data.length ∧ (r.2.2 = none ∨ r.2.2 ≠ some .ErrSyntax) then
    (.finite false 0 0, some .ErrSyntax)
  else (r.1, r.2.2)

/-- A Go complex number: real and imaginary parts. -/
structure GoComplex where
  re : GoFloat
  im : GoFloat
  deriving DecidableEq, Repr

/-- Conversion `complex64(x)` of a `complex128` datum. -/
def toComplex64 (z : GoComplex) : GoComplex := { re := toFloat32 z.re, im := toFloat32 z.im }

/-- Go `strconv.ParseComplex(s, bitSize)`. -/
def ParseComplex (s : String) (bitSize : Int) : GoComplex × Option NumErr :=
  let zero : GoFloat := .finite false 0 0
  let size : Int := if bitSize = 64 then 32 else 64
  let s0 := s.data
  let s1 := if s0.length ≥ 2 ∧ s0.head? = some '(' ∧ s0.getLast? = some ')' then
      (s0.drop 1).take (s0.length - 2) else s0
  let r := parseFloatPrefix s1 size
  if r.2.2 ≠ none ∧ r.2.2 ≠ some .ErrRange then ({ re := zero, im := zero }, r.2.2)
  else
    let pending := r.2.2
    let re := r.1
    let s2 := s1.drop r.2.1
    match s2 with
    | [] => ({ re := re, im := zero }, pending)
    | c :: cs =>
      let imag (s3 : List Char) : GoComplex × Option NumErr :=
        let r2 := parseFloatPrefix s3 size
        if r2.2.2 ≠ none ∧ r2.2.2 ≠ some .ErrRange then ({ re := zero, im := zero }, r2.2.2)
        else
          let pending2 := if r2.2.2 ≠ none then r2.2.2 else pending
          if s3.drop r2.2.1 ≠ ['i'] then ({ re := zero, im := zero }, some .ErrSyntax)
          else ({ re := re, im := r2.1 }, pending2)
      if c = '+' then
        match cs with
        | c1 :: _ => if c1 ≠ '+' then imag cs else imag s2
        | [] => imag s2
      else if c = '-' then imag s2
      else if c = 'i' ∧ cs = [] then ({ re := zero, im := re }, pending)
      else ({ re := zero, im := zero }, some .ErrSyntax)

/-! ## Floating-point arithmetic used by `time.ParseDuration` -/

/-- Conversion `float64(n)` of an unsigned integer. -/
def floatOfNat (n : Nat) : GoFloat := (roundFloat float64info false n 1).1

/-- The `float64` product `a * b`. -/
def fmul : GoFloat → GoFloat → GoFloat
  | .nan, _ => .nan
  | _, .nan => .nan
  | .inf s1, .inf s2 => .inf (s1 != s2)
  | .inf s1, .finite s2 m _ => if m = 0 then .nan else .inf (s1 != s2)
  | .finite s1 m _, .inf s2 => if m = 0 then .nan else .inf (s1 != s2)
  | .finite s1 m1 e1, .finite s2 m2 e2 =>
    (roundFloat float64info (s1 != s2) (m1 * m2 * 2 ^ (e1 + e2).toNat)
      (2 ^ (-(e1 + e2)).toNat)).1

/-- The `float64` quotient `a / b`. -/
def fdiv : GoFloat → GoFloat → GoFloat
  | .nan, _ => .nan
  | _, .nan => .nan
  | .inf _, .inf _ => .nan
  | .inf s1, .finite s2 _ _ => .inf (s1 != s2)
  | .finite s1 _ _, .inf s2 => .finite (s1 != s2) 0 0
  | .finite s1 m1 e1, .finite s2 m2 e2 =>
    if m2 = 0 then (if m1 = 0 then .nan else .inf (s1 != s2))
    else
      (roundFloat float64info (s1 != s2) (m1 * 2 ^ (e1 - e2).toNat)
        (m2 * 2 ^ (e2 - e1).toNat)).1

/-- Conversion `uint64(x)` of a `float64`: truncation toward zero.  Go leaves the result
unspecified when the value does not fit; `time.ParseDuration` converts only values
between `0` and `3.6e12`. -/
def floatToUint64 : GoFloat → Nat
  | .finite false m e => (m * 2 ^ e.toNat / 2 ^ (-e).toNat) % 2 ^ 64
  | _ => 0

/-! ## time.ParseDuration -/

/-- The digit loop of Go `time.leadingInt`; `none` is `errLeadingInt`. -/
def leadingIntLoop : List Char → Nat → Option (Nat × List Char)
  | [], x => some (x, [])
  | c :: cs, x =>
    if ¬ isDigit c then some (x, c :: cs)
    else if x > 2 ^ 63 / 10 then none
    else
      let x1 := (x * 10 + c.toNat - '0'.toNat) % 2 ^ 64
      if x1 > 2 ^ 63 then none else leadingIntLoop cs x1

/-- Go `time.leadingInt`: the leading run of digits as a number, and the rest. -/
def leadingInt (s : List Char) : Option (Nat × List Char) := leadingIntLoop s 0

/-- Go `time.leadingFraction`: value of the leading digits, the scale `10^k` as a
`float64`, and the rest; digits beyond the capacity of the value are skipped. -/
def leadingFractionLoop : List Char → Nat → GoFloat → Bool → Nat × GoFloat × List Char
  | [], x, scale, _ => (x, scale, [])
  | c :: cs, x, scale, overflow =>
    if ¬ isDigit c then (x, scale, c :: cs)
    else if overflow then leadingFractionLoop cs x scale overflow
    else if x > (2 ^ 63 - 1) / 10 then leadingFractionLoop cs x scale true
    else
      let y := (x * 10 + c.toNat - '0'.toNat) % 2 ^ 64
      if y > 2 ^ 63 then leadingFractionLoop cs x scale true
      else leadingFractionLoop cs y (fmul scale (floatOfNat 10)) overflow

/-- Go `time.leadingFraction`. -/
def leadingFraction (s : List Char) : Nat × GoFloat × List Char :=
  leadingFractionLoop s 0 (floatOfNat 1) false

/-- Go `time.unitMap`: nanoseconds per unit. -/
def unitMap (u : String) : Option Nat :=
  if u = "ns" then some 1
  else if u = "us" then some 1000
  else if u = "µs" then some 1000
  else if u = "μs" then some 1000
  else if u = "ms" then some 1000000
  else if u = "s" then some 1000000000
  else if u = "m" then some 60000000000
  else if u = "h" then some 3600000000000
  else none

/-- The error of `time.ParseDuration` and `time.Parse`. -/
inductive TimeErr where
  | invalid
  deriving DecidableEq, Repr

/-- The `for s != ""` loop of `time.ParseDuration`, accumulating `d`; every round
consumes at least the unit, so `fuel = len(s)` rounds are never exhausted. `none` is the
error return. -/
def parseDurationLoop : Nat → List Char → Nat → Option Nat
  | _, [], d => some d
  | 0, _ :: _, _ => none
  | fuel + 1, c :: cs, d =>
    let s := c :: cs
    if ¬ (c = '.' ∨ isDigit c) then none
    else
      match leadingInt s with
      | none => none
      | some (v, s1) =>
        let pre := decide (s.length ≠ s1.length)
        let frac : Nat × GoFloat × List Char × Bool := match s1 with
          | c1 :: s2 =>
            if c1 = '.' then
              let r := leadingFraction s2
              (r.1, r.2.1, r.2.2, decide (s2.length ≠ r.2.2.length))
            else (0, floatOfNat 1, s1, false)
          | [] => (0, floatOfNat 1, s1, false)
        let f := frac.1
        let scale := frac.2.1
        let s3 := frac.2.2.1
        let post := frac.2.2.2
        if ¬ pre ∧ ¬ post then none
        else
          let u := s3.takeWhile (fun ch => ¬ (ch = '.' ∨ isDigit ch))
          let s4 := s3.dropWhile (fun ch => ¬ (ch = '.' ∨ isDigit ch))
          if u.length = 0 then none
          else
            match unitMap (String.mk u) with
            | none => none
            | some unit =>
              if v > 2 ^ 63 / unit then none
              else
                let v1 := (v * unit) % 2 ^ 64
                let v2 := if f > 0 then
                    (v1 + floatToUint64 (fmul (floatOfNat f) (fdiv (floatOfNat unit) scale)))
                      % 2 ^ 64
                  else v1
                if f > 0 ∧ v2 > 2 ^ 63 then none
                else
                  let d1 := (d + v2) % 2 ^ 64
                  if d1 > 2 ^ 63 then none else parseDurationLoop fuel s4 d1

/-- Go `time.ParseDuration`; the value is in nanoseconds. -/
def ParseDuration (str : String) : Int × Option TimeErr :=
  let neg : Bool := match str.data with
    | c :: _ => decide (c = '-')
    | [] => false
  let s : List Char := match str.data with
    | c :: cs => if c = '-' ∨ c = '+' then cs else str.data
    | [] => str.data
  if s = ['0'] then (0, none)
  else if s = [] then (0, some .invalid)
  else
    match parseDurationLoop s.length s 0 with
    | none => (0, some .invalid)
    | some d =>
      if neg then (wrapS 64 (-(wrapS 64 d)), none)
      else if d > 2 ^ 63 - 1 then (0, some .invalid)
      else (wrapS 64 d, none)

/-! ## time.Parse with the layout `time.RFC1123` -/

/-- The `loc` field of a Go `time.Time`: `nil` (which stands for UTC and is what
`setLoc(UTC)` stores), the local location, or a location made by `time.FixedZone`. -/
inductive Loc where
  | utc
  | local
  | fixed (name : String) (offset : Int)
  deriving DecidableEq, Repr

/-- A Go `time.Time` without monotonic reading: `sec` counts seconds since
January 1, year 1, 00:00:00 UTC (the `ext` field), `nsec` the nanoseconds within the
second. -/
structure Time where
  sec : Int
  nsec : Nat
  loc : Loc
  deriving DecidableEq, Repr

/-- The part of a `*time.Location` that `time.Parse` consults: `lookupName name unix`
is the offset in seconds of the zone abbreviation `name`, when the location has one. -/
structure Location where
  lookupName : String → Int → Option Int

/-- Go `unixToInternal`: seconds from January 1, year 1 to January 1, 1970. -/
def unixToInternal : Int := 62135596800

/-- Go `time.isLeap`. -/
def isLeap (year : Int) : Bool :=
  decide (year % 4 = 0) && (decide (year % 100 ≠ 0) || decide (year % 400 = 0))

/-- Go `time.daysBefore`: days in a non-leap year before the end of month `m`. -/
def daysBefore (m : Nat) : Int :=
  [0, 31, 59, 90, 120, 151, 181, 212, 243, 273, 304, 334, 365].getD m 0

/-- Go `time.daysIn`. -/
def daysIn (m : Nat) (year : Int) : Int :=
  if m = 2 ∧ isLeap year then 29 else daysBefore m - daysBefore (m - 1)

/-- Go `time.Date(year, month, day, hour, min, sec, nsec, UTC)` for arguments already
in range (which `time.Parse` checks before the call), as seconds since year 1. -/
def dateUTC (year : Int) (month : Nat) (day hour min sec : Int) : Int :=
  let y := year - 1
  let days := 365 * y + y / 4 - y / 100 + y / 400 + daysBefore (month - 1)
    + (if isLeap year ∧ month ≥ 3 then 1 else 0) + (day - 1)
  days * 86400 + hour * 3600 + min * 60 + sec

/-- Go `time.cutspace`. -/
def cutspace : List Char → List Char
  | c :: cs => if c = ' ' then cutspace cs else c :: cs
  | [] => []

/-- Go `time.skip`: `value` without the layout text `pfx` in front; a space of the
layout stands for any run of spaces. `none` is `errBad`. -/
def skip : Nat → List Char → List Char → Option (List Char)
  | _, value, [] => some value
  | 0, _, _ :: _ => none
  | fuel + 1, value, p :: ps =>
    if p = ' ' then
      match value with
      | v :: _ => if v ≠ ' ' then none else skip fuel (cutspace value) (cutspace (p :: ps))
      | [] => skip fuel (cutspace value) (cutspace (p :: ps))
    else
      match value with
      | v :: vs => if v ≠ p then none else skip fuel vs ps
      | [] => none

/-- Go `time.match`: equality of two texts of one length, ignoring ASCII case. -/
def matchFold : List Char → List Char → Bool
  | c1 :: r1, c2 :: r2 =>
    if c1 ≠ c2 then
      if lower c1 ≠ lower c2 ∨ lower c1 < 'a'.toNat ∨ lower c1 > 'z'.toNat then false
      else matchFold r1 r2
    else matchFold r1 r2
  | _, _ => true

/-- Go `time.lookup`: index of the first entry of `tab` that `val` starts with
(ignoring case), and the rest of `val`. -/
def lookup : List String → List Char → Nat → Option (Nat × List Char)
  | [], _, _ => none
  | v :: tab, val, i =>
    if val.length ≥ v.length ∧ matchFold (val.take v.length) v.data then
      some (i, val.drop v.length)
    else lookup tab val (i + 1)

/-- Go `time.shortDayNames`. -/
def shortDayNames : List String := ["Sun", "Mon", "Tue", "Wed", "Thu", "Fri", "Sat"]

/-- Go `time.shortMonthNames`. -/
def shortMonthNames : List String :=
  ["Jan", "Feb", "Mar", "Apr", "May", "Jun", "Jul", "Aug", "Sep", "Oct", "Nov", "Dec"]

/-- Go `time.getnum`: a one- or two-digit number (`fixed`: exactly two digits). -/
def getnum (s : List Char) (fixed : Bool) : Option (Int × List Char) :=
  match s with
  | c0 :: c1 :: rest =>
    if ¬ isDigit c0 then none
    else if ¬ isDigit c1 then (if fixed then none else some (c0.toNat - '0'.toNat, c1 :: rest))
    else some ((c0.toNat - '0'.toNat) * 10 + (c1.toNat - '0'.toNat), rest)
  | [c0] =>
    if ¬ isDigit c0 then none
    else if fixed then none else some (c0.toNat - '0'.toNat, [])
  | [] => none

/-- Go `time.atoi`. -/
def atoi (s : List Char) : Option Int :=
  let neg : Bool := match s with
    | c :: _ => decide (c = '-')
    | [] => false
  let s1 := match s with
    | c :: cs => if c = '-' ∨ c = '+' then cs else s
    | [] => s
  match leadingInt s1 with
  | none => none
  | some (q, rem) =>
    if rem.length > 0 then none
    else
      let x := wrapS 64 q
      some (if neg then wrapS 64 (-x) else x)

/-- Go `time.parseNanoseconds(value, nbytes)`, called with `value[0]` a comma or period
followed by `nbytes - 1` digits. -/
def parseNanoseconds (value : List Char) (nbytes : Nat) : Option Int :=
  match value with
  | [] => none
  | c :: _ =>
    if ¬ (c = '.' ∨ c = ',') then none
    else
      let nb := if nbytes > 10 then 10 else nbytes
      let v := if nbytes > 10 then value.take 10 else value
      match atoi ((v.take nb).drop 1) with
      | none => none
      | some ns => if ns < 0 then none else some (ns * 10 ^ (10 - nb))

/-- Go `time.parseSignedOffset`: length of a leading signed hour offset, `0` if none. -/
def parseSignedOffset (value : List Char) : Nat :=
  match value with
  | [] => 0
  | sign :: v1 =>
    if sign ≠ '-' ∧ sign ≠ '+' then 0
    else
      match leadingInt v1 with
      | none => 0
      | some (x, rem) =>
        if v1 = rem then 0
        else if x > 23 then 0
        else value.length - rem.length

/-- Go `time.parseGMT`, for a value that starts with `GMT`. -/
def parseGMT (value : List Char) : Nat :=
  let v := value.drop 3
  if v.length = 0 then 3 else 3 + parseSignedOffset v

/-- Number of leading upper-case letters of `value`, counted up to `6`. -/
def countUpper : Nat → List Char → Nat
  | 0, _ => 0
  | _ + 1, [] => 0
  | k + 1, c :: cs =>
    if c.toNat < 'A'.toNat ∨ 'Z'.toNat < c.toNat then 0 else countUpper k cs + 1

/-- Go `time.parseTimeZone`: length of a leading time-zone abbreviation; `none` is
`ok == false`. -/
def parseTimeZone (value : List Char) : Option Nat :=
  if value.length < 3 then none
  else if value.length ≥ 4 ∧ (value.take 4 = "ChST".data ∨ value.take 4 = "MeST".data) then
    some 4
  else if value.take 3 = "GMT".data then some (parseGMT value)
  else if value.head? = some '+' ∨ value.head? = some '-' then
    let length := parseSignedOffset value
    if length > 0 then some length else none
  else
    let nUpper := countUpper 6 value
    if nUpper = 5 then (if value.get? 4 = some 'T' then some 5 else none)
    else if nUpper = 4 then
      (if value.get? 3 = some 'T' ∨ value.take 4 = "WITA".data then some 4 else none)
    else if nUpper = 3 then some 3
    else none

/-- The zone element `MST` of the layout: either the literal `UTC`, or an abbreviation
accepted by `parseTimeZone`.  Returns whether `z = UTC` was set, the zone name, and
the rest. -/
def parseTZ (value : List Char) : Option (Bool × List Char × List Char) :=
  if value.length ≥ 3 ∧ value.take 3 = "UTC".data then some (true, [], value.drop 3)
  else
    match parseTimeZone value with
    | none => none
    | some n => some (false, value.take n, value.drop n)

/-- The seconds element `05` of the layout, with the fractional second that
`time.Parse` accepts after it although the layout has none.  Returns seconds,
nanoseconds and the rest. -/
def parseSeconds (value : List Char) : Option (Int × Int × List Char) :=
  match getnum value true with
  | none => none
  | some (sec, v1) =>
    if sec < 0 ∨ 60 ≤ sec then none
    else
      match v1 with
      | c0 :: c1 :: _ =>
        if (c0 = '.' ∨ c0 = ',') ∧ isDigit c1 then
          let n := 2 + ((v1.drop 2).takeWhile (fun ch => isDigit ch)).length
          match parseNanoseconds v1 n with
          | none => none
          | some nsec => some (sec, nsec, v1.drop n)
        else some (sec, 0, v1)
      | _ => some (sec, 0, v1)

/-- The year element `2006` of the layout: four bytes, the first a digit, read by
`atoi`. -/
def parseLongYear (value : List Char) : Option (Int × List Char) :=
  if value.length < 4 ∨ (value.head?.map isDigit).getD false = false then none
  else
    match atoi (value.take 4) with
    | none => none
    | some year => some (year, value.drop 4)

/-- Go `time.Parse(time.RFC1123, value)`, the layout being
`"Mon, 02 Jan 2006 15:04:05 MST"`: the elements of the layout are read in turn, each
after skipping the literal text in front of it; `localLoc` is `time.Local`.  On any error
the result is `Time{}` with a non-nil error. -/
def ParseRFC1123 (localLoc : Location) (value : String) : Time × Option TimeErr :=
  let bad : Time × Option TimeErr := ({ sec := 0, nsec := 0, loc := .utc }, some .invalid)
  match lookup shortDayNames value.data 0 with
  | none => bad
  | some (_, v1) =>
  match skip 3 v1 ", ".data with
  | none => bad
  | some v2 =>
  match getnum v2 true with
  | none => bad
  | some (day, v3) =>
  match skip 2 v3 " ".data with
  | none => bad
  | some v4 =>
  match lookup shortMonthNames v4 0 with
  | none => bad
  | some (m, v5) =>
  let month := m + 1
  match skip 2 v5 " ".data with
  | none => bad
  | some v6 =>
  match parseLongYear v6 with
  | none => bad
  | some (year, v7) =>
  match skip 2 v7 " ".data with
  | none => bad
  | some v8 =>
  match getnum v8 false with
  | none => bad
  | some (hour, v9) =>
  if hour < 0 ∨ 24 ≤ hour then bad else
  match skip 2 v9 ":".data with
  | none => bad
  | some v10 =>
  match getnum v10 true with
  | none => bad
  | some (min, v11) =>
  if min < 0 ∨ 60 ≤ min then bad else
  match skip 2 v11 ":".data with
  | none => bad
  | some v12 =>
  match parseSeconds v12 with
  | none => bad
  | some (sec, nsec, v13) =>
  match skip 2 v13 " ".data with
  | none => bad
  | some v14 =>
  match parseTZ v14 with
  | none => bad
  | some (isUTC, zoneName, v15) =>
  if v15.length ≠ 0 then bad
  else if day < 1 ∨ day > daysIn month year then bad
  else
    let t := dateUTC year month day hour min sec
    if isUTC then ({ sec := t, nsec := nsec.toNat, loc := .utc }, none)
    else if zoneName ≠ [] then
      match localLoc.lookupName (String.mk zoneName) (t - unixToInternal) with
      | some offset => ({ sec := t - offset, nsec := nsec.toNat, loc := .local }, none)
      | none =>
        let offset : Int :=
          if zoneName.length > 3 ∧ zoneName.take 3 = "GMT".data then
            (atoi (zoneName.drop 3)).getD 0 * 3600
          else 0
        ({ sec := t, nsec := nsec.toNat, loc := .fixed (String.mk zoneName) offset }, none)
    else ({ sec := t, nsec := nsec.toNat, loc := .utc }, none)

/-- A location without zone abbreviations. -/
def noZones : Location := { lookupName := fun _ _ => none }

/-! ## genv: the type set, values and interface values -/

/-- The type set of the constraint `envType`: the types `T` at which `Get`,
`GetWithDefault` and `getVal` can be instantiated. -/
inductive EnvType where
  | string
  | bool
  | uint
  | uint8
  | uint16
  | uint32
  | uint64
  | int
  | int8
  | int16
  | int32
  | int64
  | float32
  | float64
  | complex64
  | complex128
  | time
  | duration
  deriving DecidableEq, Repr

/-- The values of each type of the type set. -/
@[reducible] def EnvType.Val : EnvType → Type
  | .string => String
  | .bool => Bool
  | .uint | .uint8 | .uint16 | .uint32 | .uint64 => Nat
  | .int | .int8 | .int16 | .int32 | .int64 => Int
  | .float32 | .float64 => GoFloat
  | .complex64 | .complex128 => GoComplex
  | .time => Time
  | .duration => Int

/-- The zero value of `T`, the value of `var v T`. -/
def zero : (T : EnvType) → T.Val
  | .string => ""
  | .bool => false
  | .uint | .uint8 | .uint16 | .uint32 | .uint64 => (0 : Nat)
  | .int | .int8 | .int16 | .int32 | .int64 => (0 : Int)
  | .float32 | .float64 => GoFloat.finite false 0 0
  | .complex64 | .complex128 =>
    { re := GoFloat.finite false 0 0, im := GoFloat.finite false 0 0 }
  | .time => { sec := 0, nsec := 0, loc := .utc }
  | .duration => (0 : Int)

/-- An interface value `any(x)`: the dynamic type of `x` and `x` itself. -/
structure Any where
  dyn : EnvType
  val : dyn.Val

/-- A run-time panic. -/
inductive Panic where
  | typeAssertion
  deriving DecidableEq, Repr

deriving instance DecidableEq for Except

/-- The type assertion `a.(T)`: the value held by `a` when its dynamic type is `T`, a
panic otherwise. -/
def assertT (T : EnvType) (a : Any) : Except Panic T.Val :=
  if h : a.dyn = T then .ok (h ▸ a.val) else .error .typeAssertion

/-- The package variable `base`. -/
def base : Int := 10

/-- The package variable `bit8`. -/
def bit8 : Int := 8

/-- The package variable `bit16`. -/
def bit16 : Int := 16

/-- The package variable `bit32`. -/
def bit32 : Int := 32

/-- The package variable `bit64`. -/
def bit64 : Int := 64

/-- The package variable `bit128`. -/
def bit128 : Int := 128

/-! ## genv: the process environment and the platform -/

/-- The process environment: the value of each variable that is set. -/
def Env : Type := String → Option String

/-- Go `os.Getenv`: the value of the variable, `""` when it is not set. -/
def Getenv (env : Env) (key : String) : String := (env key).getD ""

/-- What the Go runtime holds outside `genv.go` when a function of the package is
called: the width of `int` and `uint` (`strconv.IntSize`, 32 or 64) and the state of the
variable `time.Local`.  The `time` package loads the local location once per process, at
its first use, from the system zone database as directed by the variable `TZ` (unset,
empty or a zone name): this is `initLocal`.  A program can also assign `time.Local`.
`Local` is `some l` when the location `l` was loaded by an earlier use or assigned before
the call, and `none` when the call is the first use. -/
structure Platform where
  is64 : Bool
  initLocal : Option String → Location
  Local : Option Location

/-- Go `strconv.IntSize`. -/
def Platform.IntSize (P : Platform) : Nat := if P.is64 then 64 else 32

/-- Go `time.Local.get()`: the local location in force during a call made with
environment `env`; the first use loads it from the value that `TZ` has then. -/
def Platform.getLocal (P : Platform) (env : Env) : Location :=
  match P.Local with
  | some l => l
  | none => P.initLocal (env "TZ")

/-! ## genv: `getVal`, `Get`, `GetWithDefault` -/

/-- The function `getVal[T]` of `genv.go`.  `intSize` and `localLoc` are
`strconv.IntSize` and `time.Local`.  The type switch inspects the dynamic type of
`any(v)`; every `any(x).(T)` is a checked type assertion. -/
def getVal (intSize : Nat) (localLoc : Location) (T : EnvType) (val : String) :
    Except Panic T.Val :=
  let v : T.Val := zero T
  if val = "" then .ok v
  else
    match (Any.mk T v).dyn with
    | .string =>
      match assertT T (Any.mk .string val) with
      | .error p => .error p
      | .ok v1 => .ok v1
    | .bool =>
      let r := ParseBool val
      if r.2 ≠ none then .ok v else assertT T (Any.mk .bool r.1)
    | .uint =>
      let r := ParseUint intSize val base 0
      if r.2 ≠ none then .ok v else assertT T (Any.mk .uint (wrapU intSize r.1))
    | .uint8 =>
      let r := ParseUint intSize val base bit8
      if r.2 ≠ none then .ok v else assertT T (Any.mk .uint8 (wrapU 8 r.1))
    | .uint16 =>
      let r := ParseUint intSize val base bit16
      if r.2 ≠ none then .ok v else assertT T (Any.mk .uint16 (wrapU 16 r.1))
    | .uint32 =>
      let r := ParseUint intSize val base bit32
      if r.2 ≠ none then .ok v else assertT T (Any.mk .uint32 (wrapU 32 r.1))
    | .uint64 =>
      let r := ParseUint intSize val base bit64
      if r.2 ≠ none then .ok v else assertT T (Any.mk .uint64 r.1)
    | .int =>
      let r := ParseInt intSize val base 0
      if r.2 ≠ none then .ok v else assertT T (Any.mk .int (wrapS intSize r.1))
    | .int8 =>
      let r := ParseInt intSize val base bit8
      if r.2 ≠ none then .ok v else assertT T (Any.mk .int8 (wrapS 8 r.1))
    | .int16 =>
      let r := ParseInt intSize val base bit16
      if r.2 ≠ none then .ok v else assertT T (Any.mk .int16 (wrapS 16 r.1))
    | .int32 =>
      let r := ParseInt intSize val base bit32
      if r.2 ≠ none then .ok v else assertT T (Any.mk .int32 (wrapS 32 r.1))
    | .int64 =>
      let r := ParseInt intSize val base bit64
      if r.2 ≠ none then .ok v else assertT T (Any.mk .int64 r.1)
    | .float32 =>
      let r := ParseFloat val bit32
      if r.2 ≠ none then .ok v else assertT T (Any.mk .float32 (toFloat32 r.1))
    | .float64 =>
      let r := ParseFloat val bit64
      if r.2 ≠ none then .ok v else assertT T (Any.mk .float64 r.1)
    | .complex64 =>
      let r := ParseComplex val bit64
      if r.2 ≠ none then .ok v else assertT T (Any.mk .complex64 (toComplex64 r.1))
    | .complex128 =>
      let r := ParseComplex val bit128
      if r.2 ≠ none then .ok v else assertT T (Any.mk .complex128 r.1)
    | .duration =>
      let r := ParseDuration val
      if r.2 ≠ none then .ok v else assertT T (Any.mk .duration r.1)
    | .time =>
      let r := ParseRFC1123 localLoc val
      if r.2 ≠ none then .ok v else assertT T (Any.mk .time r.1)

/-- The function `Get[T]` of `genv.go`, run on platform `P` with environment `env`. -/
def Get (P : Platform) (env : Env) (T : EnvType) (key : String) : Except Panic T.Val :=
  let val := Getenv env key
  getVal P.IntSize (P.getLocal env) T val

/-- The function `GetWithDefault[T]` of `genv.go`, run on platform `P` with environment
`env`. -/
def GetWithDefault (P : Platform) (env : Env) (T : EnvType) (key : String)
    (defaultVal : T.Val) : Except Panic T.Val :=
  let val := Getenv env key
  if val = "" then .ok defaultVal
  else getVal P.IntSize (P.getLocal env) T val

/-- The environment of the test suite `genv_test.go`. -/
def testEnvs : Env := fun k =>
  if k = "BOOL" then some "true"
  else if k = "COMPLEX" then some "10+10i"
  else if k = "DURATION" then some "10s"
  else if k = "FLOAT" then some "1.0"
  else if k = "INT" then some "1"
  else if k = "STRING" then some "string"
  else if k = "TIME" then some "Thu, 30 May 2024 20:06:14 GMT"
  else if k = "UINT" then some "1"
  else if k = "UNBOOL" then some "not a bool"
  else if k = "UNNUMBER" then some "not an int"
  else none

/-- A 64-bit platform whose local location is UTC whatever `TZ` holds. -/
def linux64 : Platform := { is64 := true, initLocal := fun _ => noZones, Local := none }

/-- The outcome "`T`'s parser rejects `val`": the parser that `getVal` calls for `T`,
with the arguments `getVal` passes, returns a non-nil error.  Text has no parser. -/
def parseErr (intSize : Nat) (localLoc : Location) : EnvType → String → Bool
  | .string, _ => false
  | .bool, val => decide ((ParseBool val).2 ≠ none)
  | .uint, val => decide ((ParseUint intSize val base 0).2 ≠ none)
  | .uint8, val => decide ((ParseUint intSize val base bit8).2 ≠ none)
  | .uint16, val => decide ((ParseUint intSize val base bit16).2 ≠ none)
  | .uint32, val => decide ((ParseUint intSize val base bit32).2 ≠ none)
  | .uint64, val => decide ((ParseUint intSize val base bit64).2 ≠ none)
  | .int, val => decide ((ParseInt intSize val base 0).2 ≠ none)
  | .int8, val => decide ((ParseInt intSize val base bit8).2 ≠ none)
  | .int16, val => decide ((ParseInt intSize val base bit16).2 ≠ none)
  | .int32, val => decide ((ParseInt intSize val base bit32).2 ≠ none)
  | .int64, val => decide ((ParseInt intSize val base bit64).2 ≠ none)
  | .float32, val => decide ((ParseFloat val bit32).2 ≠ none)
  | .float64, val => decide ((ParseFloat val bit64).2 ≠ none)
  | .complex64, val => decide ((ParseComplex val bit64).2 ≠ none)
  | .complex128, val => decide ((ParseComplex val bit128).2 ≠ none)
  | .duration, val => decide ((ParseDuration val).2 ≠ none)
  | .time, val => decide ((ParseRFC1123 localLoc val).2 ≠ none)

/-- "`T`'s parser rejects `val`" on platform `P` with environment `env`. -/
def rejects (P : Platform) (env : Env) (T : EnvType) (val : String) : Prop :=
  parseErr P.IntSize (P.getLocal env) T val = true

/-! ## Decimal numerals -/

/-- One round of the digit loop in base 10: the number read so far, extended by the
decimal digit `c`. -/
def stepD (n : Nat) (c : Char) : Nat := n * 10 + (c.toNat - '0'.toNat)

/-- The value of a run of decimal digits. -/
def decVal (ds : List Char) : Nat := ds.foldl stepD 0

/-- The digit loop of Go `strconv.formatBits` in base 10: the digits of `u` are put in
front of `acc`, least significant first.  `fuel` bounds the number of rounds. -/
def formatDigits : Nat → Nat → List Char → List Char
  | 0, _, acc => acc
  | fuel + 1, u, acc =>
    if u ≥ 10 then formatDigits fuel (u / 10) (Char.ofNat (u % 10 + '0'.toNat) :: acc)
    else Char.ofNat (u + '0'.toNat) :: acc

/-- Go `strconv.FormatUint(u, 10)`: the canonical base-10 rendering of `u`. -/
def FormatUint (u : Nat) : String := String.mk (formatDigits (u + 1) u [])

/-- Go `strconv.FormatInt(i, 10)`: the canonical base-10 rendering of the `int64` `i`. -/
def FormatInt (i : Int) : String :=
  if i < 0 then String.mk ('-' :: formatDigits (wrapU 64 (-i) + 1) (wrapU 64 (-i)) [])
  else FormatUint (wrapU 64 i)

/-- The bit width of the fixed-width unsigned types. -/
def unsignedWidth : EnvType → Option Nat
  | .uint8 => some 8
  | .uint16 => some 16
  | .uint32 => some 32
  | .uint64 => some 64
  | _ => none

/-- The bit width of the fixed-width signed types. -/
def signedWidth : EnvType → Option Nat
  | .int8 => some 8
  | .int16 => some 16
  | .int32 => some 32
  | .int64 => some 64
  | _ => none

/-- The texts that `strconv.ParseBool` reads as `true`. -/
def boolTrueForms : List String := ["1", "t", "T", "TRUE", "true", "True"]

/-- The integer types of the type set. -/
def isIntType : EnvType → Bool
  | .uint | .uint8 | .uint16 | .uint32 | .uint64 => true
  | .int | .int8 | .int16 | .int32 | .int64 => true
  | _ => false

/-- The signed integer types of the type set. -/
def isSignedType : EnvType → Bool
  | .int | .int8 | .int16 | .int32 | .int64 => true
  | _ => false

/-- The strict base-10 shape: one or more ASCII decimal digits, with one sign character
(`+` or `-`) allowed in front when `signed`, and none otherwise. -/
def strictBase10 (signed : Bool) (s : List Char) : Bool :=
  match s with
  | [] => false
  | c :: cs =>
    if signed && (decide (c = '+') || decide (c = '-')) then !cs.isEmpty && cs.all isDigit
    else s.all isDigit

/-- The number held by a value of an integer type (`none` at the other types). -/
def EnvType.toInt : (T : EnvType) → T.Val → Option Int
  | .uint, (v : Nat) => some (v : Int)
  | .uint8, (v : Nat) => some (v : Int)
  | .uint16, (v : Nat) => some (v : Int)
  | .uint32, (v : Nat) => some (v : Int)
  | .uint64, (v : Nat) => some (v : Int)
  | .int, (v : Int) => some v
  | .int8, (v : Int) => some v
  | .int16, (v : Int) => some v
  | .int32, (v : Int) => some v
  | .int64, (v : Int) => some v
  | _, _ => none

/-- The local location of a process run with `TZ=America/Denver`: it knows the zone
abbreviations `MST` (7 hours west of UTC) and `MDT` (6 hours west of UTC). -/
def denverLocation : Location :=
  { lookupName := fun name _ =>
      if name = "MST" then some (-25200) else if name = "MDT" then some (-21600) else none }

/-- A 64-bit platform whose zone database has `America/Denver`; with any other setting
of `TZ` the local location is taken to be UTC.  The local location is not loaded yet. -/
def tzPlatform : Platform :=
  { is64 := true
    initLocal := fun tz => if tz = some "America/Denver" then denverLocation else noZones
    Local := none }

/-- An environment with a timestamp in zone `MST` and no `TZ`. -/
def envPlain : Env := fun k =>
  if k = "TIME" then some "Thu, 30 May 2024 20:06:14 MST" else none

/-- The same environment with `TZ=America/Denver` added. -/
def envDenver : Env := fun k =>
  if k = "TIME" then some "Thu, 30 May 2024 20:06:14 MST"
  else if k = "TZ" then some "America/Denver" else none

/-- The environment `envDenver` with one more variable. -/
def envDenverHome : Env := fun k =>
  if k = "HOME" then some "/root" else envDenver k

/-- The platform `tzPlatform` in a process that has already loaded its local location,
at a time when `TZ` was not set. -/
def tzLoaded : Platform := { tzPlatform with Local := some (tzPlatform.initLocal none) }

/-- The decimal digit `d` as a character. -/
def digitChar (d : Nat) : Char := Char.ofNat (d % 10 + '0'.toNat)

/-- Go `appendInt(b, n, 2)` for `0 <= n < 100`: two decimal digits, zero-padded. -/
def twoDigits (n : Nat) : List Char := [digitChar (n / 10), digitChar n]

/-- Go `appendInt(b, n, 4)` for `0 <= n < 10000`: four decimal digits, zero-padded. -/
def fourDigits (n : Nat) : List Char :=
  [digitChar (n / 1000), digitChar (n / 100), digitChar (n / 10), digitChar n]

/-- The text in the layout RFC1123 of a date and a time of day in a zone with
abbreviation `GMT`, each number in its fixed width; `wd` is the day of the week. -/
def renderRFC1123 (wd year month day hour min sec : Nat) : List Char :=
  (shortDayNames.getD wd "").data ++ [',', ' '] ++ twoDigits day ++ [' ']
    ++ (shortMonthNames.getD (month - 1) "").data ++ [' '] ++ fourDigits year ++ [' ']
    ++ twoDigits hour ++ [':'] ++ twoDigits min ++ [':'] ++ twoDigits sec
    ++ [' ', 'G', 'M', 'T']

/-- The dates and times of day of the instants with a four-digit year. -/
def validCivil (year month day hour min sec : Nat) : Prop :=
  year ≤ 9999 ∧ 1 ≤ month ∧ month ≤ 12 ∧ 1 ≤ day ∧ (day : Int) ≤ daysIn month year
    ∧ hour < 24 ∧ min < 60 ∧ sec < 60

/-! ## time.Time.Format with the layout `time.RFC1123` -/

/-- Go `internalToAbsolute`: seconds from January 1 of the absolute zero year
(`absoluteZeroYear`) to January 1 of year 1. -/
def internalToAbsolute : Int := 9223371966579724800

/-- Go `absoluteZeroYear`. -/
def absoluteZeroYear : Int := -292277022399

/-- Go `secondsPerDay`. -/
def secondsPerDay : Nat := 86400

/-- Go `secondsPerWeek`. -/
def secondsPerWeek : Nat := 7 * secondsPerDay

/-- Go `daysPer400Years`. -/
def daysPer400Years : Nat := 365 * 400 + 97

/-- Go `daysPer100Years`. -/
def daysPer100Years : Nat := 365 * 100 + 24

/-- Go `daysPer4Years`. -/
def daysPer4Years : Nat := 365 * 4 + 1

/-- Go `time.absWeekday`: the day of the week of an absolute time, Sunday being `0`;
January 1 of the absolute zero year is a Monday. -/
def absWeekday (abs : Nat) : Nat :=
  ((abs + 1 * secondsPerDay) % 2 ^ 64 % secondsPerWeek) / secondsPerDay

/-- Go `time.absClock`: hour, minute and second of an absolute time. -/
def absClock (abs : Nat) : Nat × Nat × Nat :=
  let sec := abs % secondsPerDay
  let hour := sec / 3600
  let sec := sec - hour * 3600
  let min := sec / 60
  let sec := sec - min * 60
  (hour, min, sec)

/-- The first part of Go `time.absDate`: the year of an absolute time and the day within
the year, counted from `0`.  The cycles of 400, 100 and 4 years are cut off in turn;
`n - n / 4` is the Go `n -= n >> 2`. -/
def absYearDay (abs : Nat) : Int × Nat :=
  let d := abs / secondsPerDay
  let n := d / daysPer400Years
  let y := 400 * n
  let d := d - daysPer400Years * n
  let n := d / daysPer100Years
  let n := n - n / 4
  let y := y + 100 * n
  let d := d - daysPer100Years * n
  let n := d / daysPer4Years
  let y := y + 4 * n
  let d := d - daysPer4Years * n
  let n := d / 365
  let n := n - n / 4
  let y := y + n
  let d := d - 365 * n
  ((y : Int) + absoluteZeroYear, d)

/-- The second part of Go `time.absDate` (`full == true`): month and day of the month of
the day `yday` of a year that is a leap year or not. -/
def monthDay (leap : Bool) (yday : Nat) : Nat × Nat :=
  if leap ∧ yday = 31 + 29 - 1 then (2, 29)
  else
    let day := if leap ∧ yday > 31 + 29 - 1 then yday - 1 else yday
    let month := day / 31
    let endDay := (daysBefore (month + 1)).toNat
    if day ≥ endDay then (month + 1 + 1, day - endDay + 1)
    else (month + 1, day - (daysBefore month).toNat + 1)

/-- Go `time.absDate(abs, true)`: year, month and day of an absolute time. -/
def absDate (abs : Nat) : Int × Nat × Nat :=
  let yd := absYearDay abs
  (yd.1, monthDay (isLeap yd.1) yd.2)

/-- Go `time.longDayNames`. -/
def longDayNames : List String :=
  ["Sunday", "Monday", "Tuesday", "Wednesday", "Thursday", "Friday", "Saturday"]

/-- Go `time.longMonthNames`. -/
def longMonthNames : List String :=
  ["January", "February", "March", "April", "May", "June", "July", "August", "September",
   "October", "November", "December"]

/-- Go `time.appendInt(b, x, width)`: the decimal digits of `x`, after a minus sign when
`x` is negative, zero-padded to `width` digits. -/
def appendInt (x : Int) (width : Nat) : List Char :=
  let u := x.natAbs
  let ds := formatDigits (u + 1) u []
  (if x < 0 then ['-'] else []) ++ List.replicate (width - ds.length) '0' ++ ds

/-- Go `t.Format(time.RFC1123)`, the layout being `"Mon, 02 Jan 2006 15:04:05 MST"`, for a
time `t` that holds `sec` seconds since year 1 and whose location gives the zone
abbreviation `name` and the offset `offset` (the results of `t.locabs()`).  A zone
without abbreviation is shown as a signed offset in hours and minutes. -/
def FormatRFC1123 (name : String) (offset : Int) (sec : Int) : String :=
  let abs := wrapU 64 (sec + offset + internalToAbsolute)
  let ymd := absDate abs
  let hms := absClock abs
  let zone : List Char :=
    if name ≠ "" then name.data
    else
      let z := Int.tdiv offset 60
      (if z < 0 then ['-'] else ['+']) ++ appendInt (Int.tdiv (|z|) 60) 2
        ++ appendInt (Int.tmod (|z|) 60) 2
  String.mk (((longDayNames.getD (absWeekday abs) "").data.take 3) ++ [',', ' ']
    ++ appendInt ymd.2.2 2 ++ [' ']
    ++ ((longMonthNames.getD (ymd.2.1 - 1) "").data.take 3) ++ [' ']
    ++ appendInt ymd.1 4 ++ [' ']
    ++ appendInt hms.1 2 ++ [':'] ++ appendInt hms.2.1 2 ++ [':'] ++ appendInt hms.2.2 2
    ++ [' '] ++ zone)

/-- A process that has assigned `time.Local = time.FixedZone("GMT", 3600)`: its local
location gives the abbreviation `GMT` the offset of one hour. -/
def gmtPlusOne : Platform :=
  { is64 := true
    initLocal := fun _ => noZones
    Local := some { lookupName := fun name _ => if name = "GMT" then some 3600 else none } }

/-- A process run with `TZ=Europe/London` that has loaded its local location: it knows
the zone abbreviations `GMT` (offset zero) and `BST` (one hour east of UTC). -/
def londonLoaded : Platform :=
  { is64 := true
    initLocal := fun _ => noZones
    Local := some { lookupName := fun name _ =>
      if name = "GMT" then some 0 else if name = "BST" then some 3600 else none } }

/-- The natural number held by a floating-point datum, when the datum is a non-negative
whole number. -/
def GoFloat.natValue : GoFloat → Option Nat
  | .finite false m e => if 0 ≤ e then some (m * 2 ^ e.toNat) else none
  | _ => none

/-- The natural number `a` is exactly representable in the format `info`: it is a
mantissa of at most `mantbits + 1` bits times a power of two, below the overflow
threshold `2^(2^(expbits-1))` (`2^128` for `float32`, `2^1024` for `float64`). -/
def exactlyRepresentable (info : FloatInfo) (a : Nat) : Prop :=
  ∃ m e : Nat, a = m * 2 ^ e ∧ m < 2 ^ (info.mantbits + 1)
    ∧ a < 2 ^ (2 ^ (info.expbits - 1))

/-- The complex number held by a value of a complex type (`none` at the other types). -/
def EnvType.toComplex : (T : EnvType) → T.Val → Option GoComplex
  | .complex64, (z : GoComplex) => some z
  | .complex128, (z : GoComplex) => some z
  | _, _ => none

/-- The floating-point format of the two parts of a complex type: `strconv.ParseComplex`
reads the parts with `bitSize` 32 for `complex64` and 64 for `complex128`. -/
def partFormat : EnvType → Option FloatInfo
  | .complex64 => some float32info
  | .complex128 => some float64info
  | _ => none

/-! ## The shape of the texts that `time.Parse` accepts for the layout RFC1123 -/

theorem assertT_same (T : EnvType) (x : T.Val) : assertT T (Any.mk T x) = .ok x := by
  simp [assertT]

theorem getVal_empty (n : Nat) (l : Location) (T : EnvType) : getVal n l T "" = .ok (zero T) := by
  simp [getVal]

theorem getVal_string (n : Nat) (l : Location) (val : String) :
    getVal n l .string val = .ok val := by
  by_cases h : val = ""
  · subst h; rfl
  · simp [getVal, h, assertT]

theorem getVal_parseErr (n : Nat) (l : Location) (T : EnvType) (val : String)
    (h : parseErr n l T val = true) : getVal n l T val = .ok (zero T) := by
  by_cases hv : val = ""
  · subst hv; exact getVal_empty n l T
  · cases T <;> simp_all [getVal, parseErr]

theorem getVal_total (n : Nat) (l : Location) (T : EnvType) (val : String) :
    ∃ x, getVal n l T val = .ok x := by
  by_cases hv : val = ""
  · exact ⟨zero T, by subst hv; exact getVal_empty n l T⟩
  · cases T <;> simp only [getVal, hv, if_false] <;> first
      | exact ⟨_, rfl⟩
      | (split <;> exact ⟨_, rfl⟩)

theorem Getenv_of_absent (env : Env) (key : String) (h : env key = none ∨ env key = some "") :
    Getenv env key = "" := by
  rcases h with h | h <;> simp [Getenv, h]

theorem Getenv_of_some (env : Env) (key val : String) (h : env key = some val) :
    Getenv env key = val := by
  simp [Getenv, h]

theorem parseErr_notAnInt (n : Nat) (l : Location) (T : EnvType) (hT : T ≠ .string)
    (hn : n = 32 ∨ n = 64) : parseErr n l T "not an int" = true := by
  rcases hn with hn | hn <;> subst hn <;> cases T <;> first
    | exact absurd rfl hT
    | rfl

theorem IntSize_cases (P : Platform) : P.IntSize = 32 ∨ P.IntSize = 64 := by
  unfold Platform.IntSize; cases P.is64 <;> simp


/-! ## Claims about absence, defaults and failed parses -/

/-- C1: when the key is unset or set to the empty string, `Get[T](key)` is the zero
value of `T`, for every `T` of the type set; the zero values are the empty text,
`false`, `0`, `0+0i`, the zero duration and the zero timestamp. -/
theorem C1_get_absent_is_zero (P : Platform) (env : Env) (T : EnvType) (key : String)
    (h : env key = none ∨ env key = some "") :
    Get P env T key = .ok (zero T)
      ∧ zero .string = "" ∧ zero .bool = false
      ∧ zero .uint = (0 : Nat) ∧ zero .uint8 = (0 : Nat) ∧ zero .uint16 = (0 : Nat)
      ∧ zero .uint32 = (0 : Nat) ∧ zero .uint64 = (0 : Nat)
      ∧ zero .int = (0 : Int) ∧ zero .int8 = (0 : Int) ∧ zero .int16 = (0 : Int)
      ∧ zero .int32 = (0 : Int) ∧ zero .int64 = (0 : Int)
      ∧ zero .float32 = GoFloat.finite false 0 0 ∧ zero .float64 = GoFloat.finite false 0 0
      ∧ zero .complex64 = GoComplex.mk (.finite false 0 0) (.finite false 0 0)
      ∧ zero .complex128 = GoComplex.mk (.finite false 0 0) (.finite false 0 0)
      ∧ zero .duration = (0 : Int) ∧ zero .time = Time.mk 0 0 .utc := by
  refine ⟨?_, rfl, rfl, rfl, rfl, rfl, rfl, rfl, rfl, rfl, rfl, rfl, rfl, rfl, rfl, rfl, rfl,
    rfl, rfl⟩
  unfold Get
  rw [Getenv_of_absent env key h]
  exact getVal_empty _ _ T

/-- Witness of C1: `Get[uint8]` of a key the test environment does not set is `0`. -/
theorem C1_get_absent_is_zero_witness :
    testEnvs "INVALID" = none ∧ Get linux64 testEnvs .uint8 "INVALID" = .ok (0 : Nat) :=
  ⟨by decide, (C1_get_absent_is_zero linux64 testEnvs .uint8 "INVALID" (Or.inl (by decide))).1⟩

/-- C2: when the key is unset or set to the empty string, `GetWithDefault[T](key, d)`
is exactly `d`, whatever `d` is. -/
theorem C2_default_verbatim (P : Platform) (env : Env) (T : EnvType) (key : String)
    (d : T.Val) (h : env key = none ∨ env key = some "") :
    GetWithDefault P env T key d = .ok d := by
  unfold GetWithDefault
  simp [Getenv_of_absent env key h]

/-- Witness of C2: the duration default of 100 seconds comes back for a key that is not
set. -/
theorem C2_default_verbatim_witness :
    testEnvs "INVALID" = none
      ∧ GetWithDefault linux64 testEnvs .duration "INVALID" (100000000000 : Int)
          = .ok (100000000000 : Int) :=
  ⟨by decide,
    C2_default_verbatim linux64 testEnvs .duration "INVALID" (100000000000 : Int)
      (Or.inl (by decide))⟩

/-- C3: for `T` other than text, when the key holds a non-empty text that `T`'s parser
rejects, `GetWithDefault[T](key, d)` is the zero value of `T`, and so is not `d` unless
`d` is that zero value; with `UNNUMBER="not an int"`, `GetWithDefault[int]("UNNUMBER", 7)`
is `0`. -/
theorem C3_invalid_present_is_zero (P : Platform) (env : Env) (T : EnvType) (key : String)
    (d : T.Val) (val : String) (_hT : T ≠ .string) (hk : env key = some val)
    (hne : val ≠ "") (hrej : rejects P env T val) :
    GetWithDefault P env T key d = .ok (zero T)
      ∧ (d ≠ zero T → GetWithDefault P env T key d ≠ .ok d)
      ∧ GetWithDefault P testEnvs .int "UNNUMBER" (7 : Int) = .ok (0 : Int) := by
  have h1 : GetWithDefault P env T key d = .ok (zero T) := by
    unfold GetWithDefault
    rw [Getenv_of_some env key val hk]
    simp only [hne, if_false]
    exact getVal_parseErr _ _ T val hrej
  refine ⟨h1, ?_, ?_⟩
  · intro hd hEq
    rw [h1] at hEq
    exact hd (Except.ok.inj hEq).symm
  · unfold GetWithDefault
    have hg : Getenv testEnvs "UNNUMBER" = "not an int" := by decide
    rw [hg]
    have hne2 : ("not an int" : String) ≠ "" := by decide
    simp only [hne2, if_false]
    exact getVal_parseErr _ _ .int "not an int"
      (parseErr_notAnInt _ _ .int (by decide) (IntSize_cases P))

/-- Witness of C3: `UNBOOL="not a bool"` read as `bool` with default `true` is `false`. -/
theorem C3_invalid_present_is_zero_witness :
    GetWithDefault linux64 testEnvs .bool "UNBOOL" true = .ok false
      ∧ (true ≠ zero .bool → GetWithDefault linux64 testEnvs .bool "UNBOOL" true ≠ .ok true)
      ∧ GetWithDefault linux64 testEnvs .int "UNNUMBER" (7 : Int) = .ok (0 : Int) :=
  C3_invalid_present_is_zero linux64 testEnvs .bool "UNBOOL" true "not a bool"
    (by decide) (by decide) (by decide) (by rfl)

/-- C4 (evaluation at the failing input): with `UNNUMBER="not an int"`, the value cannot
be retrieved as an `int`, yet `GetWithDefault[int]("UNNUMBER", 7)` is `0` and not the
passed-in default `7`. -/
theorem C4_default_not_returned_on_parse_failure :
    testEnvs "UNNUMBER" = some "not an int"
      ∧ (ParseInt linux64.IntSize "not an int" base 0).2 = some .ErrSyntax
      ∧ GetWithDefault linux64 testEnvs .int "UNNUMBER" (7 : Int) = .ok (0 : Int)
      ∧ GetWithDefault linux64 testEnvs .int "UNNUMBER" (7 : Int) ≠ .ok (7 : Int) := by
  decide

/-- C5: when the key holds a non-empty text, `GetWithDefault[T](key, d)` equals
`Get[T](key)` for every default `d`; `BOOL="true"` with default `false` gives `true`
and `UINT="1"` with default `0` gives `1`. -/
theorem C5_default_ignored_when_present (P : Platform) (env : Env) (T : EnvType)
    (key : String) (d : T.Val) (val : String) (hk : env key = some val) (hne : val ≠ "") :
    GetWithDefault P env T key d = Get P env T key
      ∧ GetWithDefault P testEnvs .bool "BOOL" false = .ok true
      ∧ GetWithDefault P testEnvs .uint8 "UINT" (0 : Nat) = .ok (1 : Nat) := by
  refine ⟨?_, ?_, ?_⟩
  · unfold GetWithDefault Get
    rw [Getenv_of_some env key val hk]
    simp [hne]
  · rcases IntSize_cases P with h | h <;> simp only [GetWithDefault, h] <;> rfl
  · rcases IntSize_cases P with h | h <;> simp only [GetWithDefault, h] <;> rfl

/-- Witness of C5: `DURATION="10s"` read with default `0` equals the plain `Get`. -/
theorem C5_default_ignored_when_present_witness :
    GetWithDefault linux64 testEnvs .duration "DURATION" (0 : Int)
        = Get linux64 testEnvs .duration "DURATION"
      ∧ GetWithDefault linux64 testEnvs .bool "BOOL" false = .ok true
      ∧ GetWithDefault linux64 testEnvs .uint8 "UINT" (0 : Nat) = .ok (1 : Nat) :=
  C5_default_ignored_when_present linux64 testEnvs .duration "DURATION" (0 : Int) "10s"
    (by decide) (by decide)

/-- C6: when the key holds a text that `T`'s parser rejects, `Get[T](key)` returns the
zero value of `T` (a value, not an error); `"not a bool"` gives `false` at `bool`, and
`"not an int"` gives the zero value at every type other than text. -/
theorem C6_failed_parse_is_zero (P : Platform) (env : Env) (T : EnvType) (key : String)
    (val : String) (hk : env key = some val) (hrej : rejects P env T val) :
    Get P env T key = .ok (zero T)
      ∧ Get P testEnvs .bool "UNBOOL" = .ok false
      ∧ (∀ U : EnvType, U ≠ .string → Get P testEnvs U "UNNUMBER" = .ok (zero U)) := by
  refine ⟨?_, ?_, ?_⟩
  · unfold Get
    rw [Getenv_of_some env key val hk]
    exact getVal_parseErr _ _ T val hrej
  · unfold Get
    have hg : Getenv testEnvs "UNBOOL" = "not a bool" := by decide
    rw [hg]
    exact getVal_parseErr _ _ .bool "not a bool" (by rfl)
  · intro U hU
    unfold Get
    have hg : Getenv testEnvs "UNNUMBER" = "not an int" := by decide
    rw [hg]
    exact getVal_parseErr _ _ U "not an int" (parseErr_notAnInt _ _ U hU (IntSize_cases P))

/-- Witness of C6: `UNNUMBER="not an int"` read as a timestamp is the zero timestamp. -/
theorem C6_failed_parse_is_zero_witness :
    Get linux64 testEnvs .time "UNNUMBER" = .ok (Time.mk 0 0 .utc)
      ∧ Get linux64 testEnvs .bool "UNBOOL" = .ok false
      ∧ (∀ U : EnvType, U ≠ .string → Get linux64 testEnvs U "UNNUMBER" = .ok (zero U)) :=
  C6_failed_parse_is_zero linux64 testEnvs .time "UNNUMBER" "not an int" (by decide)
    (by rfl)

/-- C7: for every `T` of the type set and every raw text, `getVal[T]`, `Get[T]` and
`GetWithDefault[T]` return a value of `T`: the type switch selects on the dynamic type
`T` of `any(v)`, every type assertion succeeds, and no panic is reached. -/
theorem C7_total (P : Platform) (env : Env) (T : EnvType) (key : String) (d : T.Val)
    (n : Nat) (l : Location) (val : String) :
    (∃ x, getVal n l T val = .ok x)
      ∧ (∃ x, Get P env T key = .ok x)
      ∧ (∃ x, GetWithDefault P env T key d = .ok x)
      ∧ (Any.mk T (zero T)).dyn = T
      ∧ (∀ x : T.Val, assertT T (Any.mk T x) = .ok x) := by
  refine ⟨getVal_total n l T val, getVal_total _ _ T _, ?_, rfl, assertT_same T⟩
  unfold GetWithDefault
  by_cases h : Getenv env key = ""
  · exact ⟨d, by simp [h]⟩
  · simp only [h, if_false]
    exact getVal_total _ _ T _

/-- C8: `Get[string](key)` is the raw value of the key exactly as stored (the empty
text for a key that is not set), and it is `""` only when the raw value is empty. -/
theorem C8_string_identity (P : Platform) (env : Env) (key : String) :
    Get P env .string key = .ok ((env key).getD "")
      ∧ (∀ val : String, env key = some val → Get P env .string key = .ok val)
      ∧ (Get P env .string key = .ok "" ↔ (env key).getD "" = "") := by
  have h : Get P env .string key = .ok ((env key).getD "") := by
    unfold Get
    exact getVal_string _ _ _
  refine ⟨h, ?_, ?_⟩
  · intro val hv
    rw [h, hv]
    rfl
  · rw [h]
    constructor
    · intro hEq
      exact Except.ok.inj hEq
    · intro hEq
      rw [hEq]

/-- Witness of C8: `STRING="string"` is returned as it is, and text with surrounding
blanks and mixed case is returned unchanged. -/
theorem C8_string_identity_witness :
    Get linux64 testEnvs .string "STRING" = .ok "string"
      ∧ Get linux64 (fun _ => some "  MiXed Case \t") .string "K" = .ok "  MiXed Case \t" :=
  ⟨(C8_string_identity linux64 testEnvs "STRING").2.1 "string" (by decide),
   (C8_string_identity linux64 (fun _ => some "  MiXed Case \t") "K").2.1 "  MiXed Case \t" rfl⟩

/-! ## Decimal numerals: the digit loop of `ParseUint` -/

theorem isDigit_iff (c : Char) : isDigit c = true ↔ 48 ≤ c.toNat ∧ c.toNat ≤ 57 := by
  simp [isDigit]

theorem digitVal_of_isDigit (c : Char) (h : isDigit c = true) :
    digitVal c = some (c.toNat - 48) := by
  simp [digitVal, h]

theorem stepD_eq (n : Nat) (c : Char) : stepD n c = n * 10 + (c.toNat - 48) := rfl

theorem le_foldl_stepD (ds : List Char) (n : Nat) : n ≤ ds.foldl stepD n := by
  induction ds generalizing n with
  | nil => simp
  | cons c cs ih =>
    simp only [List.foldl_cons]
    have h1 := ih (stepD n c)
    have h2 : n ≤ stepD n c := by rw [stepD_eq]; omega
    exact le_trans h2 h1

theorem ne_underscore_of_isDigit (c : Char) (h : isDigit c = true) : c ≠ '_' := by
  intro hc
  subst hc
  exact absurd h (by decide)

theorem parseUintLoop_inRange (maxVal : Nat) (hmax : maxVal < 2 ^ 64) (ds : List Char)
    (hd : ∀ c ∈ ds, isDigit c = true) (n : Nat) (us : Bool)
    (h : ds.foldl stepD n ≤ maxVal) :
    parseUintLoop 10 false (maxUint64 / 10 + 1) maxVal ds n us
      = .ok (ds.foldl stepD n, us) := by
  induction ds generalizing n with
  | nil => simp [parseUintLoop]
  | cons c cs ih =>
    have hc : isDigit c = true := hd c (List.mem_cons_self _ _)
    have hcs : ∀ x ∈ cs, isDigit x = true := fun x hx => hd x (List.mem_cons_of_mem _ hx)
    simp only [List.foldl_cons] at h
    have hge := le_foldl_stepD cs (stepD n c)
    rw [stepD_eq] at hge
    have hr := (isDigit_iff c).1 hc
    have hmu : maxUint64 = 18446744073709551615 := by decide
    have h64 : (2 : Nat) ^ 64 = 18446744073709551616 := by norm_num
    rw [h64] at hmax
    have hn1 : n * 10 + (c.toNat - 48) ≤ maxVal := le_trans hge h
    have hmod1 : n * 10 % 18446744073709551616 = n * 10 := Nat.mod_eq_of_lt (by omega)
    have hmod2 : (n * 10 + (c.toNat - 48)) % 18446744073709551616 = n * 10 + (c.toNat - 48) :=
      Nat.mod_eq_of_lt (by omega)
    rw [parseUintLoop]
    simp only [digitVal_of_isDigit c hc, hmu, h64, hmod1, hmod2]
    have e1 : ¬ (c = '_' ∧ false = true) := by simp
    have e2 : ¬ (c.toNat - 48 ≥ 10 % 256) := by omega
    have e3 : ¬ (n ≥ 18446744073709551615 / 10 + 1) := by omega
    have e4 : ¬ (n * 10 + (c.toNat - 48) < n * 10 ∨ n * 10 + (c.toNat - 48) > maxVal) := by
      omega
    simp only [e1, e2, e3, e4, if_false]
    rw [List.foldl_cons, stepD_eq]
    have := ih hcs (n * 10 + (c.toNat - 48)) (by rw [← stepD_eq]; exact h)
    rw [hmu] at this
    exact this

theorem parseUintLoop_outOfRange (maxVal : Nat) (ds : List Char)
    (hd : ∀ c ∈ ds, isDigit c = true) (n : Nat) (us : Bool) (hn : n ≤ maxVal)
    (h : maxVal < ds.foldl stepD n) :
    parseUintLoop 10 false (maxUint64 / 10 + 1) maxVal ds n us
      = .error (maxVal, .ErrRange) := by
  induction ds generalizing n with
  | nil => simp at h; omega
  | cons c cs ih =>
    have hc : isDigit c = true := hd c (List.mem_cons_self _ _)
    have hcs : ∀ x ∈ cs, isDigit x = true := fun x hx => hd x (List.mem_cons_of_mem _ hx)
    simp only [List.foldl_cons] at h
    have hr := (isDigit_iff c).1 hc
    have hmu : maxUint64 = 18446744073709551615 := by decide
    have h64 : (2 : Nat) ^ 64 = 18446744073709551616 := by norm_num
    rw [parseUintLoop]
    simp only [digitVal_of_isDigit c hc, hmu, h64]
    have e1 : ¬ (c = '_' ∧ false = true) := by simp
    have e2 : ¬ (c.toNat - 48 ≥ 10 % 256) := by omega
    simp only [e1, e2, if_false]
    by_cases e3 : n ≥ 18446744073709551615 / 10 + 1
    · simp only [e3, if_true]
    · simp only [e3, if_false]
      have hmod1 : n * 10 % 18446744073709551616 = n * 10 := Nat.mod_eq_of_lt (by omega)
      rw [hmod1]
      by_cases e4 : (n * 10 + (c.toNat - 48)) % 18446744073709551616 < n * 10
            ∨ (n * 10 + (c.toNat - 48)) % 18446744073709551616 > maxVal
      · simp only [e4, if_true]
      · simp only [e4, if_false]
        have hlt : n * 10 + (c.toNat - 48) < 18446744073709551616 := by
          by_contra hcon
          apply e4
          left
          omega
        have hmod2 : (n * 10 + (c.toNat - 48)) % 18446744073709551616
            = n * 10 + (c.toNat - 48) := Nat.mod_eq_of_lt hlt
        rw [hmod2] at e4 ⊢
        have := ih hcs (n * 10 + (c.toNat - 48)) (by omega) (by rw [← stepD_eq]; exact h)
        rw [hmu] at this
        exact this

theorem mk_ne_empty (ds : List Char) (h : ds ≠ []) : String.mk ds ≠ "" := by
  intro hEq
  apply h
  have := congrArg String.data hEq
  simpa using this

theorem pickBase_ten (ds : List Char) : pickBase ds 10 = some (10, ds) := by
  simp [pickBase]

theorem ParseUint_digits (intSize : Nat) (ds : List Char) (w : Nat)
    (hw : w = 8 ∨ w = 16 ∨ w = 32 ∨ w = 64) (hne : ds ≠ [])
    (hd : ∀ c ∈ ds, isDigit c = true) :
    ParseUint intSize (String.mk ds) 10 (w : Int)
      = if decVal ds ≤ 2 ^ w - 1 then (decVal ds, none) else (2 ^ w - 1, some .ErrRange) := by
  have hs := mk_ne_empty ds hne
  unfold ParseUint
  simp only [hs, if_false, pickBase_ten]
  have hb : ¬ ((w : Int) < 0 ∨ (w : Int) > 64) := by omega
  have hz : ¬ ((w : Int) = 0) := by omega
  simp only [hb, hz, if_false, Int.toNat_ofNat]
  have hmax : (2 ^ w % 2 ^ 64 + 2 ^ 64 - 1) % 2 ^ 64 = 2 ^ w - 1 := by
    rcases hw with rfl | rfl | rfl | rfl <;> norm_num
  have hlt : 2 ^ w - 1 < 2 ^ 64 := by
    rcases hw with rfl | rfl | rfl | rfl <;> norm_num
  rw [hmax]
  have hdec : (decide ((10 : Int) = 0)) = false := by decide
  rw [hdec]
  by_cases h : decVal ds ≤ 2 ^ w - 1
  · rw [parseUintLoop_inRange (2 ^ w - 1) hlt ds hd 0 false h]
    simp only [h, if_true]
    rfl
  · rw [parseUintLoop_outOfRange (2 ^ w - 1) ds hd 0 false (Nat.zero_le _) (by
      unfold decVal at h; omega)]
    simp only [h, if_false]

theorem ParseUint_sign (intSize : Nat) (c : Char) (cs : List Char) (w : Int)
    (hc : c = '-' ∨ c = '+') (hw : 0 ≤ w ∧ w ≤ 64) :
    ParseUint intSize (String.mk (c :: cs)) 10 w = (0, some .ErrSyntax) := by
  have hs := mk_ne_empty (c :: cs) (by simp)
  unfold ParseUint
  simp only [hs, if_false, pickBase_ten]
  have hb : ¬ (w < 0 ∨ w > 64) := by omega
  simp only [hb, if_false]
  have hdv : digitVal c = none := by
    rcases hc with rfl | rfl <;> decide
  have hu : ¬ (c = '_' ∧ decide ((10 : Int) = 0) = true) := by
    rcases hc with rfl | rfl <;> decide
  rw [parseUintLoop]
  simp only [hu, if_false, hdv]

theorem wrapS64_natCast (u : Nat) (h : u < 2 ^ 63) : wrapS 64 (u : Int) = (u : Int) := by
  unfold wrapS
  norm_num at h ⊢
  omega

theorem wrapS64_neg_natCast (u : Nat) (h : u ≤ 2 ^ 63) :
    wrapS 64 (-(wrapS 64 (u : Int))) = -(u : Int) := by
  unfold wrapS
  norm_num at h ⊢
  split_ifs <;> omega

theorem not_sign_of_isDigit (c : Char) (h : isDigit c = true) : ¬ (c = '+' ∨ c = '-') := by
  rintro (rfl | rfl) <;> exact absurd h (by decide)

/-- The text handed on to `ParseUint` and the sign, for a run of digits with an optional
sign in front. -/
theorem ParseInt_unfold (intSize : Nat) (text ds : List Char) (neg : Bool) (w : Nat)
    (hw : w = 8 ∨ w = 16 ∨ w = 32 ∨ w = 64) (hne : ds ≠ [])
    (hd : ∀ c ∈ ds, isDigit c = true)
    (htext : (text = ds ∧ neg = false) ∨ (text = '+' :: ds ∧ neg = false)
      ∨ (text = '-' :: ds ∧ neg = true)) :
    ParseInt intSize (String.mk text) 10 (w : Int)
      = (let r := ParseUint intSize (String.mk ds) 10 (w : Int)
         let cutoff : Nat := 2 ^ (w - 1) % 2 ^ 64
         if neg = false ∧ r.1 ≥ cutoff then (wrapS 64 ((cutoff : Int) - 1), some .ErrRange)
         else if neg = true ∧ r.1 > cutoff then
           (wrapS 64 (-(wrapS 64 cutoff)), some .ErrRange)
         else (if neg then wrapS 64 (-(wrapS 64 r.1)) else wrapS 64 r.1, none)) := by
  obtain ⟨c, cs, rfl⟩ := List.exists_cons_of_ne_nil hne
  have hc : isDigit c = true := hd c (List.mem_cons_self _ _)
  have hns := not_sign_of_isDigit c hc
  have hnm : c ≠ '-' := fun h => hns (Or.inr h)
  have hz : ¬ ((w : Int) = 0) := by omega
  have hr2 : ¬ ((ParseUint intSize (String.mk (c :: cs)) 10 (w : Int)).2 ≠ none
      ∧ (ParseUint intSize (String.mk (c :: cs)) 10 (w : Int)).2 ≠ some .ErrRange) := by
    rw [ParseUint_digits intSize (c :: cs) w hw hne hd]
    split_ifs <;> simp
  have hnp : c ≠ '+' := fun h => hns (Or.inl h)
  have hpm : ¬ (('+' : Char) = '-') := by decide
  rcases htext with ⟨rfl, rfl⟩ | ⟨rfl, rfl⟩ | ⟨rfl, rfl⟩
  · have hs := mk_ne_empty (c :: cs) (by simp)
    unfold ParseInt
    simp only [hs, if_false, hnp, hnm, or_self, decide_False, hz, Int.toNat_ofNat]
    rw [if_neg hr2]
  · have hs := mk_ne_empty ('+' :: c :: cs) (by simp)
    unfold ParseInt
    simp only [hs, if_false, hz, Int.toNat_ofNat, hpm, or_false, if_true, decide_False]
    rw [if_neg hr2]
  · have hs := mk_ne_empty ('-' :: c :: cs) (by simp)
    unfold ParseInt
    simp only [hs, if_false, hz, Int.toNat_ofNat, or_true, if_true, decide_True]
    rw [if_neg hr2]

theorem ParseInt_pos_inRange (intSize : Nat) (text ds : List Char) (w : Nat)
    (hw : w = 8 ∨ w = 16 ∨ w = 32 ∨ w = 64) (hne : ds ≠ [])
    (hd : ∀ c ∈ ds, isDigit c = true) (htext : text = ds ∨ text = '+' :: ds)
    (h : decVal ds < 2 ^ (w - 1)) :
    ParseInt intSize (String.mk text) 10 (w : Int) = ((decVal ds : Int), none) := by
  rw [ParseInt_unfold intSize text ds false w hw hne hd (by
    rcases htext with h1 | h1
    · exact Or.inl ⟨h1, rfl⟩
    · exact Or.inr (Or.inl ⟨h1, rfl⟩)), ParseUint_digits intSize ds w hw hne hd]
  have h63 : decVal ds < 2 ^ 63 := by
    rcases hw with rfl | rfl | rfl | rfl <;> norm_num at h ⊢ <;> omega
  have hle : decVal ds ≤ 2 ^ w - 1 := by
    rcases hw with rfl | rfl | rfl | rfl <;> norm_num at h ⊢ <;> omega
  have hc : ¬ (decVal ds ≥ 2 ^ (w - 1) % 2 ^ 64) := by
    rcases hw with rfl | rfl | rfl | rfl <;> norm_num at h ⊢ <;> omega
  simp only [hle, if_true, hc, and_false, if_false, Bool.false_eq_true, false_and]
  rw [wrapS64_natCast _ h63]

theorem ParseInt_neg_inRange (intSize : Nat) (ds : List Char) (w : Nat)
    (hw : w = 8 ∨ w = 16 ∨ w = 32 ∨ w = 64) (hne : ds ≠ [])
    (hd : ∀ c ∈ ds, isDigit c = true) (h : decVal ds ≤ 2 ^ (w - 1)) :
    ParseInt intSize (String.mk ('-' :: ds)) 10 (w : Int) = (-(decVal ds : Int), none) := by
  rw [ParseInt_unfold intSize ('-' :: ds) ds true w hw hne hd (Or.inr (Or.inr ⟨rfl, rfl⟩)),
    ParseUint_digits intSize ds w hw hne hd]
  have h63 : decVal ds ≤ 2 ^ 63 := by
    rcases hw with rfl | rfl | rfl | rfl <;> norm_num at h ⊢ <;> omega
  have hle : decVal ds ≤ 2 ^ w - 1 := by
    rcases hw with rfl | rfl | rfl | rfl <;> norm_num at h ⊢ <;> omega
  have hc : ¬ (decVal ds > 2 ^ (w - 1) % 2 ^ 64) := by
    rcases hw with rfl | rfl | rfl | rfl <;> norm_num at h ⊢ <;> omega
  simp only [hle, if_true, hc, and_false, if_false, Bool.true_eq_false, false_and]
  rw [wrapS64_neg_natCast _ h63]

theorem ParseInt_pos_outOfRange (intSize : Nat) (text ds : List Char) (w : Nat)
    (hw : w = 8 ∨ w = 16 ∨ w = 32 ∨ w = 64) (hne : ds ≠ [])
    (hd : ∀ c ∈ ds, isDigit c = true) (htext : text = ds ∨ text = '+' :: ds)
    (h : 2 ^ (w - 1) ≤ decVal ds) :
    (ParseInt intSize (String.mk text) 10 (w : Int)).2 = some .ErrRange := by
  rw [ParseInt_unfold intSize text ds false w hw hne hd (by
    rcases htext with h1 | h1
    · exact Or.inl ⟨h1, rfl⟩
    · exact Or.inr (Or.inl ⟨h1, rfl⟩)), ParseUint_digits intSize ds w hw hne hd]
  have hc : (if decVal ds ≤ 2 ^ w - 1 then (decVal ds, (none : Option NumErr))
      else (2 ^ w - 1, some NumErr.ErrRange)).1 ≥ 2 ^ (w - 1) % 2 ^ 64 := by
    rcases hw with rfl | rfl | rfl | rfl <;> norm_num at h ⊢ <;> split_ifs <;> simp <;> omega
  simp only [hc, and_self, if_true]

theorem ParseInt_neg_outOfRange (intSize : Nat) (ds : List Char) (w : Nat)
    (hw : w = 8 ∨ w = 16 ∨ w = 32 ∨ w = 64) (hne : ds ≠ [])
    (hd : ∀ c ∈ ds, isDigit c = true) (h : 2 ^ (w - 1) < decVal ds) :
    (ParseInt intSize (String.mk ('-' :: ds)) 10 (w : Int)).2 = some .ErrRange := by
  rw [ParseInt_unfold intSize ('-' :: ds) ds true w hw hne hd (Or.inr (Or.inr ⟨rfl, rfl⟩)),
    ParseUint_digits intSize ds w hw hne hd]
  have hc : (if decVal ds ≤ 2 ^ w - 1 then (decVal ds, (none : Option NumErr))
      else (2 ^ w - 1, some NumErr.ErrRange)).1 > 2 ^ (w - 1) % 2 ^ 64 := by
    rcases hw with rfl | rfl | rfl | rfl <;> norm_num at h ⊢ <;> split_ifs <;> simp <;> omega
  simp only [hc, and_self, if_true, Bool.true_eq_false, false_and, if_false]

/-! ## Decimal numerals: the canonical rendering -/

theorem digitChar_toNat (d : Nat) (h : d < 10) : (Char.ofNat (d + '0'.toNat)).toNat = d + 48 := by
  interval_cases d <;> rfl

theorem digitChar_isDigit (d : Nat) (h : d < 10) : isDigit (Char.ofNat (d + '0'.toNat)) = true := by
  rw [isDigit_iff, digitChar_toNat d h]
  omega

theorem stepD_digitChar (n d : Nat) (h : d < 10) :
    stepD n (Char.ofNat (d + '0'.toNat)) = n * 10 + d := by
  rw [stepD_eq, digitChar_toNat d h]
  omega

theorem formatDigits_spec (fuel u : Nat) (acc : List Char) (h : u < fuel) :
    ∃ L : List Char, formatDigits fuel u acc = L ++ acc ∧ L ≠ []
      ∧ (∀ c ∈ L, isDigit c = true) ∧ decVal L = u := by
  induction fuel generalizing u acc with
  | zero => omega
  | succ fuel ih =>
    unfold formatDigits
    by_cases h10 : u ≥ 10
    · simp only [h10, if_true]
      obtain ⟨L, hL, _, hd, hv⟩ := ih (u / 10) (Char.ofNat (u % 10 + '0'.toNat) :: acc)
        (by omega)
      refine ⟨L ++ [Char.ofNat (u % 10 + '0'.toNat)], ?_, by simp, ?_, ?_⟩
      · rw [hL]; simp
      · intro c hc
        rcases List.mem_append.1 hc with hc | hc
        · exact hd c hc
        · rw [List.mem_singleton.1 hc]
          exact digitChar_isDigit _ (by omega)
      · unfold decVal at hv ⊢
        rw [List.foldl_append, hv]
        simp only [List.foldl_cons, List.foldl_nil]
        rw [stepD_digitChar _ _ (by omega)]
        omega
    · simp only [h10, if_false]
      refine ⟨[Char.ofNat (u + '0'.toNat)], by simp, by simp, ?_, ?_⟩
      · intro c hc
        rw [List.mem_singleton.1 hc]
        exact digitChar_isDigit _ (by omega)
      · unfold decVal
        simp only [List.foldl_cons, List.foldl_nil]
        rw [stepD_digitChar _ _ (by omega)]
        omega

theorem FormatUint_spec (u : Nat) :
    ∃ L : List Char, FormatUint u = String.mk L ∧ L ≠ []
      ∧ (∀ c ∈ L, isDigit c = true) ∧ decVal L = u := by
  obtain ⟨L, hL, hne, hd, hv⟩ := formatDigits_spec (u + 1) u [] (by omega)
  refine ⟨L, ?_, hne, hd, hv⟩
  unfold FormatUint
  rw [hL]
  simp

theorem wrapU_natCast (w u : Nat) (h : u < 2 ^ w) : wrapU w (u : Int) = u := by
  unfold wrapU
  have : ((u : Int) % (2 : Int) ^ w) = (u : Int) := by
    apply Int.emod_eq_of_lt (by omega)
    exact_mod_cast h
  rw [this]
  simp

theorem digitChar_eq (d : Nat) (h : d < 10) : Char.ofNat (d + '0'.toNat) = Nat.digitChar d := by
  interval_cases d <;> rfl

theorem formatDigits_eq_toDigitsCore (fuel u : Nat) (acc : List Char) :
    formatDigits fuel u acc = Nat.toDigitsCore 10 fuel u acc := by
  induction fuel generalizing u acc with
  | zero => rfl
  | succ fuel ih =>
    unfold formatDigits Nat.toDigitsCore
    by_cases h10 : u ≥ 10
    · have hq : u / 10 ≠ 0 := by omega
      simp only [h10, if_true, hq, if_false]
      rw [ih, digitChar_eq _ (by omega)]
    · have hq : u / 10 = 0 := by omega
      have hm : u % 10 = u := by omega
      simp only [h10, if_false, hq, if_true, hm]
      rw [digitChar_eq _ (by omega)]

/-- The rendering `FormatUint` is the decimal rendering of natural numbers. -/
theorem FormatUint_eq_repr (u : Nat) : FormatUint u = Nat.repr u := by
  unfold FormatUint Nat.repr Nat.toDigits List.asString
  rw [formatDigits_eq_toDigitsCore]

/-- The rendering `FormatInt` of an `int64` is the decimal rendering of integers. -/
theorem FormatInt_eq_repr (v : Int) (h1 : -(2 : Int) ^ 63 ≤ v) (h2 : v < (2 : Int) ^ 63) :
    FormatInt v = Int.repr v := by
  unfold FormatInt
  cases v with
  | ofNat m =>
    have hneg : ¬ (Int.ofNat m < 0) := by simp
    have hu : wrapU 64 (Int.ofNat m) = m := by
      apply wrapU_natCast
      have : (m : Int) < (2 : Int) ^ 63 := h2
      norm_num at this ⊢
      omega
    simp only [hneg, if_false, hu, Int.repr]
    exact FormatUint_eq_repr m
  | negSucc m =>
    have hneg : Int.negSucc m < 0 := Int.negSucc_lt_zero m
    have hu : wrapU 64 (-Int.negSucc m) = m + 1 := by
      have : -Int.negSucc m = ((m + 1 : Nat) : Int) := by simp [Int.neg_negSucc]
      rw [this]
      apply wrapU_natCast
      have h1' : -(2 : Int) ^ 63 ≤ Int.negSucc m := h1
      rw [Int.negSucc_eq] at h1'
      norm_num at h1' ⊢
      omega
    simp only [hneg, if_true, hu, Int.repr]
    rw [formatDigits_eq_toDigitsCore]
    rfl

theorem wrapS_of_range (w : Nat) (hw : w = 8 ∨ w = 16 ∨ w = 32 ∨ w = 64) (v : Int)
    (h1 : -(2 : Int) ^ (w - 1) ≤ v) (h2 : v < (2 : Int) ^ (w - 1)) : wrapS w v = v := by
  unfold wrapS
  rcases hw with rfl | rfl | rfl | rfl <;> norm_num at h1 h2 ⊢ <;> omega

theorem getVal_unsigned_roundtrip (n : Nat) (l : Location) (v : Nat) :
    (v ≤ 2 ^ 8 - 1 → getVal n l .uint8 (FormatUint v) = .ok v)
      ∧ (v ≤ 2 ^ 16 - 1 → getVal n l .uint16 (FormatUint v) = .ok v)
      ∧ (v ≤ 2 ^ 32 - 1 → getVal n l .uint32 (FormatUint v) = .ok v)
      ∧ (v ≤ 2 ^ 64 - 1 → getVal n l .uint64 (FormatUint v) = .ok v) := by
  obtain ⟨L, hL, hne, hd, hv⟩ := FormatUint_spec v
  have hs := mk_ne_empty L hne
  have h8 := ParseUint_digits n L 8 (by simp) hne hd
  have h16 := ParseUint_digits n L 16 (by simp) hne hd
  have h32 := ParseUint_digits n L 32 (by simp) hne hd
  have h64 := ParseUint_digits n L 64 (by simp) hne hd
  rw [hv] at h8 h16 h32 h64
  norm_num at h8 h16 h32 h64
  rw [hL]
  refine ⟨?_, ?_, ?_, ?_⟩
  · intro h
    norm_num at h
    simp only [getVal, hs, if_false, base, bit8, h8, h, if_true]
    simp only [assertT, ne_eq, not_true_eq_false, if_false, dite_true]
    rw [wrapU_natCast 8 v (by norm_num; omega)]
  · intro h
    norm_num at h
    simp only [getVal, hs, if_false, base, bit16, h16, h, if_true]
    simp only [assertT, ne_eq, not_true_eq_false, if_false, dite_true]
    rw [wrapU_natCast 16 v (by norm_num; omega)]
  · intro h
    norm_num at h
    simp only [getVal, hs, if_false, base, bit32, h32, h, if_true]
    simp only [assertT, ne_eq, not_true_eq_false, if_false, dite_true]
    rw [wrapU_natCast 32 v (by norm_num; omega)]
  · intro h
    norm_num at h
    simp only [getVal, hs, if_false, base, bit64, h64, h, if_true]
    simp only [assertT, ne_eq, not_true_eq_false, if_false, dite_true]

theorem FormatInt_spec (v : Int) (h1 : -(2 : Int) ^ 63 ≤ v) (h2 : v < (2 : Int) ^ 63) :
    ∃ L : List Char, L ≠ [] ∧ (∀ c ∈ L, isDigit c = true) ∧ (decVal L : Int) = |v|
      ∧ FormatInt v = String.mk (if v < 0 then '-' :: L else L) := by
  unfold FormatInt
  by_cases hneg : v < 0
  · have hu : wrapU 64 (-v) = (-v).toNat := by
      unfold wrapU
      norm_num at h1 h2 ⊢
      omega
    obtain ⟨L, hL, hne, hd, hv⟩ := formatDigits_spec ((-v).toNat + 1) (-v).toNat [] (by omega)
    refine ⟨L, hne, hd, ?_, ?_⟩
    · rw [hv, abs_of_neg hneg]
      omega
    · simp only [hneg, if_true, hu, hL, List.append_nil]
  · have hu : wrapU 64 v = v.toNat := by
      unfold wrapU
      norm_num at h1 h2 ⊢
      omega
    obtain ⟨L, hL, hne, hd, hv⟩ := FormatUint_spec v.toNat
    refine ⟨L, hne, hd, ?_, ?_⟩
    · rw [hv, abs_of_nonneg (by omega)]
      omega
    · simp only [hneg, if_false, hu, hL]

theorem getVal_signed_roundtrip (n : Nat) (l : Location) (v : Int) :
    (-(2 : Int) ^ 7 ≤ v → v ≤ (2 : Int) ^ 7 - 1 → getVal n l .int8 (FormatInt v) = .ok v)
      ∧ (-(2 : Int) ^ 15 ≤ v → v ≤ (2 : Int) ^ 15 - 1
          → getVal n l .int16 (FormatInt v) = .ok v)
      ∧ (-(2 : Int) ^ 31 ≤ v → v ≤ (2 : Int) ^ 31 - 1
          → getVal n l .int32 (FormatInt v) = .ok v)
      ∧ (-(2 : Int) ^ 63 ≤ v → v ≤ (2 : Int) ^ 63 - 1
          → getVal n l .int64 (FormatInt v) = .ok v) := by
  have key : ∀ w : Nat, (w = 8 ∨ w = 16 ∨ w = 32 ∨ w = 64) → -(2 : Int) ^ (w - 1) ≤ v →
      v ≤ (2 : Int) ^ (w - 1) - 1 →
      FormatInt v ≠ "" ∧ ParseInt n (FormatInt v) 10 (w : Int) = (v, none) := by
    intro w hw h1 h2
    have h1' : -(2 : Int) ^ 63 ≤ v := by
      rcases hw with rfl | rfl | rfl | rfl <;> norm_num at h1 ⊢ <;> omega
    have h2' : v < (2 : Int) ^ 63 := by
      rcases hw with rfl | rfl | rfl | rfl <;> norm_num at h2 ⊢ <;> omega
    obtain ⟨L, hne, hd, hv, hF⟩ := FormatInt_spec v h1' h2'
    rw [hF]
    by_cases hneg : v < 0
    · simp only [hneg, if_true]
      refine ⟨mk_ne_empty _ (by simp), ?_⟩
      rw [abs_of_neg hneg] at hv
      rw [ParseInt_neg_inRange n L w hw hne hd (by
        have : (decVal L : Int) ≤ (2 : Int) ^ (w - 1) := by omega
        exact_mod_cast this), hv]
      simp
    · simp only [hneg, if_false]
      refine ⟨mk_ne_empty _ hne, ?_⟩
      rw [abs_of_nonneg (by omega)] at hv
      rw [ParseInt_pos_inRange n L L w hw hne hd (Or.inl rfl) (by
        have : (decVal L : Int) < (2 : Int) ^ (w - 1) := by omega
        exact_mod_cast this), hv]
  refine ⟨?_, ?_, ?_, ?_⟩
  · intro h1 h2
    obtain ⟨hs, hp⟩ := key 8 (by simp) (by simpa using h1) (by simpa using h2)
    norm_num at hp
    simp only [getVal, hs, if_false, base, bit8, hp]
    simp only [assertT, ne_eq, not_true_eq_false, if_false, dite_true]
    rw [wrapS_of_range 8 (by simp) v (by simpa using h1) (by norm_num at h2 ⊢; omega)]
  · intro h1 h2
    obtain ⟨hs, hp⟩ := key 16 (by simp) (by simpa using h1) (by simpa using h2)
    norm_num at hp
    simp only [getVal, hs, if_false, base, bit16, hp]
    simp only [assertT, ne_eq, not_true_eq_false, if_false, dite_true]
    rw [wrapS_of_range 16 (by simp) v (by simpa using h1) (by norm_num at h2 ⊢; omega)]
  · intro h1 h2
    obtain ⟨hs, hp⟩ := key 32 (by simp) (by simpa using h1) (by simpa using h2)
    norm_num at hp
    simp only [getVal, hs, if_false, base, bit32, hp]
    simp only [assertT, ne_eq, not_true_eq_false, if_false, dite_true]
    rw [wrapS_of_range 32 (by simp) v (by simpa using h1) (by norm_num at h2 ⊢; omega)]
  · intro h1 h2
    obtain ⟨hs, hp⟩ := key 64 (by simp) (by simpa using h1) (by simpa using h2)
    norm_num at hp
    simp only [getVal, hs, if_false, base, bit64, hp]
    simp only [assertT, ne_eq, not_true_eq_false, if_false, dite_true]

/-! ## Decimal numerals outside the range of the type -/

theorem unsignedWidth_cases (T : EnvType) (w : Nat) (h : unsignedWidth T = some w) :
    (T = .uint8 ∧ w = 8) ∨ (T = .uint16 ∧ w = 16) ∨ (T = .uint32 ∧ w = 32)
      ∨ (T = .uint64 ∧ w = 64) := by
  cases T <;> simp [unsignedWidth] at h <;> simp [h]

theorem signedWidth_cases (T : EnvType) (w : Nat) (h : signedWidth T = some w) :
    (T = .int8 ∧ w = 8) ∨ (T = .int16 ∧ w = 16) ∨ (T = .int32 ∧ w = 32)
      ∨ (T = .int64 ∧ w = 64) := by
  cases T <;> simp [signedWidth] at h <;> simp [h]

theorem parseErr_unsigned (n : Nat) (l : Location) (T : EnvType) (w : Nat) (text : String)
    (hT : unsignedWidth T = some w) :
    parseErr n l T text = decide ((ParseUint n text 10 (w : Int)).2 ≠ none) := by
  rcases unsignedWidth_cases T w hT with ⟨rfl, rfl⟩ | ⟨rfl, rfl⟩ | ⟨rfl, rfl⟩ | ⟨rfl, rfl⟩ <;> rfl

theorem parseErr_signed (n : Nat) (l : Location) (T : EnvType) (w : Nat) (text : String)
    (hT : signedWidth T = some w) :
    parseErr n l T text = decide ((ParseInt n text 10 (w : Int)).2 ≠ none) := by
  rcases signedWidth_cases T w hT with ⟨rfl, rfl⟩ | ⟨rfl, rfl⟩ | ⟨rfl, rfl⟩ | ⟨rfl, rfl⟩ <;> rfl

theorem width_of_unsigned (T : EnvType) (w : Nat) (h : unsignedWidth T = some w) :
    w = 8 ∨ w = 16 ∨ w = 32 ∨ w = 64 := by
  rcases unsignedWidth_cases T w h with ⟨_, rfl⟩ | ⟨_, rfl⟩ | ⟨_, rfl⟩ | ⟨_, rfl⟩ <;> simp

theorem width_of_signed (T : EnvType) (w : Nat) (h : signedWidth T = some w) :
    w = 8 ∨ w = 16 ∨ w = 32 ∨ w = 64 := by
  rcases signedWidth_cases T w h with ⟨_, rfl⟩ | ⟨_, rfl⟩ | ⟨_, rfl⟩ | ⟨_, rfl⟩ <;> simp

theorem parseErr_unsigned_tooLarge (n : Nat) (l : Location) (T : EnvType) (w : Nat)
    (ds : List Char) (hT : unsignedWidth T = some w) (hne : ds ≠ [])
    (hd : ∀ c ∈ ds, isDigit c = true) (h : 2 ^ w ≤ decVal ds) :
    parseErr n l T (String.mk ds) = true := by
  rw [parseErr_unsigned n l T w _ hT, ParseUint_digits n ds w (width_of_unsigned T w hT) hne hd]
  have hpos : 0 < 2 ^ w := Nat.pow_pos (by norm_num)
  have : ¬ (decVal ds ≤ 2 ^ w - 1) := by omega
  simp [this]

theorem parseErr_unsigned_signed_text (n : Nat) (l : Location) (T : EnvType) (w : Nat)
    (c : Char) (cs : List Char) (hT : unsignedWidth T = some w) (hc : c = '-' ∨ c = '+') :
    parseErr n l T (String.mk (c :: cs)) = true := by
  rw [parseErr_unsigned n l T w _ hT, ParseUint_sign n c cs (w : Int) hc (by
    rcases width_of_unsigned T w hT with rfl | rfl | rfl | rfl <;> norm_num)]
  simp

theorem parseErr_signed_tooLarge (n : Nat) (l : Location) (T : EnvType) (w : Nat)
    (text ds : List Char) (hT : signedWidth T = some w) (hne : ds ≠ [])
    (hd : ∀ c ∈ ds, isDigit c = true) (htext : text = ds ∨ text = '+' :: ds)
    (h : 2 ^ (w - 1) ≤ decVal ds) :
    parseErr n l T (String.mk text) = true := by
  rw [parseErr_signed n l T w _ hT,
    ParseInt_pos_outOfRange n text ds w (width_of_signed T w hT) hne hd htext h]
  simp

theorem parseErr_signed_tooSmall (n : Nat) (l : Location) (T : EnvType) (w : Nat)
    (ds : List Char) (hT : signedWidth T = some w) (hne : ds ≠ [])
    (hd : ∀ c ∈ ds, isDigit c = true) (h : 2 ^ (w - 1) < decVal ds) :
    parseErr n l T (String.mk ('-' :: ds)) = true := by
  rw [parseErr_signed n l T w _ hT,
    ParseInt_neg_outOfRange n ds w (width_of_signed T w hT) hne hd h]
  simp

theorem Get_of_parseErr (P : Platform) (env : Env) (T : EnvType) (key val : String)
    (hk : env key = some val)
    (h : parseErr P.IntSize (P.getLocal env) T val = true) :
    Get P env T key = .ok (zero T) := by
  unfold Get
  rw [Getenv_of_some env key val hk]
  exact getVal_parseErr _ _ T val h

/-! ## Claims about integers -/

/-- C9: for each fixed-width integer type and every value `v` of its range, bounds
included, if the key holds the canonical base-10 rendering of `v` (`FormatUint`,
`FormatInt`: the decimal renderings `Nat.repr`, `Int.repr`) then `Get` at that type
returns `v`; `"1"` gives `1` at `uint8` and at `int8`. -/
theorem C9_integer_roundtrip (P : Platform) (env : Env) (key : String) :
    (∀ v : Nat, v ≤ 2 ^ 8 - 1 → env key = some (FormatUint v)
        → Get P env .uint8 key = .ok v)
      ∧ (∀ v : Nat, v ≤ 2 ^ 16 - 1 → env key = some (FormatUint v)
        → Get P env .uint16 key = .ok v)
      ∧ (∀ v : Nat, v ≤ 2 ^ 32 - 1 → env key = some (FormatUint v)
        → Get P env .uint32 key = .ok v)
      ∧ (∀ v : Nat, v ≤ 2 ^ 64 - 1 → env key = some (FormatUint v)
        → Get P env .uint64 key = .ok v)
      ∧ (∀ v : Int, -(2 : Int) ^ 7 ≤ v → v ≤ (2 : Int) ^ 7 - 1 → env key = some (FormatInt v)
        → Get P env .int8 key = .ok v)
      ∧ (∀ v : Int, -(2 : Int) ^ 15 ≤ v → v ≤ (2 : Int) ^ 15 - 1
        → env key = some (FormatInt v) → Get P env .int16 key = .ok v)
      ∧ (∀ v : Int, -(2 : Int) ^ 31 ≤ v → v ≤ (2 : Int) ^ 31 - 1
        → env key = some (FormatInt v) → Get P env .int32 key = .ok v)
      ∧ (∀ v : Int, -(2 : Int) ^ 63 ≤ v → v ≤ (2 : Int) ^ 63 - 1
        → env key = some (FormatInt v) → Get P env .int64 key = .ok v)
      ∧ Get P testEnvs .uint8 "UINT" = .ok (1 : Nat)
      ∧ Get P testEnvs .int8 "INT" = .ok (1 : Int) := by
  refine ⟨?_, ?_, ?_, ?_, ?_, ?_, ?_, ?_, ?_, ?_⟩
  · intro v hv hk
    unfold Get
    rw [Getenv_of_some env key _ hk]
    exact (getVal_unsigned_roundtrip _ _ v).1 hv
  · intro v hv hk
    unfold Get
    rw [Getenv_of_some env key _ hk]
    exact (getVal_unsigned_roundtrip _ _ v).2.1 hv
  · intro v hv hk
    unfold Get
    rw [Getenv_of_some env key _ hk]
    exact (getVal_unsigned_roundtrip _ _ v).2.2.1 hv
  · intro v hv hk
    unfold Get
    rw [Getenv_of_some env key _ hk]
    exact (getVal_unsigned_roundtrip _ _ v).2.2.2 hv
  · intro v h1 h2 hk
    unfold Get
    rw [Getenv_of_some env key _ hk]
    exact (getVal_signed_roundtrip _ _ v).1 h1 h2
  · intro v h1 h2 hk
    unfold Get
    rw [Getenv_of_some env key _ hk]
    exact (getVal_signed_roundtrip _ _ v).2.1 h1 h2
  · intro v h1 h2 hk
    unfold Get
    rw [Getenv_of_some env key _ hk]
    exact (getVal_signed_roundtrip _ _ v).2.2.1 h1 h2
  · intro v h1 h2 hk
    unfold Get
    rw [Getenv_of_some env key _ hk]
    exact (getVal_signed_roundtrip _ _ v).2.2.2 h1 h2
  · unfold Get
    exact (getVal_unsigned_roundtrip _ _ 1).1 (by norm_num)
  · unfold Get
    exact (getVal_signed_roundtrip _ _ 1).1 (by norm_num) (by norm_num)

/-- Witness of C9: the bounds `255` at `uint8` and `-128` at `int8` are read back. -/
theorem C9_integer_roundtrip_witness :
    Get linux64 (fun _ => some "255") .uint8 "K" = .ok (255 : Nat)
      ∧ Get linux64 (fun _ => some "-128") .int8 "K" = .ok (-128 : Int) :=
  ⟨(C9_integer_roundtrip linux64 (fun _ => some "255") "K").1 255 (by decide) (by decide),
   (C9_integer_roundtrip linux64 (fun _ => some "-128") "K").2.2.2.2.1 (-128) (by decide)
     (by decide) (by decide)⟩

/-- C10: for a fixed-width integer type of width `w` and a base-10 numeral (a run of
digits `ds`, with or without a sign in front) whose value is outside the range of the
type, `Get` returns `0`: unsigned with value `>= 2^w` or with a `-` in front, signed
with value `> 2^(w-1)-1` or `< -2^(w-1)`.  `"256"` and `"-1"` at `uint8` and `"128"`
at `int8` give `0`, and `"257"` at `uint8` gives `0`, not `1` or `255`. -/
theorem C10_out_of_range_is_zero (P : Platform) (env : Env) (key : String) (T : EnvType)
    (w : Nat) (ds : List Char) (hne : ds ≠ []) (hd : ∀ c ∈ ds, isDigit c = true) :
    (unsignedWidth T = some w → 2 ^ w ≤ decVal ds → env key = some (String.mk ds)
        → Get P env T key = .ok (zero T))
      ∧ (unsignedWidth T = some w → env key = some (String.mk ('-' :: ds))
        → Get P env T key = .ok (zero T))
      ∧ (signedWidth T = some w → 2 ^ (w - 1) - 1 < decVal ds
        → env key = some (String.mk ds) ∨ env key = some (String.mk ('+' :: ds))
        → Get P env T key = .ok (zero T))
      ∧ (signedWidth T = some w → 2 ^ (w - 1) < decVal ds
        → env key = some (String.mk ('-' :: ds)) → Get P env T key = .ok (zero T))
      ∧ Get P (fun _ => some "256") .uint8 "K" = .ok (0 : Nat)
      ∧ Get P (fun _ => some "128") .int8 "K" = .ok (0 : Int)
      ∧ Get P (fun _ => some "-1") .uint8 "K" = .ok (0 : Nat)
      ∧ Get P (fun _ => some "257") .uint8 "K" = .ok (0 : Nat) := by
  refine ⟨?_, ?_, ?_, ?_, ?_, ?_, ?_, ?_⟩
  · intro hT h hk
    exact Get_of_parseErr P env T key _ hk (parseErr_unsigned_tooLarge _ _ T w ds hT hne hd h)
  · intro hT hk
    exact Get_of_parseErr P env T key _ hk
      (parseErr_unsigned_signed_text _ _ T w '-' ds hT (Or.inl rfl))
  · intro hT h hk
    have h' : 2 ^ (w - 1) ≤ decVal ds := by omega
    rcases hk with hk | hk
    · exact Get_of_parseErr P env T key _ hk
        (parseErr_signed_tooLarge _ _ T w ds ds hT hne hd (Or.inl rfl) h')
    · exact Get_of_parseErr P env T key _ hk
        (parseErr_signed_tooLarge _ _ T w ('+' :: ds) ds hT hne hd (Or.inr rfl) h')
  · intro hT h hk
    exact Get_of_parseErr P env T key _ hk (parseErr_signed_tooSmall _ _ T w ds hT hne hd h)
  · exact Get_of_parseErr P _ .uint8 "K" "256" rfl (by
      rcases IntSize_cases P with h | h <;> rw [h] <;> rfl)
  · exact Get_of_parseErr P _ .int8 "K" "128" rfl (by
      rcases IntSize_cases P with h | h <;> rw [h] <;> rfl)
  · exact Get_of_parseErr P _ .uint8 "K" "-1" rfl (by
      rcases IntSize_cases P with h | h <;> rw [h] <;> rfl)
  · exact Get_of_parseErr P _ .uint8 "K" "257" rfl (by
      rcases IntSize_cases P with h | h <;> rw [h] <;> rfl)

/-- Witness of C10: `"65536"` at `uint16` and `"-32769"` at `int16` give `0`. -/
theorem C10_out_of_range_is_zero_witness :
    Get linux64 (fun _ => some "65536") .uint16 "K" = .ok (0 : Nat)
      ∧ Get linux64 (fun _ => some "-32769") .int16 "K" = .ok (0 : Int) :=
  ⟨(C10_out_of_range_is_zero linux64 (fun _ => some "65536") "K" .uint16 16
      "65536".data (by decide) (by decide)).1 rfl (by decide) rfl,
   (C10_out_of_range_is_zero linux64 (fun _ => some "-32769") "K" .int16 16
      "32769".data (by decide) (by decide)).2.2.2.1 rfl (by decide) rfl⟩

/-! ## Evaluations of the library models -/

theorem eval_ParseBool :
    ParseBool "true" = (true, none) ∧ ParseBool "F" = (false, none)
      ∧ ParseBool "yes" = (false, some .ErrSyntax) := by
  decide

theorem eval_ParseUint :
    ParseUint 64 "255" 10 8 = (255, none)
      ∧ ParseUint 64 "256" 10 8 = (255, some .ErrRange)
      ∧ ParseUint 64 "18446744073709551616" 10 64 = (maxUint64, some .ErrRange)
      ∧ ParseUint 64 "1_000" 10 64 = (0, some .ErrSyntax)
      ∧ ParseUint 64 "0x_1F" 0 64 = (31, none) := by
  decide

theorem eval_ParseInt :
    ParseInt 64 "-128" 10 8 = (-128, none)
      ∧ ParseInt 64 "128" 10 8 = (127, some .ErrRange)
      ∧ ParseInt 64 "-129" 10 8 = (-128, some .ErrRange)
      ∧ ParseInt 64 "+7" 10 8 = (7, none)
      ∧ ParseInt 32 "2147483648" 10 0 = (2147483647, some .ErrRange) := by
  decide

theorem eval_ParseFloat :
    ParseFloat "1.0" 64 = (.finite false 1 0, none)
      ∧ ParseFloat "0.1" 64 = (.finite false 3602879701896397 (-55), none)
      ∧ ParseFloat "0.1" 32 = (.finite false 13421773 (-27), none)
      ∧ ParseFloat "-0" 64 = (.finite true 0 0, none)
      ∧ ParseFloat "0x1p-2" 64 = (.finite false 1 (-2), none)
      ∧ ParseFloat "1_000" 64 = (.finite false 125 3, none)
      ∧ ParseFloat "+Inf" 64 = (.inf false, none)
      ∧ ParseFloat "nan" 64 = (.nan, none)
      ∧ ParseFloat "1e" 64 = (.finite false 0 0, some .ErrSyntax) := by
  decide

theorem eval_ParseComplex :
    ParseComplex "10+10i" 128 = ({ re := .finite false 5 1, im := .finite false 5 1 }, none)
      ∧ ParseComplex "(1.5-2i)" 64
          = ({ re := .finite false 3 (-1), im := .finite true 1 1 }, none)
      ∧ ParseComplex "3i" 128 = ({ re := .finite false 0 0, im := .finite false 3 0 }, none)
      ∧ (ParseComplex "1++2i" 128).2 = some .ErrSyntax := by
  decide

theorem eval_ParseDuration :
    ParseDuration "10s" = (10000000000, none)
      ∧ ParseDuration "1h30m" = (5400000000000, none)
      ∧ ParseDuration "-1.5h" = (-5400000000000, none)
      ∧ ParseDuration "0.1µs" = (100, none)
      ∧ ParseDuration "10" = (0, some .invalid)
      ∧ ParseDuration "9223372036854775808ns" = (0, some .invalid)
      ∧ ParseDuration "-9223372036854775808ns" = (-9223372036854775808, none) := by
  decide

theorem eval_ParseRFC1123 :
    ParseRFC1123 noZones "Thu, 30 May 2024 20:06:14 GMT"
        = ({ sec := 1717099574 + unixToInternal, nsec := 0, loc := .fixed "GMT" 0 }, none)
      ∧ ParseRFC1123 noZones "Thu, 30 May 2024 20:06:14 UTC"
        = ({ sec := 1717099574 + unixToInternal, nsec := 0, loc := .utc }, none)
      ∧ (ParseRFC1123 noZones "2024-05-30T20:06:14Z").2 = some .invalid
      ∧ (ParseRFC1123 noZones "Thu, 31 Feb 2024 20:06:14 GMT").2 = some .invalid
      ∧ (ParseRFC1123 noZones "Mon, 01 Jan 0001 00:00:00 UTC").1
        = { sec := 0, nsec := 0, loc := .utc } := by
  decide

/-! ## Claims about booleans -/

theorem getVal_bool (n : Nat) (l : Location) (val : String) :
    getVal n l .bool val = .ok (decide (val ∈ boolTrueForms)) := by
  by_cases hv : val = ""
  · subst hv; rfl
  · simp only [getVal, hv, if_false, ParseBool]
    by_cases h1 : val = "1" ∨ val = "t" ∨ val = "T" ∨ val = "true" ∨ val = "TRUE" ∨ val = "True"
    · have hm : val ∈ boolTrueForms := by
        simp only [boolTrueForms, List.mem_cons, List.mem_singleton, List.mem_nil_iff, or_false]
        tauto
      simp only [h1, if_true, hm, decide_True]
      rfl
    · have hm : val ∉ boolTrueForms := by
        simp only [boolTrueForms, List.mem_cons, List.mem_singleton, List.mem_nil_iff, or_false]
        tauto
      simp only [h1, if_false, hm, decide_False]
      split_ifs <;> rfl

/-- C11: `Get[bool](key)` is `true` exactly when the raw value is one of `"1"`, `"t"`,
`"T"`, `"TRUE"`, `"true"`, `"True"`, and `false` for every other text: the false
forms, the empty text, and texts such as `"not a bool"`, `"yes"` and `"tRuE"`. -/
theorem C11_bool_true_forms (P : Platform) (env : Env) (key : String) :
    (Get P env .bool key = .ok true ↔ Getenv env key ∈ boolTrueForms)
      ∧ (Getenv env key ∉ boolTrueForms ↔ Get P env .bool key = .ok false)
      ∧ Get P testEnvs .bool "BOOL" = .ok true
      ∧ Get P testEnvs .bool "UNBOOL" = .ok false
      ∧ Get P testEnvs .bool "INVALID" = .ok false
      ∧ Get P (fun _ => some "yes") .bool "K" = .ok false
      ∧ Get P (fun _ => some "tRuE") .bool "K" = .ok false
      ∧ Get P (fun _ => some "0") .bool "K" = .ok false
      ∧ Get P (fun _ => some "False") .bool "K" = .ok false := by
  have h : ∀ (e : Env) (k : String),
      Get P e .bool k = .ok (decide (Getenv e k ∈ boolTrueForms)) := by
    intro e k
    unfold Get
    exact getVal_bool _ _ _
  refine ⟨?_, ?_, ?_, ?_, ?_, ?_, ?_, ?_, ?_⟩
  · rw [h]
    constructor
    · intro hEq
      exact of_decide_eq_true (Except.ok.inj hEq)
    · intro hm
      rw [decide_eq_true hm]
  · rw [h]
    constructor
    · intro hm
      rw [decide_eq_false hm]
    · intro hEq
      exact of_decide_eq_false (Except.ok.inj hEq)
  all_goals (rw [h]; rfl)

/-! ## The shape of the texts that the integer parsers accept -/

theorem digitVal_lt_ten (c : Char) (d : Nat) (h : digitVal c = some d) (hd : d < 10) :
    isDigit c = true := by
  unfold digitVal at h
  cases h1 : isDigit c with
  | true => rfl
  | false =>
    rw [h1] at h
    cases h2 : isLetter c with
    | true =>
      rw [h2] at h
      simp only [Bool.false_eq_true, if_false, if_true, Option.some.injEq] at h
      omega
    | false =>
      rw [h2] at h
      simp at h

theorem parseUintLoop_ok_digits (cutoff maxVal : Nat) (ds : List Char) (n : Nat) (us : Bool)
    (r : Nat × Bool) (h : parseUintLoop 10 false cutoff maxVal ds n us = .ok r) :
    (∀ c ∈ ds, isDigit c = true) ∧ r.2 = us := by
  induction ds generalizing n with
  | nil =>
    simp only [parseUintLoop, Except.ok.injEq] at h
    subst h
    simp
  | cons c cs ih =>
    rw [parseUintLoop] at h
    have e1 : ¬ (c = '_' ∧ false = true) := by simp
    simp only [e1, if_false] at h
    cases hdv : digitVal c with
    | none => simp [hdv] at h
    | some d =>
      simp only [hdv] at h
      by_cases hd : d ≥ 10 % 256
      · simp [hd] at h
      · simp only [hd, if_false] at h
        have hc : isDigit c = true := digitVal_lt_ten c d hdv (by omega)
        by_cases h3 : n ≥ cutoff
        · simp [h3] at h
        · simp only [h3, if_false] at h
          split_ifs at h with h4
          have := ih _ h
          refine ⟨?_, this.2⟩
          intro x hx
          rcases List.mem_cons.1 hx with rfl | hx
          · exact hc
          · exact this.1 x hx

theorem parseUintLoop_error_range (cutoff maxVal : Nat) (ds : List Char) (n : Nat) (us : Bool)
    (v : Nat) (h : parseUintLoop 10 false cutoff maxVal ds n us = .error (v, .ErrRange)) :
    v = maxVal := by
  induction ds generalizing n with
  | nil => simp [parseUintLoop] at h
  | cons c cs ih =>
    rw [parseUintLoop] at h
    have e1 : ¬ (c = '_' ∧ false = true) := by simp
    simp only [e1, if_false] at h
    cases hdv : digitVal c with
    | none => simp [hdv] at h
    | some d =>
      simp only [hdv] at h
      by_cases hd : d ≥ 10 % 256
      · simp [hd] at h
      · simp only [hd, if_false] at h
        by_cases h3 : n ≥ cutoff
        · simp only [h3, if_true, Except.error.injEq, Prod.mk.injEq, and_true] at h
          exact h.symm
        · simp only [h3, if_false] at h
          split_ifs at h with h4
          · simp only [Except.error.injEq, Prod.mk.injEq, and_true] at h
            exact h.symm
          · exact ih _ h

/-- What `ParseUint` in base 10 returns, in terms of its digit loop. -/
theorem ParseUint_ten (n : Nat) (s : String) (bitSize : Int) (hs : s ≠ "")
    (hb : 0 ≤ bitSize ∧ bitSize ≤ 64) :
    ParseUint n s 10 bitSize
      = (match parseUintLoop 10 false (maxUint64 / 10 + 1)
            ((2 ^ (if bitSize = 0 then n else bitSize.toNat) % 2 ^ 64 + 2 ^ 64 - 1) % 2 ^ 64)
            s.data 0 false with
        | .error (v, e) => (v, some e)
        | .ok (m, _) => (m, none)) := by
  unfold ParseUint
  have hb2 : ¬ (bitSize < 0 ∨ bitSize > 64) := by omega
  have hdec : (decide ((10 : Int) = 0)) = false := by decide
  simp only [hs, if_false, pickBase_ten, hb2, hdec]
  cases hl : parseUintLoop 10 false (maxUint64 / 10 + 1)
      ((2 ^ (if bitSize = 0 then n else bitSize.toNat) % 2 ^ 64 + 2 ^ 64 - 1) % 2 ^ 64)
      s.data 0 false with
  | error p => rfl
  | ok r =>
    have := (parseUintLoop_ok_digits _ _ _ _ _ _ hl).2
    obtain ⟨m, us⟩ := r
    simp only at this
    subst this
    simp

theorem ParseUint_ok_digits (n : Nat) (s : String) (bitSize : Int)
    (hb : 0 ≤ bitSize ∧ bitSize ≤ 64) (h : (ParseUint n s 10 bitSize).2 = none) :
    s.data ≠ [] ∧ ∀ c ∈ s.data, isDigit c = true := by
  by_cases hs : s = ""
  · subst hs
    simp [ParseUint] at h
  · have hne : s.data ≠ [] := by
      intro h0
      apply hs
      cases s
      simp_all
    refine ⟨hne, ?_⟩
    rw [ParseUint_ten n s bitSize hs hb] at h
    cases hl : parseUintLoop 10 false (maxUint64 / 10 + 1)
        ((2 ^ (if bitSize = 0 then n else bitSize.toNat) % 2 ^ 64 + 2 ^ 64 - 1) % 2 ^ 64)
        s.data 0 false with
    | error p =>
      rw [hl] at h
      obtain ⟨v, e⟩ := p
      simp at h
    | ok r => exact (parseUintLoop_ok_digits _ _ _ _ _ _ hl).1

theorem ParseUint_range_value (n : Nat) (s : String) (bitSize : Int)
    (hb : 0 ≤ bitSize ∧ bitSize ≤ 64) (h : (ParseUint n s 10 bitSize).2 = some .ErrRange) :
    (ParseUint n s 10 bitSize).1
      = (2 ^ (if bitSize = 0 then n else bitSize.toNat) % 2 ^ 64 + 2 ^ 64 - 1) % 2 ^ 64 := by
  by_cases hs : s = ""
  · subst hs
    simp [ParseUint] at h
  · rw [ParseUint_ten n s bitSize hs hb] at h ⊢
    cases hl : parseUintLoop 10 false (maxUint64 / 10 + 1)
        ((2 ^ (if bitSize = 0 then n else bitSize.toNat) % 2 ^ 64 + 2 ^ 64 - 1) % 2 ^ 64)
        s.data 0 false with
    | error p =>
      rw [hl] at h
      obtain ⟨v, e⟩ := p
      simp only [Option.some.injEq] at h
      subst h
      simp only
      exact parseUintLoop_error_range _ _ _ _ _ _ hl
    | ok r =>
      rw [hl] at h
      simp at h

/-- The last part of `ParseInt`, after `ParseUint` has returned `r`. -/
theorem ParseInt_tail_ok (neg : Bool) (r : Nat × Option NumErr) (bits : Nat)
    (hbits : bits = 8 ∨ bits = 16 ∨ bits = 32 ∨ bits = 64)
    (hr : r.2 = some .ErrRange → r.1 = (2 ^ bits % 2 ^ 64 + 2 ^ 64 - 1) % 2 ^ 64)
    (h : (if r.2 ≠ none ∧ r.2 ≠ some .ErrRange then ((0 : Int), r.2)
        else
          if neg = false ∧ r.1 ≥ 2 ^ (bits - 1) % 2 ^ 64 then
            (wrapS 64 (((2 ^ (bits - 1) % 2 ^ 64 : Nat) : Int) - 1), some .ErrRange)
          else if neg = true ∧ r.1 > 2 ^ (bits - 1) % 2 ^ 64 then
            (wrapS 64 (-(wrapS 64 ((2 ^ (bits - 1) % 2 ^ 64 : Nat) : Int))), some .ErrRange)
          else (if neg then wrapS 64 (-(wrapS 64 r.1)) else wrapS 64 r.1, none)).2 = none) :
    r.2 = none := by
  obtain ⟨u, e⟩ := r
  cases e with
  | none => rfl
  | some e =>
    exfalso
    cases e with
    | ErrRange =>
      have hu : u = (2 ^ bits % 2 ^ 64 + 2 ^ 64 - 1) % 2 ^ 64 := hr rfl
      simp only [ne_eq, not_true_eq_false, and_false, if_false, reduceCtorEq,
        not_false_eq_true] at h
      rcases hbits with rfl | rfl | rfl | rfl <;> norm_num at hu <;> subst hu <;>
        cases neg <;> norm_num at h <;> exact absurd h (by simp)
    | ErrSyntax => simp at h
    | ErrBase => simp at h
    | ErrBitSize => simp at h

theorem ParseInt_ok_shape (n : Nat) (s : String) (bitSize : Int)
    (hb : 0 ≤ bitSize ∧ bitSize ≤ 64)
    (hbits : (if bitSize = 0 then n else bitSize.toNat) = 8
      ∨ (if bitSize = 0 then n else bitSize.toNat) = 16
      ∨ (if bitSize = 0 then n else bitSize.toNat) = 32
      ∨ (if bitSize = 0 then n else bitSize.toNat) = 64)
    (h : (ParseInt n s 10 bitSize).2 = none) :
    strictBase10 true s.data = true := by
  by_cases hs : s = ""
  · subst hs
    simp [ParseInt] at h
  · obtain ⟨ds⟩ := s
    cases ds with
    | nil => exact absurd rfl hs
    | cons c cs =>
      unfold ParseInt at h
      simp only [hs, if_false] at h
      by_cases hsign : c = '+' ∨ c = '-'
      · simp only [hsign, if_true] at h
        have hr := ParseInt_tail_ok (decide (c = '-')) (ParseUint n (String.mk cs) 10 bitSize)
          _ hbits (ParseUint_range_value n (String.mk cs) bitSize hb) h
        have hd := ParseUint_ok_digits n (String.mk cs) bitSize hb hr
        simp only [strictBase10]
        have hsg : (true && (decide (c = '+') || decide (c = '-'))) = true := by
          rcases hsign with rfl | rfl <;> decide
        simp only [hsg, if_true, Bool.and_eq_true, Bool.not_eq_true', List.all_eq_true]
        refine ⟨?_, hd.2⟩
        cases cs with
        | nil => exact absurd rfl hd.1
        | cons x xs => rfl
      · simp only [hsign, if_false] at h
        have hr := ParseInt_tail_ok (decide (c = '-')) (ParseUint n (String.mk (c :: cs)) 10 bitSize)
          _ hbits (ParseUint_range_value n (String.mk (c :: cs)) bitSize hb) h
        have hd := ParseUint_ok_digits n (String.mk (c :: cs)) bitSize hb hr
        simp only [strictBase10]
        have hsg : (true && (decide (c = '+') || decide (c = '-'))) = false := by
          have h1 : c ≠ '+' := fun hc => hsign (Or.inl hc)
          have h2 : c ≠ '-' := fun hc => hsign (Or.inr hc)
          simp [h1, h2]
        simp only [hsg, Bool.false_eq_true, if_false, List.all_eq_true]
        exact hd.2

theorem strictBase10_unsigned (s : List Char) (hne : s ≠ [])
    (hd : ∀ c ∈ s, isDigit c = true) : strictBase10 false s = true := by
  cases s with
  | nil => exact absurd rfl hne
  | cons c cs =>
    simp only [strictBase10, Bool.false_and, Bool.false_eq_true, if_false, List.all_eq_true]
    exact hd

theorem parseErr_of_not_shape (n : Nat) (l : Location) (T : EnvType) (val : String)
    (hn : n = 32 ∨ n = 64) (hT : isIntType T = true)
    (h : strictBase10 (isSignedType T) val.data ≠ true) : parseErr n l T val = true := by
  have hU : ∀ w : Int, 0 ≤ w ∧ w ≤ 64 → strictBase10 false val.data ≠ true →
      decide ((ParseUint n val 10 w).2 ≠ none) = true := by
    intro w hw hs
    rw [decide_eq_true_iff]
    intro hnone
    have := ParseUint_ok_digits n val w hw hnone
    exact hs (strictBase10_unsigned _ this.1 this.2)
  have hS : ∀ w : Int, 0 ≤ w ∧ w ≤ 64 →
      ((if w = 0 then n else w.toNat) = 8 ∨ (if w = 0 then n else w.toNat) = 16
        ∨ (if w = 0 then n else w.toNat) = 32 ∨ (if w = 0 then n else w.toNat) = 64) →
      strictBase10 true val.data ≠ true →
      decide ((ParseInt n val 10 w).2 ≠ none) = true := by
    intro w hw hbits hs
    rw [decide_eq_true_iff]
    intro hnone
    exact hs (ParseInt_ok_shape n val w hw hbits hnone)
  cases T with
  | uint => exact hU 0 (by decide) h
  | uint8 => exact hU 8 (by decide) h
  | uint16 => exact hU 16 (by decide) h
  | uint32 => exact hU 32 (by decide) h
  | uint64 => exact hU 64 (by decide) h
  | int => exact hS 0 (by decide) (by rcases hn with rfl | rfl <;> simp) h
  | int8 => exact hS 8 (by decide) (by simp) h
  | int16 => exact hS 16 (by decide) (by simp) h
  | int32 => exact hS 32 (by decide) (by simp) h
  | int64 => exact hS 64 (by decide) (by simp) h
  | _ => exact absurd hT (by decide)

/-! ## Claims about the shape of integer texts -/

/-- C17: at every integer type, `Get` returns a non-zero value only if the raw text has
the strict base-10 shape: one or more ASCII decimal digits, after at most one sign
character for the signed types and after no sign character for the unsigned types.
So `"0x10"`, `"1_000"`, `" 1"` and `"1.0"` give `0` at every integer type, and `"+1"`
and `"-0"` give `0` at every unsigned type. -/
theorem C17_strict_base10 (P : Platform) (env : Env) (T : EnvType) (key : String)
    (hT : isIntType T = true) (h : Get P env T key ≠ .ok (zero T)) :
    strictBase10 (isSignedType T) (Getenv env key).data = true
      ∧ (∀ U : EnvType, isIntType U = true →
          Get P (fun _ => some "0x10") U "K" = .ok (zero U)
          ∧ Get P (fun _ => some "1_000") U "K" = .ok (zero U)
          ∧ Get P (fun _ => some " 1") U "K" = .ok (zero U)
          ∧ Get P (fun _ => some "1.0") U "K" = .ok (zero U))
      ∧ (∀ U : EnvType, isIntType U = true → isSignedType U = false →
          Get P (fun _ => some "+1") U "K" = .ok (zero U)
          ∧ Get P (fun _ => some "-0") U "K" = .ok (zero U)) := by
  have key1 : ∀ (e : Env) (U : EnvType) (k : String), isIntType U = true →
      strictBase10 (isSignedType U) (Getenv e k).data ≠ true → Get P e U k = .ok (zero U) := by
    intro e U k hU hs
    unfold Get
    exact getVal_parseErr _ _ U _ (parseErr_of_not_shape _ _ U _ (IntSize_cases P) hU hs)
  refine ⟨?_, ?_, ?_⟩
  · by_contra hs
    exact h (key1 env T key hT hs)
  · intro U hU
    refine ⟨key1 _ U _ hU ?_, key1 _ U _ hU ?_, key1 _ U _ hU ?_, key1 _ U _ hU ?_⟩ <;>
      cases U <;> first | exact absurd hU (by decide) | decide
  · intro U hU hS
    refine ⟨key1 _ U _ hU ?_, key1 _ U _ hU ?_⟩ <;>
      cases U <;> first | exact absurd hU (by decide) | exact absurd hS (by decide) | decide

/-- Witness of C17: `"-12"` read as `int8` is `-12`, not zero, and has the shape. -/
theorem C17_strict_base10_witness :
    Get linux64 (fun _ => some "-12") .int8 "K" = .ok (-12 : Int)
      ∧ strictBase10 (isSignedType .int8) (Getenv (fun _ => some "-12") "K").data = true :=
  ⟨by decide,
   (C17_strict_base10 linux64 (fun _ => some "-12") .int8 "K" (by decide) (by decide)).1⟩

/-! ## Integer texts read at two widths -/

theorem getVal_unsigned_digits (n : Nat) (l : Location) (T : EnvType) (w : Nat)
    (ds : List Char) (hT : unsignedWidth T = some w) (hne : ds ≠ [])
    (hd : ∀ c ∈ ds, isDigit c = true) :
    ∃ y, getVal n l T (String.mk ds) = .ok y
      ∧ T.toInt y = some (if decVal ds ≤ 2 ^ w - 1 then (decVal ds : Int) else 0) := by
  have hs := mk_ne_empty ds hne
  have hw := width_of_unsigned T w hT
  have hp := ParseUint_digits n ds w hw hne hd
  by_cases hr : decVal ds ≤ 2 ^ w - 1
  · simp only [hr, if_true] at hp ⊢
    have hlt : decVal ds < 2 ^ w := by
      have : 0 < 2 ^ w := Nat.pow_pos (by norm_num)
      omega
    rcases unsignedWidth_cases T w hT with ⟨rfl, rfl⟩ | ⟨rfl, rfl⟩ | ⟨rfl, rfl⟩ | ⟨rfl, rfl⟩
    · refine ⟨decVal ds, ?_, rfl⟩
      norm_num at hp
      simp only [getVal, hs, if_false, base, bit8, hp]
      simp only [assertT, ne_eq, not_true_eq_false, if_false, dite_true]
      rw [wrapU_natCast 8 _ hlt]
    · refine ⟨decVal ds, ?_, rfl⟩
      norm_num at hp
      simp only [getVal, hs, if_false, base, bit16, hp]
      simp only [assertT, ne_eq, not_true_eq_false, if_false, dite_true]
      rw [wrapU_natCast 16 _ hlt]
    · refine ⟨decVal ds, ?_, rfl⟩
      norm_num at hp
      simp only [getVal, hs, if_false, base, bit32, hp]
      simp only [assertT, ne_eq, not_true_eq_false, if_false, dite_true]
      rw [wrapU_natCast 32 _ hlt]
    · refine ⟨decVal ds, ?_, rfl⟩
      norm_num at hp
      simp only [getVal, hs, if_false, base, bit64, hp]
      simp only [assertT, ne_eq, not_true_eq_false, if_false, dite_true]
  · simp only [hr, if_false]
    refine ⟨zero T, ?_, ?_⟩
    · apply getVal_parseErr
      rw [parseErr_unsigned n l T w _ hT, hp]
      simp [hr]
    · rcases unsignedWidth_cases T w hT with ⟨rfl, rfl⟩ | ⟨rfl, rfl⟩ | ⟨rfl, rfl⟩ | ⟨rfl, rfl⟩ <;>
        rfl

theorem getVal_signed_ok (n : Nat) (l : Location) (T : EnvType) (w : Nat) (text : List Char)
    (v : Int) (hT : signedWidth T = some w) (hne : text ≠ [])
    (hp : ParseInt n (String.mk text) 10 (w : Int) = (v, none))
    (h1 : -(2 : Int) ^ (w - 1) ≤ v) (h2 : v < (2 : Int) ^ (w - 1)) :
    ∃ y, getVal n l T (String.mk text) = .ok y ∧ T.toInt y = some v := by
  have hs := mk_ne_empty text hne
  have hw := width_of_signed T w hT
  rcases signedWidth_cases T w hT with ⟨rfl, rfl⟩ | ⟨rfl, rfl⟩ | ⟨rfl, rfl⟩ | ⟨rfl, rfl⟩
  · refine ⟨v, ?_, rfl⟩
    norm_num at hp
    simp only [getVal, hs, if_false, base, bit8, hp]
    simp only [assertT, ne_eq, not_true_eq_false, if_false, dite_true]
    rw [wrapS_of_range 8 (by simp) v h1 h2]
  · refine ⟨v, ?_, rfl⟩
    norm_num at hp
    simp only [getVal, hs, if_false, base, bit16, hp]
    simp only [assertT, ne_eq, not_true_eq_false, if_false, dite_true]
    rw [wrapS_of_range 16 (by simp) v h1 h2]
  · refine ⟨v, ?_, rfl⟩
    norm_num at hp
    simp only [getVal, hs, if_false, base, bit32, hp]
    simp only [assertT, ne_eq, not_true_eq_false, if_false, dite_true]
    rw [wrapS_of_range 32 (by simp) v h1 h2]
  · refine ⟨v, ?_, rfl⟩
    norm_num at hp
    simp only [getVal, hs, if_false, base, bit64, hp]
    simp only [assertT, ne_eq, not_true_eq_false, if_false, dite_true]

theorem zero_toInt_signed (T : EnvType) (w : Nat) (hT : signedWidth T = some w) :
    T.toInt (zero T) = some 0 := by
  rcases signedWidth_cases T w hT with ⟨rfl, rfl⟩ | ⟨rfl, rfl⟩ | ⟨rfl, rfl⟩ | ⟨rfl, rfl⟩ <;> rfl

theorem getVal_signed_pos (n : Nat) (l : Location) (T : EnvType) (w : Nat)
    (text ds : List Char) (hT : signedWidth T = some w) (hne : ds ≠ [])
    (hd : ∀ c ∈ ds, isDigit c = true) (htext : text = ds ∨ text = '+' :: ds) :
    ∃ y, getVal n l T (String.mk text) = .ok y
      ∧ T.toInt y = some (if decVal ds < 2 ^ (w - 1) then (decVal ds : Int) else 0) := by
  have hw := width_of_signed T w hT
  have htne : text ≠ [] := by rcases htext with rfl | rfl <;> simp [hne]
  by_cases hr : decVal ds < 2 ^ (w - 1)
  · simp only [hr, if_true]
    apply getVal_signed_ok n l T w text _ hT htne
      (ParseInt_pos_inRange n text ds w hw hne hd htext hr)
    · have : (0 : Int) ≤ (decVal ds : Int) := Int.natCast_nonneg _
      have h2 : (0 : Int) < (2 : Int) ^ (w - 1) := by positivity
      omega
    · exact_mod_cast hr
  · simp only [hr, if_false]
    refine ⟨zero T, ?_, zero_toInt_signed T w hT⟩
    apply getVal_parseErr
    exact parseErr_signed_tooLarge n l T w text ds hT hne hd htext (by omega)

theorem getVal_signed_neg (n : Nat) (l : Location) (T : EnvType) (w : Nat)
    (ds : List Char) (hT : signedWidth T = some w) (hne : ds ≠ [])
    (hd : ∀ c ∈ ds, isDigit c = true) :
    ∃ y, getVal n l T (String.mk ('-' :: ds)) = .ok y
      ∧ T.toInt y = some (if decVal ds ≤ 2 ^ (w - 1) then -(decVal ds : Int) else 0) := by
  have hw := width_of_signed T w hT
  by_cases hr : decVal ds ≤ 2 ^ (w - 1)
  · simp only [hr, if_true]
    apply getVal_signed_ok n l T w ('-' :: ds) _ hT (by simp)
      (ParseInt_neg_inRange n ds w hw hne hd hr)
    · have : ((decVal ds : Nat) : Int) ≤ ((2 ^ (w - 1) : Nat) : Int) := by exact_mod_cast hr
      push_cast at this
      omega
    · have : (0 : Int) ≤ (decVal ds : Int) := Int.natCast_nonneg _
      have h2 : (0 : Int) < (2 : Int) ^ (w - 1) := by positivity
      omega
  · simp only [hr, if_false]
    refine ⟨zero T, ?_, zero_toInt_signed T w hT⟩
    apply getVal_parseErr
    exact parseErr_signed_tooSmall n l T w ds hT hne hd (by omega)

theorem strictBase10_forms (signed : Bool) (s : List Char) (h : strictBase10 signed s = true) :
    (s ≠ [] ∧ ∀ c ∈ s, isDigit c = true)
      ∨ (signed = true ∧ ∃ ds : List Char, ds ≠ [] ∧ (∀ c ∈ ds, isDigit c = true)
          ∧ (s = '+' :: ds ∨ s = '-' :: ds)) := by
  cases s with
  | nil => simp [strictBase10] at h
  | cons c cs =>
    simp only [strictBase10] at h
    by_cases hc : (signed && (decide (c = '+') || decide (c = '-'))) = true
    · simp only [hc, if_true, Bool.and_eq_true, Bool.not_eq_true', List.all_eq_true] at h
      right
      simp only [Bool.and_eq_true, Bool.or_eq_true, decide_eq_true_eq] at hc
      refine ⟨hc.1, cs, ?_, h.2, ?_⟩
      · intro h0
        subst h0
        simp at h
      · rcases hc.2 with rfl | rfl
        · exact Or.inl rfl
        · exact Or.inr rfl
    · have hc2 : (signed && (decide (c = '+') || decide (c = '-'))) = false := by
        simpa using hc
      rw [hc2] at h
      simp only [Bool.false_eq_true, if_false, List.all_eq_true] at h
      left
      exact ⟨by simp, h⟩

theorem getVal_nonzero_shape (n : Nat) (l : Location) (T : EnvType) (val : String)
    (hn : n = 32 ∨ n = 64) (hT : isIntType T = true) (h : getVal n l T val ≠ .ok (zero T)) :
    strictBase10 (isSignedType T) val.data = true := by
  by_contra hs
  exact h (getVal_parseErr n l T val (parseErr_of_not_shape n l T val hn hT hs))

theorem getVal_widen_unsigned (n : Nat) (l : Location) (T1 T2 : EnvType) (w1 w2 : Nat)
    (val : String) (x : T1.Val) (v : Int) (hn : n = 32 ∨ n = 64)
    (h1 : unsignedWidth T1 = some w1) (h2 : unsignedWidth T2 = some w2) (hw : w1 < w2)
    (hg : getVal n l T1 val = .ok x) (hv : T1.toInt x = some v) (hnz : v ≠ 0) :
    ∃ y, getVal n l T2 val = .ok y ∧ T2.toInt y = some v := by
  have hI : isIntType T1 = true ∧ isSignedType T1 = false := by
    rcases unsignedWidth_cases T1 w1 h1 with ⟨rfl, _⟩ | ⟨rfl, _⟩ | ⟨rfl, _⟩ | ⟨rfl, _⟩ <;> decide
  have hz : T1.toInt (zero T1) = some 0 := by
    rcases unsignedWidth_cases T1 w1 h1 with ⟨rfl, _⟩ | ⟨rfl, _⟩ | ⟨rfl, _⟩ | ⟨rfl, _⟩ <;> rfl
  have hx : getVal n l T1 val ≠ .ok (zero T1) := by
    intro h0
    rw [hg] at h0
    have := Except.ok.inj h0
    subst this
    rw [hz] at hv
    exact hnz (Option.some.inj hv).symm
  have hs := getVal_nonzero_shape n l T1 val hn hI.1 hx
  rw [hI.2] at hs
  rcases strictBase10_forms false val.data hs with ⟨hne, hd⟩ | ⟨hf, _⟩
  · obtain ⟨y1, hy1, hv1⟩ := getVal_unsigned_digits n l T1 w1 val.data h1 hne hd
    obtain ⟨y2, hy2, hv2⟩ := getVal_unsigned_digits n l T2 w2 val.data h2 hne hd
    have hval : String.mk val.data = val := rfl
    rw [hval] at hy1 hy2
    rw [hg] at hy1
    have hxy := Except.ok.inj hy1
    subst hxy
    rw [hv] at hv1
    have hv1' := Option.some.inj hv1
    refine ⟨y2, hy2, ?_⟩
    rw [hv2]
    have hpow : 2 ^ w1 ≤ 2 ^ w2 := Nat.pow_le_pow_right (by norm_num) (le_of_lt hw)
    by_cases hr : decVal val.data ≤ 2 ^ w1 - 1
    · have hr2 : decVal val.data ≤ 2 ^ w2 - 1 := by omega
      simp only [hr, if_true] at hv1'
      simp only [hr2, if_true, hv1']
    · simp only [hr, if_false] at hv1'
      exact absurd hv1' hnz
  · exact absurd hf (by decide)

theorem getVal_widen_signed (n : Nat) (l : Location) (T1 T2 : EnvType) (w1 w2 : Nat)
    (val : String) (x : T1.Val) (v : Int) (hn : n = 32 ∨ n = 64)
    (h1 : signedWidth T1 = some w1) (h2 : signedWidth T2 = some w2) (hw : w1 < w2)
    (hg : getVal n l T1 val = .ok x) (hv : T1.toInt x = some v) (hnz : v ≠ 0) :
    ∃ y, getVal n l T2 val = .ok y ∧ T2.toInt y = some v := by
  have hI : isIntType T1 = true ∧ isSignedType T1 = true := by
    rcases signedWidth_cases T1 w1 h1 with ⟨rfl, _⟩ | ⟨rfl, _⟩ | ⟨rfl, _⟩ | ⟨rfl, _⟩ <;> decide
  have hz := zero_toInt_signed T1 w1 h1
  have hx : getVal n l T1 val ≠ .ok (zero T1) := by
    intro h0
    rw [hg] at h0
    have := Except.ok.inj h0
    subst this
    rw [hz] at hv
    exact hnz (Option.some.inj hv).symm
  have hs := getVal_nonzero_shape n l T1 val hn hI.1 hx
  rw [hI.2] at hs
  have hval : String.mk val.data = val := rfl
  have hpow : 2 ^ (w1 - 1) ≤ 2 ^ (w2 - 1) := Nat.pow_le_pow_right (by norm_num) (by omega)
  have hpos : ∀ (ds : List Char), ds ≠ [] → (∀ c ∈ ds, isDigit c = true) →
      (val.data = ds ∨ val.data = '+' :: ds) →
      ∃ y, getVal n l T2 val = .ok y ∧ T2.toInt y = some v := by
    intro ds hne hd htext
    obtain ⟨y1, hy1, hv1⟩ := getVal_signed_pos n l T1 w1 val.data ds h1 hne hd htext
    obtain ⟨y2, hy2, hv2⟩ := getVal_signed_pos n l T2 w2 val.data ds h2 hne hd htext
    rw [hval] at hy1 hy2
    rw [hg] at hy1
    have hxy := Except.ok.inj hy1
    subst hxy
    rw [hv] at hv1
    have hv1' := Option.some.inj hv1
    refine ⟨y2, hy2, ?_⟩
    rw [hv2]
    by_cases hr : decVal ds < 2 ^ (w1 - 1)
    · have hr2 : decVal ds < 2 ^ (w2 - 1) := by omega
      simp only [hr, if_true] at hv1'
      simp only [hr2, if_true, hv1']
    · simp only [hr, if_false] at hv1'
      exact absurd hv1' hnz
  rcases strictBase10_forms true val.data hs with ⟨hne, hd⟩ | ⟨_, ds, hne, hd, hf | hf⟩
  · exact hpos val.data hne hd (Or.inl rfl)
  · exact hpos ds hne hd (Or.inr hf)
  · obtain ⟨y1, hy1, hv1⟩ := getVal_signed_neg n l T1 w1 ds h1 hne hd
    obtain ⟨y2, hy2, hv2⟩ := getVal_signed_neg n l T2 w2 ds h2 hne hd
    rw [← hf, hval] at hy1 hy2
    rw [hg] at hy1
    have hxy := Except.ok.inj hy1
    subst hxy
    rw [hv] at hv1
    have hv1' := Option.some.inj hv1
    refine ⟨y2, hy2, ?_⟩
    rw [hv2]
    by_cases hr : decVal ds ≤ 2 ^ (w1 - 1)
    · have hr2 : decVal ds ≤ 2 ^ (w2 - 1) := by omega
      simp only [hr, if_true] at hv1'
      simp only [hr2, if_true, hv1']
    · simp only [hr, if_false] at hv1'
      exact absurd hv1' hnz

/-! ## Claim about widening the integer type -/

/-- C18: for two fixed widths `w1 < w2` of the same signedness, if `Get` at width `w1`
returns a non-zero value `v` then `Get` at width `w2` returns the same number `v` on
the same environment. -/
theorem C18_widening_keeps_value (P : Platform) (env : Env) (key : String)
    (T1 T2 : EnvType) (w1 w2 : Nat) (x : T1.Val) (v : Int)
    (hT : (unsignedWidth T1 = some w1 ∧ unsignedWidth T2 = some w2)
      ∨ (signedWidth T1 = some w1 ∧ signedWidth T2 = some w2))
    (hw : w1 < w2) (hg : Get P env T1 key = .ok x) (hv : T1.toInt x = some v)
    (hnz : v ≠ 0) :
    ∃ y, Get P env T2 key = .ok y ∧ T2.toInt y = some v := by
  unfold Get at hg ⊢
  rcases hT with ⟨h1, h2⟩ | ⟨h1, h2⟩
  · exact getVal_widen_unsigned _ _ T1 T2 w1 w2 _ x v (IntSize_cases P) h1 h2 hw hg hv hnz
  · exact getVal_widen_signed _ _ T1 T2 w1 w2 _ x v (IntSize_cases P) h1 h2 hw hg hv hnz

/-- Witness of C18: `"-128"` is `-128` at `int8` and at `int64`. -/
theorem C18_widening_keeps_value_witness :
    Get linux64 (fun _ => some "-128") .int8 "K" = .ok (-128 : Int)
      ∧ ∃ y, Get linux64 (fun _ => some "-128") .int64 "K" = .ok y
          ∧ EnvType.toInt .int64 y = some (-128) :=
  ⟨by decide,
   C18_widening_keeps_value linux64 (fun _ => some "-128") "K" .int8 .int64 8 64
     (-128 : Int) (-128) (Or.inr ⟨rfl, rfl⟩) (by decide) (by decide) rfl (by decide)⟩

/-! ## Durations in whole seconds -/

theorem leadingIntLoop_digits (ds rest : List Char) (x : Nat)
    (hd : ∀ c ∈ ds, isDigit c = true)
    (hrest : ∀ c, rest.head? = some c → isDigit c = false)
    (h : ds.foldl stepD x ≤ 2 ^ 63 / 10) :
    leadingIntLoop (ds ++ rest) x = some (ds.foldl stepD x, rest) := by
  induction ds generalizing x with
  | nil =>
    simp only [List.nil_append, List.foldl_nil]
    cases rest with
    | nil => rfl
    | cons r rs =>
      have hr := hrest r rfl
      simp [leadingIntLoop, hr]
  | cons c cs ih =>
    have hc : isDigit c = true := hd c (List.mem_cons_self _ _)
    have hcs : ∀ y ∈ cs, isDigit y = true := fun y hy => hd y (List.mem_cons_of_mem _ hy)
    simp only [List.foldl_cons] at h
    have hge := le_foldl_stepD cs (stepD x c)
    have hr := (isDigit_iff c).1 hc
    have hstep : stepD x c = x * 10 + (c.toNat - 48) := rfl
    have h63 : (2 : Nat) ^ 63 / 10 = 922337203685477580 := by norm_num
    have h64 : (2 : Nat) ^ 64 = 18446744073709551616 := by norm_num
    have h63' : (2 : Nat) ^ 63 = 9223372036854775808 := by norm_num
    rw [h63] at h
    have hx : ¬ (x > 2 ^ 63 / 10) := by rw [h63]; omega
    have hz : '0'.toNat = 48 := rfl
    have hx1 : (x * 10 + c.toNat - '0'.toNat) % 2 ^ 64 = stepD x c := by
      rw [hz, h64, hstep]
      omega
    simp only [List.cons_append, leadingIntLoop, hc, not_true_eq_false, if_false, hx, hx1]
    have hx2 : ¬ (stepD x c > 2 ^ 63) := by rw [h63']; omega
    simp only [hx2, if_false, List.foldl_cons]
    exact ih (stepD x c) hcs (by rw [h63]; exact h)

theorem parseDurationLoop_seconds (fuel : Nat) (ds : List Char) (hne : ds ≠ [])
    (hd : ∀ c ∈ ds, isDigit c = true) (hn : decVal ds * 10 ^ 9 ≤ 2 ^ 63 - 1) :
    parseDurationLoop (fuel + 1) (ds ++ ['s']) 0 = some (decVal ds * 10 ^ 9) := by
  obtain ⟨c, cs, rfl⟩ := List.exists_cons_of_ne_nil hne
  have hc : isDigit c = true := hd c (List.mem_cons_self _ _)
  have h63 : (2 : Nat) ^ 63 = 9223372036854775808 := by norm_num
  have h64 : (2 : Nat) ^ 64 = 18446744073709551616 := by norm_num
  rw [h63] at hn
  have hli : leadingInt (c :: (cs ++ ['s'])) = some (decVal (c :: cs), ['s']) := by
    have := leadingIntLoop_digits (c :: cs) ['s'] 0 hd (by
      intro x hx
      simp only [List.head?_cons, Option.some.injEq] at hx
      subst hx
      decide) (by
      have : (2 : Nat) ^ 63 / 10 = 922337203685477580 := by norm_num
      rw [this]
      unfold decVal at hn
      omega)
    exact this
  have hlen : (c :: (cs ++ ['s'])).length ≠ ['s'].length := by simp
  have hs : ('s' : Char) ≠ '.' := by decide
  have htw : List.takeWhile (fun ch => decide (¬ (ch = '.' ∨ isDigit ch = true))) ['s'] = ['s'] := by
    decide
  have hdw : List.dropWhile (fun ch => decide (¬ (ch = '.' ∨ isDigit ch = true))) ['s'] = [] := by
    decide
  have hum : unitMap (String.mk ['s']) = some 1000000000 := by decide
  rw [List.cons_append, parseDurationLoop]
  simp only [hc, or_true, not_true_eq_false, if_false, hli, hlen, hs, decide_True, htw, hdw, hum]
  have hn' : decVal (c :: cs) * 1000000000 ≤ 9223372036854775807 := by
    norm_num at hn
    exact hn
  have e0 : ¬ ((0 : Nat) > 0) := by omega
  have e1 : ¬ (¬ True ∧ ¬ false = true) := by simp
  have e2 : ¬ (['s'].length = 0) := by simp
  have e3 : ¬ (decVal (c :: cs) > 2 ^ 63 / 1000000000) := by
    rw [h63]
    omega
  have e4 : decVal (c :: cs) * 1000000000 % 2 ^ 64 = decVal (c :: cs) * 1000000000 := by
    rw [h64]
    omega
  have e5 : (0 + decVal (c :: cs) * 1000000000) % 2 ^ 64 = decVal (c :: cs) * 1000000000 := by
    rw [h64]
    omega
  have e6 : ¬ (decVal (c :: cs) * 1000000000 > 2 ^ 63) := by
    rw [h63]
    omega
  simp only [e0, e1, e2, e3, e4, e5, e6, if_false, false_and, parseDurationLoop]
  norm_num

theorem ParseDuration_seconds (ds : List Char) (hne : ds ≠ [])
    (hd : ∀ c ∈ ds, isDigit c = true) (hn : decVal ds * 10 ^ 9 ≤ 2 ^ 63 - 1) :
    ParseDuration (String.mk (ds ++ ['s'])) = (((decVal ds * 10 ^ 9 : Nat) : Int), none) := by
  obtain ⟨c, cs, rfl⟩ := List.exists_cons_of_ne_nil hne
  have hc : isDigit c = true := hd c (List.mem_cons_self _ _)
  have hns := not_sign_of_isDigit c hc
  have hnm : c ≠ '-' := fun h => hns (Or.inr h)
  have hnp : c ≠ '+' := fun h => hns (Or.inl h)
  have hloop := parseDurationLoop_seconds (cs ++ ['s']).length (c :: cs) hne hd hn
  have h0 : c :: (cs ++ ['s']) ≠ ['0'] := by
    intro h
    have := congrArg List.length h
    simp at this
  have h63 : (2 : Nat) ^ 63 = 9223372036854775808 := by norm_num
  have hle : ¬ (decVal (c :: cs) * 10 ^ 9 > 2 ^ 63 - 1) := by omega
  unfold ParseDuration
  simp only [List.cons_append, hnm, hnp, or_self, if_false, decide_False, h0,
    List.length_cons, Bool.false_eq_true]
  rw [List.cons_append] at hloop
  rw [hloop]
  have hnil : ¬ (c :: (cs ++ ['s']) = []) := by simp
  simp only [hnil, if_false, hle]
  rw [wrapS64_natCast]
  rw [h63] at hn ⊢
  omega

/-! ## Claim about durations -/

/-- C12: for every natural number `n` with `n * 10^9 <= 2^63 - 1`, if the key holds the
decimal digits of `n` followed by `"s"`, then `Get[time.Duration](key)` is `n` seconds,
that is `n * 10^9` nanoseconds; `"10s"` gives 10 seconds. -/
theorem C12_duration_seconds (P : Platform) (env : Env) (key : String) (n : Nat)
    (hn : n * 10 ^ 9 ≤ 2 ^ 63 - 1) (hk : env key = some (FormatUint n ++ "s")) :
    Get P env .duration key = .ok ((n : Int) * 10 ^ 9)
      ∧ Get P testEnvs .duration "DURATION" = .ok (10 * 10 ^ 9 : Int) := by
  have main : ∀ m : Nat, m * 10 ^ 9 ≤ 2 ^ 63 - 1 → ∀ (l : Location) (k : Nat),
      getVal k l .duration (FormatUint m ++ "s") = .ok ((m : Int) * 10 ^ 9) := by
    intro m hm l k
    obtain ⟨L, hL, hne, hd, hv⟩ := FormatUint_spec m
    have htext : FormatUint m ++ "s" = String.mk (L ++ ['s']) := by
      rw [hL]
      rfl
    have hp := ParseDuration_seconds L hne hd (by rw [hv]; exact hm)
    rw [hv] at hp
    rw [htext]
    have hs := mk_ne_empty (L ++ ['s']) (by simp)
    simp only [getVal, hs, if_false, hp]
    simp only [assertT, ne_eq, not_true_eq_false, if_false, dite_true]
    push_cast
    rfl
  refine ⟨?_, ?_⟩
  · unfold Get
    rw [Getenv_of_some env key _ hk]
    exact main n hn _ _
  · unfold Get
    have := main 10 (by norm_num) (P.getLocal testEnvs) P.IntSize
    exact this

/-- Witness of C12: `"9223372036s"`, the largest whole number of seconds that fits, is
read as `9223372036 * 10^9` nanoseconds. -/
theorem C12_duration_seconds_witness :
    Get linux64 (fun _ => some "9223372036s") .duration "K" = .ok (9223372036 * 10 ^ 9 : Int)
      ∧ Get linux64 testEnvs .duration "DURATION" = .ok (10 * 10 ^ 9 : Int) :=
  C12_duration_seconds linux64 (fun _ => some "9223372036s") "K" 9223372036 (by norm_num)
    (by decide)

/-! ## Claim about what the results depend on -/

theorem getVal_loc_irrelevant (n : Nat) (l1 l2 : Location) (T : EnvType) (val : String)
    (hT : T ≠ .time) : getVal n l1 T val = getVal n l2 T val := by
  cases T <;> first
    | exact absurd rfl hT
    | rfl

/-- Counterexample to C16 as stated: two environments that hold the same text at `TIME`
and differ only in `TZ` give two different timestamps, seven hours apart. -/
theorem C16_counterexample :
    envPlain "TIME" = envDenver "TIME"
      ∧ Get tzPlatform envPlain .time "TIME"
          = .ok (Time.mk (1717099574 + unixToInternal) 0 (.fixed "MST" 0))
      ∧ Get tzPlatform envDenver .time "TIME"
          = .ok (Time.mk (1717099574 + 25200 + unixToInternal) 0 .local)
      ∧ Get tzPlatform envPlain .time "TIME" ≠ Get tzPlatform envDenver .time "TIME"
      ∧ GetWithDefault tzPlatform envPlain .time "TIME" (zero .time)
          ≠ GetWithDefault tzPlatform envDenver .time "TIME" (zero .time) := by
  decide

/-- C16 (amended): for every type other than `time.Time`, the results of `Get[T](key)`
and `GetWithDefault[T](key, d)` are a function of the value of the environment at `key`
alone.  For `time.Time` they are a function of the value at `key` and of the local time
zone in force (`time.Local`, which a process loads at first use from the value `TZ` has
then, unless the program has assigned it): two runs on one kind of machine whose
environments agree at `key` return equal results when the local time zone in force is
the same in both. -/
theorem C16_depends_on_key_and_local_zone (P1 P2 : Platform) (env1 env2 : Env)
    (T : EnvType) (key : String) (d : T.Val) (hP : P1.is64 = P2.is64)
    (hk : env1 key = env2 key)
    (hT : T ≠ .time ∨ P1.getLocal env1 = P2.getLocal env2) :
    Get P1 env1 T key = Get P2 env2 T key
      ∧ GetWithDefault P1 env1 T key d = GetWithDefault P2 env2 T key d := by
  have hg : Getenv env1 key = Getenv env2 key := by
    unfold Getenv
    rw [hk]
  have hn : P1.IntSize = P2.IntSize := by
    unfold Platform.IntSize
    rw [hP]
  have hv : getVal P1.IntSize (P1.getLocal env1) T (Getenv env2 key)
      = getVal P2.IntSize (P2.getLocal env2) T (Getenv env2 key) := by
    rw [hn]
    rcases hT with hT | hT
    · exact getVal_loc_irrelevant _ _ _ T _ hT
    · rw [hT]
  refine ⟨?_, ?_⟩
  · unfold Get
    rw [hg]
    exact hv
  · unfold GetWithDefault
    rw [hg]
    by_cases h : Getenv env2 key = ""
    · simp only [h, if_true]
    · simp only [h, if_false]
      exact hv

/-- Witness of C16 (amended), at `time.Time`.  Two fresh processes started with
`TZ=America/Denver`, one of them with a further variable, read the same timestamp; and
in a process that has loaded its local time zone before `TZ` is set, setting `TZ` does
not change the result. -/
theorem C16_depends_on_key_and_local_zone_witness :
    (Get tzPlatform envDenver .time "TIME" = Get tzPlatform envDenverHome .time "TIME"
      ∧ GetWithDefault tzPlatform envDenver .time "TIME" (zero .time)
          = GetWithDefault tzPlatform envDenverHome .time "TIME" (zero .time))
    ∧ (Get tzLoaded envPlain .time "TIME" = Get tzLoaded envDenver .time "TIME"
      ∧ GetWithDefault tzLoaded envPlain .time "TIME" (zero .time)
          = GetWithDefault tzLoaded envDenver .time "TIME" (zero .time)) :=
  ⟨C16_depends_on_key_and_local_zone tzPlatform tzPlatform envDenver envDenverHome .time
      "TIME" (zero .time) rfl (by decide) (Or.inr rfl),
   C16_depends_on_key_and_local_zone tzLoaded tzLoaded envPlain envDenver .time
      "TIME" (zero .time) rfl (by decide) (Or.inr rfl)⟩

/-! ## Timestamps rendered in the layout -/

theorem digitChar_toNat' (d : Nat) : (digitChar d).toNat = d % 10 + 48 := by
  unfold digitChar
  exact digitChar_toNat (d % 10) (Nat.mod_lt _ (by norm_num))

theorem digitChar_digit (d : Nat) : isDigit (digitChar d) = true := by
  unfold digitChar
  exact digitChar_isDigit (d % 10) (Nat.mod_lt _ (by norm_num))

theorem digitChar_ne_space (d : Nat) : digitChar d ≠ ' ' := by
  intro h
  have := digitChar_toNat' d
  rw [h] at this
  have h2 : (' ' : Char).toNat = 32 := rfl
  omega

theorem lookup_shortDay (i : Nat) (hi : i < 7) (rest : List Char) :
    lookup shortDayNames ((shortDayNames.getD i "").data ++ rest) 0 = some (i, rest) := by
  interval_cases i <;> simp [lookup, shortDayNames, matchFold, lower, String.length]

theorem lookup_shortMonth (i : Nat) (hi : i < 12) (rest : List Char) :
    lookup shortMonthNames ((shortMonthNames.getD i "").data ++ rest) 0 = some (i, rest) := by
  interval_cases i <;> simp [lookup, shortMonthNames, matchFold, lower, String.length]

theorem cutspace_of_ne (c : Char) (rest : List Char) (h : c ≠ ' ') :
    cutspace (c :: rest) = c :: rest := by
  simp [cutspace, h]

theorem skip_comma_space (c : Char) (rest : List Char) (h : c ≠ ' ') :
    skip 3 (',' :: ' ' :: c :: rest) [',', ' '] = some (c :: rest) := by
  simp [skip, cutspace, h]

theorem skip_space (c : Char) (rest : List Char) (h : c ≠ ' ') :
    skip 2 (' ' :: c :: rest) [' '] = some (c :: rest) := by
  simp [skip, cutspace, h]

theorem skip_space_month (i : Nat) (hi : i < 12) (rest : List Char) :
    skip 2 (' ' :: ((shortMonthNames.getD i "").data ++ rest)) [' ']
      = some ((shortMonthNames.getD i "").data ++ rest) := by
  interval_cases i <;> simp [skip, cutspace, shortMonthNames]

theorem skip_space_year (y : Nat) (rest : List Char) :
    skip 2 (' ' :: (fourDigits y ++ rest)) [' '] = some (fourDigits y ++ rest) := by
  simp only [fourDigits, List.cons_append, List.nil_append]
  exact skip_space _ _ (digitChar_ne_space _)

theorem skip_colon (rest : List Char) : skip 2 (':' :: rest) [':'] = some rest := by
  simp [skip]

theorem getnum_twoDigits (a b : Nat) (rest : List Char) (isFixed : Bool) :
    getnum (digitChar a :: digitChar b :: rest) isFixed
      = some (((a % 10 * 10 + b % 10 : Nat) : Int), rest) := by
  have ha := digitChar_toNat' a
  have hb := digitChar_toNat' b
  have hz : '0'.toNat = 48 := rfl
  simp only [getnum, digitChar_digit, not_true_eq_false, if_false, ha, hb, hz]
  congr 2
  push_cast
  omega

theorem leadingInt_four (a b c d : Nat) :
    leadingInt [digitChar a, digitChar b, digitChar c, digitChar d]
      = some (a % 10 * 1000 + b % 10 * 100 + c % 10 * 10 + d % 10, []) := by
  have h := leadingIntLoop_digits [digitChar a, digitChar b, digitChar c, digitChar d] [] 0
    (by
      intro x hx
      simp only [List.mem_cons, List.mem_singleton, List.mem_nil_iff, or_false] at hx
      rcases hx with rfl | rfl | rfl | rfl <;> exact digitChar_digit _)
    (by simp)
    (by
      simp only [List.foldl_cons, List.foldl_nil, stepD_eq, digitChar_toNat']
      have : (2 : Nat) ^ 63 / 10 = 922337203685477580 := by norm_num
      rw [this]
      omega)
  simp only [List.append_nil] at h
  unfold leadingInt
  rw [h]
  simp only [List.foldl_cons, List.foldl_nil, stepD_eq, digitChar_toNat']
  congr 2
  omega

theorem parseLongYear_four (y : Nat) (hy : y ≤ 9999) (rest : List Char) :
    parseLongYear (fourDigits y ++ rest) = some ((y : Int), rest) := by
  have hli := leadingInt_four (y / 1000) (y / 100) (y / 10) y
  have hval : y / 1000 % 10 * 1000 + y / 100 % 10 * 100 + y / 10 % 10 * 10 + y % 10 = y := by
    omega
  rw [hval] at hli
  have hc := digitChar_digit (y / 1000)
  have hns := not_sign_of_isDigit _ hc
  have hnm : digitChar (y / 1000) ≠ '-' := fun h => hns (Or.inr h)
  have hnp : digitChar (y / 1000) ≠ '+' := fun h => hns (Or.inl h)
  have hw : wrapS 64 (y : Int) = y := wrapS64_natCast y (by norm_num; omega)
  simp only [parseLongYear, fourDigits, List.cons_append, List.nil_append, List.length_cons,
    List.head?_cons, Option.map_some', Option.getD_some, hc, List.take, List.drop, atoi, hnm,
    hnp, or_self, if_false, decide_False, hli, List.length_nil, hw]
  simp

theorem parseSeconds_twoDigits (n : Nat) (hn : n < 60) (rest : List Char) :
    parseSeconds (twoDigits n ++ (' ' :: rest)) = some ((n : Int), 0, ' ' :: rest) := by
  have hg := getnum_twoDigits (n / 10) n (' ' :: rest) true
  have hv : n / 10 % 10 * 10 + n % 10 = n := by omega
  rw [hv] at hg
  have h1 : ¬ ((n : Int) < 0 ∨ 60 ≤ (n : Int)) := by omega
  simp only [parseSeconds, twoDigits, List.cons_append, List.nil_append, hg, h1, if_false]
  cases rest with
  | nil => rfl
  | cons r rs =>
    have e : ¬ (((' ' : Char) = '.' ∨ (' ' : Char) = ',') ∧ isDigit r = true) := by
      intro h
      rcases h.1 with h | h <;> exact absurd h (by decide)
    simp only [e, if_false]

theorem parseTZ_GMT : parseTZ ['G', 'M', 'T'] = some (false, ['G', 'M', 'T'], []) := by
  decide

/-- What `time.Parse` with the layout RFC1123 returns on the rendering of a date and time
of day in zone `GMT`, whatever day of the week the text names: the instant of that date
and time in UTC, moved by the offset that the local location gives to `GMT`, if any. -/
theorem ParseRFC1123_render (l : Location) (wd year month day hour min sec : Nat)
    (hwd : wd < 7) (hv : validCivil year month day hour min sec) :
    ParseRFC1123 l (String.mk (renderRFC1123 wd year month day hour min sec))
      = (match l.lookupName "GMT"
            (dateUTC year month day hour min sec - unixToInternal) with
         | some offset =>
           ({ sec := dateUTC year month day hour min sec - offset, nsec := 0, loc := .local },
            none)
         | none =>
           ({ sec := dateUTC year month day hour min sec, nsec := 0, loc := .fixed "GMT" 0 },
            none)) := by
  obtain ⟨hy, hm1, hm2, hd1, hd2, hh, hmi, hs⟩ := hv
  have hmon : month - 1 < 12 := by omega
  have hday := getnum_twoDigits (day / 10) day
  have hdayv : day / 10 % 10 * 10 + day % 10 = day := by
    have : (day : Int) ≤ 31 := by
      refine le_trans hd2 ?_
      unfold daysIn
      split_ifs
      · norm_num
      · interval_cases month <;> simp [daysBefore]
    omega
  have hhourv : hour / 10 % 10 * 10 + hour % 10 = hour := by omega
  have hminv : min / 10 % 10 * 10 + min % 10 = min := by omega
  have e1 : ", ".data = [',', ' '] := rfl
  have e2 : " ".data = [' '] := rfl
  have e3 : ":".data = [':'] := rfl
  have hyear := parseLongYear_four year hy
  have hsec := parseSeconds_twoDigits sec hs ['G', 'M', 'T']
  unfold ParseRFC1123 renderRFC1123
  simp only [List.append_assoc, List.cons_append, List.nil_append, e1, e2, e3]
  rw [lookup_shortDay wd hwd]
  simp only [twoDigits, List.cons_append, List.nil_append,
    skip_comma_space _ _ (digitChar_ne_space _), getnum_twoDigits, hdayv,
    skip_space_month _ hmon, lookup_shortMonth _ hmon]
  simp only [twoDigits, List.cons_append, List.nil_append] at hsec
  have hmm : month - 1 + 1 = month := by omega
  have hhour : ¬ ((hour : Int) < 0 ∨ 24 ≤ (hour : Int)) := by omega
  have hmin : ¬ ((min : Int) < 0 ∨ 60 ≤ (min : Int)) := by omega
  have hdayc : ¬ ((day : Int) < 1 ∨ (day : Int) > daysIn month year) := by omega
  have hG : ('G' : Char) ≠ ' ' := by decide
  simp only [skip_space_year, hyear, skip_space _ _ (digitChar_ne_space _), getnum_twoDigits,
    hhourv, hminv, hhour, hmin, if_false, skip_colon, hsec, skip_space _ _ hG, parseTZ_GMT,
    hmm, hdayc]
  have hname : String.mk ['G', 'M', 'T'] = "GMT" := rfl
  have hlen : ¬ (['G', 'M', 'T'].length > 3 ∧ List.take 3 ['G', 'M', 'T'] = ['G', 'M', 'T']) := by
    decide
  simp only [List.length_nil, ne_eq, not_true_eq_false, if_false, Bool.false_eq_true, hname,
    hlen, Int.toNat_zero, reduceCtorEq, not_false_eq_true, if_true]

/-! ## Rounding of exactly representable numbers -/

theorem bitLenAux_spec (fuel n acc : Nat) (h : n ≤ fuel) :
    ∃ k, bitLenAux fuel n acc = acc + k ∧ (n = 0 → k = 0)
      ∧ (0 < n → 1 ≤ k ∧ 2 ^ (k - 1) ≤ n ∧ n < 2 ^ k) := by
  induction fuel generalizing n acc with
  | zero =>
    have : n = 0 := by omega
    subst this
    exact ⟨0, rfl, fun _ => rfl, fun h => absurd h (by omega)⟩
  | succ fuel ih =>
    unfold bitLenAux
    by_cases hn : n = 0
    · subst hn
      exact ⟨0, by simp, fun _ => rfl, fun h => absurd h (by omega)⟩
    · rw [if_neg hn]
      obtain ⟨k, hk, hk0, hkpos⟩ := ih (n / 2) (acc + 1) (by omega)
      refine ⟨k + 1, by rw [hk]; omega, fun h => absurd h hn, ?_⟩
      intro _
      by_cases h2 : n / 2 = 0
      · have hk' := hk0 h2
        subst hk'
        have : n = 1 := by omega
        subst this
        simp
      · obtain ⟨hk1, hlo, hhi⟩ := hkpos (by omega)
        have e1 : 2 ^ (k + 1 - 1) = 2 * 2 ^ (k - 1) := by
          have : k + 1 - 1 = (k - 1) + 1 := by omega
          rw [this, pow_succ]
          ring
        have e2 : 2 ^ (k + 1) = 2 * 2 ^ k := by rw [pow_succ]; ring
        rw [e1, e2]
        refine ⟨by omega, by omega, by omega⟩

theorem bitLen_spec (n : Nat) (h : 0 < n) :
    1 ≤ bitLen n ∧ 2 ^ (bitLen n - 1) ≤ n ∧ n < 2 ^ bitLen n := by
  obtain ⟨k, hk, _, hpos⟩ := bitLenAux_spec n n 0 (le_refl _)
  unfold bitLen
  rw [hk, Nat.zero_add]
  exact hpos h

theorem bitLen_le_of_lt (n p : Nat) (h : n < 2 ^ p) : bitLen n ≤ p := by
  by_cases hn : n = 0
  · subst hn
    have : bitLen 0 = 0 := rfl
    omega
  · obtain ⟨_, hlo, _⟩ := bitLen_spec n (by omega)
    by_contra hc
    have : 2 ^ p ≤ 2 ^ (bitLen n - 1) := Nat.pow_le_pow_right (by norm_num) (by omega)
    omega

theorem stripZeros_spec (fuel m : Nat) (e : Int) (hm : m ≠ 0) (hlt : m < 2 ^ fuel) :
    (stripZeros fuel m e).1 % 2 = 1 ∧ e ≤ (stripZeros fuel m e).2
      ∧ (stripZeros fuel m e).1 * 2 ^ ((stripZeros fuel m e).2 - e).toNat = m := by
  induction fuel generalizing m e with
  | zero =>
    simp at hlt
    exact absurd hlt hm
  | succ fuel ih =>
    unfold stripZeros
    by_cases h2 : m % 2 = 0
    · have hc : m ≠ 0 ∧ m % 2 = 0 := ⟨hm, h2⟩
      simp only [hc, and_self, if_true, ne_eq, not_false_eq_true]
      have hp : 2 ^ (fuel + 1) = 2 * 2 ^ fuel := by rw [pow_succ]; ring
      obtain ⟨h1, hle, hv⟩ := ih (m / 2) (e + 1) (by omega) (by omega)
      refine ⟨h1, by omega, ?_⟩
      have hexp : ((stripZeros fuel (m / 2) (e + 1)).2 - e).toNat
          = ((stripZeros fuel (m / 2) (e + 1)).2 - (e + 1)).toNat + 1 := by omega
      rw [hexp, pow_succ, ← Nat.mul_assoc, hv]
      omega
    · have hc : ¬ (m ≠ 0 ∧ m % 2 = 0) := fun h => h2 h.2
      simp only [hc, if_false]
      refine ⟨by omega, le_refl _, ?_⟩
      simp

theorem floorLog2Ratio_one (a : Nat) (ha : 0 < a) :
    floorLog2Ratio a 1 = (bitLen a : Int) - 1 := by
  obtain ⟨h1, hlo, _⟩ := bitLen_spec a ha
  have hb1 : bitLen 1 = 1 := rfl
  unfold floorLog2Ratio
  rw [hb1]
  have e1 : ((bitLen a : Int) - ((1 : Nat) : Int)).toNat = bitLen a - 1 := by omega
  have e2 : (-((bitLen a : Int) - ((1 : Nat) : Int))).toNat = 0 := by omega
  simp only [e1, e2, pow_zero, Nat.mul_one, Nat.one_mul, hlo, if_true]
  rfl

/-- For an exactly representable `a`, the division inside `roundFloat` is exact: with
`k = p - b` and `j = b - p` (`b` the bit length of `a`, `p` the precision),
`a * 2^k` is a multiple of `2^j`. -/
theorem exact_quotient (a M E p : Nat) (ha : 0 < a) (hrep : a = M * 2 ^ E) (hM : M < 2 ^ p) :
    ∃ q, a * 2 ^ (p - bitLen a) = q * 2 ^ (bitLen a - p) ∧ 0 < q ∧ q < 2 ^ p := by
  obtain ⟨h1, hlo, hhi⟩ := bitLen_spec a ha
  by_cases hb : bitLen a ≤ p
  · have hj : bitLen a - p = 0 := by omega
    refine ⟨a * 2 ^ (p - bitLen a), by rw [hj]; simp, Nat.mul_pos ha (Nat.pow_pos (by norm_num)),
      ?_⟩
    calc a * 2 ^ (p - bitLen a) < 2 ^ bitLen a * 2 ^ (p - bitLen a) :=
          Nat.mul_lt_mul_of_pos_right hhi (Nat.pow_pos (by norm_num))
      _ = 2 ^ p := by rw [← pow_add]; congr 1; omega
  · have hk : p - bitLen a = 0 := by omega
    have hE : bitLen a - p ≤ E := by
      by_contra hc
      have h3 : E + p ≤ bitLen a - 1 := by omega
      have h4 : M * 2 ^ E < 2 ^ p * 2 ^ E :=
        Nat.mul_lt_mul_of_pos_right hM (Nat.pow_pos (by norm_num))
      have h5 : 2 ^ p * 2 ^ E = 2 ^ (E + p) := by rw [← pow_add]; congr 1; omega
      have h6 : 2 ^ (E + p) ≤ 2 ^ (bitLen a - 1) := Nat.pow_le_pow_right (by norm_num) h3
      omega
    have hsplit : 2 ^ E = 2 ^ (E - (bitLen a - p)) * 2 ^ (bitLen a - p) := by
      rw [← pow_add]
      congr 1
      omega
    refine ⟨M * 2 ^ (E - (bitLen a - p)), ?_, ?_, ?_⟩
    · rw [hk, pow_zero, Nat.mul_one, Nat.mul_assoc, ← hsplit]
      exact hrep
    · have hMpos : 0 < M := by
        rcases Nat.eq_zero_or_pos M with h0 | h0
        · subst h0
          simp at hrep
          omega
        · exact h0
      exact Nat.mul_pos hMpos (Nat.pow_pos (by norm_num))
    · have hq : M * 2 ^ (E - (bitLen a - p)) * 2 ^ (bitLen a - p) = a := by
        rw [Nat.mul_assoc, ← hsplit]
        exact hrep.symm
      by_contra hc
      have h7 : 2 ^ p * 2 ^ (bitLen a - p) ≤ M * 2 ^ (E - (bitLen a - p)) * 2 ^ (bitLen a - p) :=
        Nat.mul_le_mul_right _ (by omega)
      have h8 : 2 ^ p * 2 ^ (bitLen a - p) = 2 ^ bitLen a := by
        rw [← pow_add]
        congr 1
        omega
      omega

theorem odd_scaled (a m t k : Nat) (hodd : m % 2 = 1) (h : m * 2 ^ t = a * 2 ^ k) :
    k ≤ t ∧ m * 2 ^ (t - k) = a := by
  rcases Nat.lt_or_ge t k with hlt | hge
  · exfalso
    have hk : k = (k - t - 1) + 1 + t := by omega
    rw [hk, pow_add, pow_succ, ← Nat.mul_assoc] at h
    have h2 := Nat.eq_of_mul_eq_mul_right (Nat.pow_pos (by norm_num)) h
    rw [← Nat.mul_assoc] at h2
    omega
  · refine ⟨hge, ?_⟩
    have ht : t = (t - k) + k := by omega
    rw [ht, pow_add, ← Nat.mul_assoc] at h
    have h2 := Nat.eq_of_mul_eq_mul_right (Nat.pow_pos (by norm_num)) h
    exact h2

theorem roundFloat_exact (info : FloatInfo) (a : Nat) (ha : 0 < a)
    (hbias : info.bias + 1 ≤ 0)
    (hrange : (bitLen a : Int)
      ≤ ((info.mantbits + 1 : Nat) : Int) + ((2 : Int) ^ info.expbits - 2 + info.bias - info.mantbits))
    (hrep : ∃ M E : Nat, a = M * 2 ^ E ∧ M < 2 ^ (info.mantbits + 1)) :
    ∃ (m : Nat) (e : Int), roundFloat info false a 1 = (.finite false m e, false) ∧ 0 ≤ e
      ∧ m * 2 ^ e.toNat = a := by
  obtain ⟨M, E, hME, hM⟩ := hrep
  obtain ⟨q, hq, hqpos, hqlt⟩ := exact_quotient a M E (info.mantbits + 1) ha hME hM
  obtain ⟨hb1, hlo, hhi⟩ := bitLen_spec a ha
  have hmax : max ((bitLen a : Int) - 1 - info.mantbits) (info.bias + 1 - info.mantbits)
      = (bitLen a : Int) - 1 - info.mantbits := max_eq_left (by omega)
  have hk : (-((bitLen a : Int) - 1 - info.mantbits)).toNat = info.mantbits + 1 - bitLen a := by
    omega
  have hj : ((bitLen a : Int) - 1 - info.mantbits).toNat = bitLen a - (info.mantbits + 1) := by
    omega
  have hdpos : 0 < 2 ^ (bitLen a - (info.mantbits + 1)) := Nat.pow_pos (by norm_num)
  have hdiv : a * 2 ^ (info.mantbits + 1 - bitLen a) / (1 * 2 ^ (bitLen a - (info.mantbits + 1))) = q := by
    rw [hq, Nat.one_mul]
    exact Nat.mul_div_cancel _ hdpos
  have hmod : a * 2 ^ (info.mantbits + 1 - bitLen a) % (1 * 2 ^ (bitLen a - (info.mantbits + 1))) = 0 := by
    rw [hq, Nat.one_mul]
    exact Nat.mul_mod_left _ _
  have hcond : ¬ (2 * 0 > 1 * 2 ^ (bitLen a - (info.mantbits + 1))
      ∨ (2 * 0 = 1 * 2 ^ (bitLen a - (info.mantbits + 1)) ∧ q % 2 = 1)) := by
    omega
  have hovf : ¬ ((bitLen q : Int) + ((bitLen a : Int) - 1 - info.mantbits)
      > ((info.mantbits + 1 : Nat) : Int)
        + ((2 : Int) ^ info.expbits - 2 + info.bias - info.mantbits)) := by
    have := bitLen_le_of_lt q _ hqlt
    push_cast at hrange ⊢
    omega
  obtain ⟨hodd, hle, hval⟩ := stripZeros_spec (info.mantbits + 1) q
    ((bitLen a : Int) - 1 - info.mantbits) (by omega) hqlt
  have hne0 : (stripZeros (info.mantbits + 1) q ((bitLen a : Int) - 1 - info.mantbits)).1 ≠ 0 := by
    omega
  have hscaled : (stripZeros (info.mantbits + 1) q ((bitLen a : Int) - 1 - info.mantbits)).1
      * 2 ^ (((stripZeros (info.mantbits + 1) q ((bitLen a : Int) - 1 - info.mantbits)).2
          - ((bitLen a : Int) - 1 - info.mantbits)).toNat + (bitLen a - (info.mantbits + 1)))
      = a * 2 ^ (info.mantbits + 1 - bitLen a) := by
    rw [pow_add, ← Nat.mul_assoc, hval, hq]
  obtain ⟨hm1, hm2⟩ := odd_scaled _ _ _ _ hodd hscaled
  refine ⟨(stripZeros (info.mantbits + 1) q ((bitLen a : Int) - 1 - info.mantbits)).1,
    (stripZeros (info.mantbits + 1) q ((bitLen a : Int) - 1 - info.mantbits)).2, ?_, ?_, ?_⟩
  · unfold roundFloat
    have h0 : ¬ (a = 0 ∨ 1 = 0) := by omega
    simp only [h0, if_false, floorLog2Ratio_one a ha, hmax, hk, hj, hdiv, hmod, hcond, hovf,
      hne0]
  · omega
  · refine Eq.trans ?_ hm2
    congr 2
    omega

theorem roundFloat_nat (info : FloatInfo) (a : Nat)
    (hinfo : info = float32info ∨ info = float64info) (hrep : exactlyRepresentable info a) :
    ∃ f, roundFloat info false a 1 = (f, false) ∧ GoFloat.natValue f = some a := by
  rcases Nat.eq_zero_or_pos a with h0 | hpos
  · subst h0
    exact ⟨.finite false 0 0, by simp [roundFloat], by simp [GoFloat.natValue]⟩
  · obtain ⟨M, E, hME, hM, hlt⟩ := hrep
    have hb := bitLen_le_of_lt a _ hlt
    have hbias : info.bias + 1 ≤ 0 := by
      rcases hinfo with h | h <;> subst h <;> decide
    have hrange : (bitLen a : Int) ≤ ((info.mantbits + 1 : Nat) : Int)
        + ((2 : Int) ^ info.expbits - 2 + info.bias - info.mantbits) := by
      rcases hinfo with h | h <;> subst h <;> simp only [float32info, float64info] at hb ⊢
        <;> norm_num at hb ⊢ <;> omega
    obtain ⟨m, e, h1, h2, h3⟩ := roundFloat_exact info a hpos hbias hrange ⟨M, E, hME, hM⟩
    exact ⟨.finite false m e, h1, by simp [GoFloat.natValue, h2, h3]⟩

/-- The conversion `float32(x)` keeps a datum that holds a number exactly representable
in `float32`. -/
theorem toFloat32_nat (f : GoFloat) (a : Nat) (hf : GoFloat.natValue f = some a)
    (hrep : exactlyRepresentable float32info a) :
    GoFloat.natValue (toFloat32 f) = some a := by
  obtain ⟨g, hg1, hg2⟩ := roundFloat_nat float32info a (Or.inl rfl) hrep
  cases f with
  | nan => simp [GoFloat.natValue] at hf
  | inf s => simp [GoFloat.natValue] at hf
  | finite neg m e =>
    cases neg with
    | true => simp [GoFloat.natValue] at hf
    | false =>
      simp only [GoFloat.natValue] at hf
      by_cases he : 0 ≤ e
      · simp only [he, if_true, Option.some.injEq] at hf
        have hz : (-e).toNat = 0 := by omega
        simp only [toFloat32, hz, pow_zero, hf, hg1, hg2]
      · simp [he] at hf

/-! ## `strconv.readFloat` on a run of decimal digits -/

theorem digit_facts (d : Char) (hd : isDigit d = true) :
    d ≠ '_' ∧ d ≠ '.' ∧ d ≠ '+' ∧ d ≠ '-' ∧ d ≠ 'i' ∧ d ≠ 'I' ∧ d ≠ 'n' ∧ d ≠ 'N' ∧ d ≠ '('
      ∧ lower d ≠ 'x'.toNat := by
  rw [isDigit_iff] at hd
  have hne : ∀ k : Char, (k.toNat < 48 ∨ 57 < k.toNat) → d ≠ k := by
    intro k hk h
    subst h
    omega
  refine ⟨hne _ (by decide), hne _ (by decide), hne _ (by decide), hne _ (by decide),
    hne _ (by decide), hne _ (by decide), hne _ (by decide), hne _ (by decide),
    hne _ (by decide), ?_⟩
  have h : ∀ n : Nat, 48 ≤ n → n ≤ 57 → n ||| 32 ≠ 120 := by
    intro n h1 h2
    interval_cases n <;> decide
  exact h _ hd.1 hd.2

theorem readMantissa_digits (L : List Char) (hL : ∀ d ∈ L, isDigit d = true) (c : Char)
    (r : List Char) (hc : c = '+' ∨ c = 'i') (st : MantState)
    (hinv : st.nd = 0 → st.mantissa = 0) :
    ∃ st', readMantissa false (L ++ c :: r) st = (st', c :: r)
      ∧ st'.mantissa = L.foldl stepD st.mantissa ∧ st'.sawdot = st.sawdot
      ∧ st'.underscores = st.underscores
      ∧ (L ≠ [] ∨ st.sawdigits = true → st'.sawdigits = true) := by
  induction L generalizing st with
  | nil =>
    refine ⟨st, ?_, rfl, rfl, rfl, fun h => h.elim (fun h => absurd rfl h) id⟩
    rcases hc with h | h <;> subst h <;> rfl
  | cons d L ih =>
    have hd := hL d (List.mem_cons_self _ _)
    obtain ⟨h1, h2, -⟩ := digit_facts d hd
    rw [List.cons_append, readMantissa]
    simp only [h1, h2, if_false, hd, if_true]
    by_cases h0 : d = '0' ∧ st.nd = 0
    · obtain ⟨st', e1, e2, e3, e4, e5⟩ := ih (fun x hx => hL x (List.mem_cons_of_mem _ hx))
        { st with sawdigits := true, dp := st.dp - 1 } hinv
      rw [if_pos h0]
      refine ⟨st', e1, ?_, e3, e4, fun _ => e5 (Or.inr rfl)⟩
      rw [e2, List.foldl_cons, stepD_eq, h0.1]
      show List.foldl stepD st.mantissa L = _
      rw [hinv h0.2]
      rfl
    · rw [if_neg h0]
      obtain ⟨st', e1, e2, e3, e4, e5⟩ := ih (fun x hx => hL x (List.mem_cons_of_mem _ hx))
        { st with sawdigits := true, nd := st.nd + 1,
                  mantissa := st.mantissa * (if false = true then 16 else 10)
                    + (d.toNat - '0'.toNat) }
        (fun h => absurd h (Nat.succ_ne_zero _))
      refine ⟨st', e1, ?_, e3, e4, fun _ => e5 (Or.inr rfl)⟩
      rw [e2, List.foldl_cons]
      rfl

theorem readFloat_of_mantissa (d : Char) (t : List Char) (hd : isDigit d = true)
    (hx : ∀ c1 t', t = c1 :: t' → lower c1 ≠ 'x'.toNat)
    (st' : MantState) (c : Char) (r : List Char)
    (hrm : readMantissa false (d :: t)
      { mantissa := 0, sawdot := false, sawdigits := false, nd := 0, dp := 0,
        underscores := false } = (st', c :: r))
    (hsd : st'.sawdigits = true) (hdot : st'.sawdot = false)
    (hus : st'.underscores = false) (hc : lower c ≠ 'e'.toNat) :
    readFloat (d :: t)
      = some { mantissa := st'.mantissa, exp := 0, neg := false, hex := false, rest := c :: r } := by
  obtain ⟨-, -, h3, h4, -⟩ := digit_facts d hd
  have hc' : ¬ lower c = 101 := hc
  cases t with
  | nil =>
    simp only [readFloat, h3, h4, or_self, if_false]
    simp [hrm, hsd, hdot, hus, hc']
  | cons c1 t1 =>
    cases t1 with
    | nil =>
      simp only [readFloat, h3, h4, or_self, if_false]
      simp [hrm, hsd, hdot, hus, hc']
    | cons c2 t2 =>
      have hx1 : ¬ lower c1 = 120 := hx c1 (c2 :: t2) rfl
      simp only [readFloat, h3, h4, or_self, if_false]
      simp [hrm, hsd, hdot, hus, hc', hx1]

theorem readFloat_digits (L : List Char) (hne : L ≠ []) (hL : ∀ d ∈ L, isDigit d = true)
    (c : Char) (r : List Char) (hc : c = '+' ∨ c = 'i') :
    readFloat (L ++ c :: r)
      = some { mantissa := decVal L, exp := 0, neg := false, hex := false, rest := c :: r } := by
  cases L with
  | nil => exact absurd rfl hne
  | cons d ds =>
    have hd := hL d (List.mem_cons_self _ _)
    obtain ⟨st', e1, e2, e3, e4, e5⟩ := readMantissa_digits (d :: ds) hL c r hc
      { mantissa := 0, sawdot := false, sawdigits := false, nd := 0, dp := 0,
        underscores := false } (fun _ => rfl)
    have hx : ∀ c1 t', ds ++ c :: r = c1 :: t' → lower c1 ≠ 'x'.toNat := by
      intro c1 t' h
      cases ds with
      | nil =>
        simp only [List.nil_append, List.cons.injEq] at h
        rw [← h.1]
        rcases hc with h' | h' <;> subst h' <;> decide
      | cons d2 ds2 =>
        simp only [List.cons_append, List.cons.injEq] at h
        rw [← h.1]
        exact (digit_facts d2 (hL d2 (by simp))).2.2.2.2.2.2.2.2.2
    have hce : lower c ≠ 'e'.toNat := by
      rcases hc with h' | h' <;> subst h' <;> decide
    rw [List.cons_append] at e1 ⊢
    rw [readFloat_of_mantissa d (ds ++ c :: r) hd hx st' c r e1 (e5 (Or.inl (by simp))) e3 e4 hce,
      e2]
    rfl

theorem atof_digits (info : FloatInfo) (L : List Char) (hne : L ≠ [])
    (hL : ∀ d ∈ L, isDigit d = true) (c : Char) (r : List Char) (hc : c = '+' ∨ c = 'i') :
    atof info (L ++ c :: r)
      = ((roundFloat info false (decVal L) 1).1, L.length,
          if (roundFloat info false (decVal L) 1).2 then some .ErrRange else none) := by
  have hsp : special (L ++ c :: r) = none := by
    cases L with
    | nil => exact absurd rfl hne
    | cons d ds =>
      obtain ⟨-, -, h3, h4, h5, h6, h7, h8, -⟩ := digit_facts d (hL d (List.mem_cons_self _ _))
      simp [special, h3, h4, h5, h6, h7, h8]
  unfold atof
  rw [hsp, readFloat_digits L hne hL c r hc]
  simp

/-! ## `strconv.ParseComplex` on the text `a+bi` -/

theorem ParseComplex_digits (bitSize : Int) (info : FloatInfo)
    (hinfo : (bitSize = 64 ∧ info = float32info) ∨ (bitSize = 128 ∧ info = float64info))
    (La Lb : List Char) (hnea : La ≠ []) (hneb : Lb ≠ [])
    (hLa : ∀ d ∈ La, isDigit d = true) (hLb : ∀ d ∈ Lb, isDigit d = true)
    (fa fb : GoFloat) (ha : roundFloat info false (decVal La) 1 = (fa, false))
    (hb : roundFloat info false (decVal Lb) 1 = (fb, false)) :
    ParseComplex (String.mk (La ++ '+' :: (Lb ++ ['i']))) bitSize
      = ({ re := fa, im := fb }, none) := by
  have hpf : ∀ s, parseFloatPrefix s (if bitSize = 64 then 32 else 64) = atof info s := by
    intro s
    rcases hinfo with ⟨h1, h2⟩ | ⟨h1, h2⟩ <;> subst h1 <;> subst h2 <;> rfl
  have hra := atof_digits info La hnea hLa '+' (Lb ++ ['i']) (Or.inl rfl)
  have hrb := atof_digits info Lb hneb hLb 'i' [] (Or.inr rfl)
  rw [ha] at hra
  rw [hb] at hrb
  simp only [Bool.false_eq_true, if_false] at hra hrb
  obtain ⟨da, dsa, rfl⟩ := List.exists_cons_of_ne_nil hnea
  obtain ⟨db, dsb, rfl⟩ := List.exists_cons_of_ne_nil hneb
  have hpa : da ≠ '(' := (digit_facts da (hLa da (List.mem_cons_self _ _))).2.2.2.2.2.2.2.2.1
  have hpb : db ≠ '+' := (digit_facts db (hLb db (List.mem_cons_self _ _))).2.2.1
  have hdrop : List.drop (da :: dsa).length (da :: dsa ++ '+' :: (db :: dsb ++ ['i']))
      = '+' :: (db :: dsb ++ ['i']) := List.drop_left _ _
  have hdrop2 : List.drop (db :: dsb).length (db :: dsb ++ ['i']) = ['i'] := List.drop_left _ _
  have hhead : ¬ ((da :: dsa ++ '+' :: (db :: dsb ++ ['i'])).length ≥ 2
      ∧ (da :: dsa ++ '+' :: (db :: dsb ++ ['i'])).head? = some '('
      ∧ (da :: dsa ++ '+' :: (db :: dsb ++ ['i'])).getLast? = some ')') := by
    intro h
    simp only [List.cons_append, List.head?_cons, Option.some.injEq] at h
    exact hpa h.2.1
  unfold ParseComplex
  simp only [hhead, if_false, hpf, hra, hdrop]
  simp only [List.cons_append] at hrb hdrop2 ⊢
  simp [hpb, hpf, hrb, hdrop2]

theorem getVal_complex128_digits (n : Nat) (l : Location) (La Lb : List Char)
    (hnea : La ≠ []) (hneb : Lb ≠ [])
    (hLa : ∀ d ∈ La, isDigit d = true) (hLb : ∀ d ∈ Lb, isDigit d = true)
    (ha : exactlyRepresentable float64info (decVal La))
    (hb : exactlyRepresentable float64info (decVal Lb)) :
    ∃ z : GoComplex, getVal n l .complex128 (String.mk (La ++ '+' :: (Lb ++ ['i']))) = .ok z
      ∧ GoFloat.natValue z.re = some (decVal La)
      ∧ GoFloat.natValue z.im = some (decVal Lb) := by
  obtain ⟨fa, ha1, ha2⟩ := roundFloat_nat float64info _ (Or.inr rfl) ha
  obtain ⟨fb, hb1, hb2⟩ := roundFloat_nat float64info _ (Or.inr rfl) hb
  have hp := ParseComplex_digits 128 float64info (Or.inr ⟨rfl, rfl⟩) La Lb hnea hneb hLa hLb
    fa fb ha1 hb1
  have hs : String.mk (La ++ '+' :: (Lb ++ ['i'])) ≠ "" := mk_ne_empty _ (by simp)
  refine ⟨{ re := fa, im := fb }, ?_, ha2, hb2⟩
  simp only [getVal, hs, if_false, bit128, hp]
  exact assertT_same .complex128 _

theorem getVal_complex64_digits (n : Nat) (l : Location) (La Lb : List Char)
    (hnea : La ≠ []) (hneb : Lb ≠ [])
    (hLa : ∀ d ∈ La, isDigit d = true) (hLb : ∀ d ∈ Lb, isDigit d = true)
    (ha : exactlyRepresentable float32info (decVal La))
    (hb : exactlyRepresentable float32info (decVal Lb)) :
    ∃ z : GoComplex, getVal n l .complex64 (String.mk (La ++ '+' :: (Lb ++ ['i']))) = .ok z
      ∧ GoFloat.natValue z.re = some (decVal La)
      ∧ GoFloat.natValue z.im = some (decVal Lb) := by
  obtain ⟨fa, ha1, ha2⟩ := roundFloat_nat float32info _ (Or.inl rfl) ha
  obtain ⟨fb, hb1, hb2⟩ := roundFloat_nat float32info _ (Or.inl rfl) hb
  have hp := ParseComplex_digits 64 float32info (Or.inl ⟨rfl, rfl⟩) La Lb hnea hneb hLa hLb
    fa fb ha1 hb1
  have hs : String.mk (La ++ '+' :: (Lb ++ ['i'])) ≠ "" := mk_ne_empty _ (by simp)
  refine ⟨toComplex64 { re := fa, im := fb }, ?_, toFloat32_nat fa _ ha2 ha,
    toFloat32_nat fb _ hb2 hb⟩
  simp only [getVal, hs, if_false, bit64, hp]
  exact assertT_same .complex64 _

theorem complex_text (a b : Nat) (La Lb : List Char) (hLa : FormatUint a = String.mk La)
    (hLb : FormatUint b = String.mk Lb) :
    FormatUint a ++ "+" ++ FormatUint b ++ "i" = String.mk (La ++ '+' :: (Lb ++ ['i'])) := by
  rw [hLa, hLb]
  show String.mk (La ++ ['+'] ++ Lb ++ ['i']) = _
  simp

/-! ## Claim about complex numbers -/

/-- C15: for every pair of non-negative integers `a` and `b` that are exactly
representable in the format of the parts of the complex type `T` (`float64` for
`complex128`, `float32` for `complex64`), if the key holds the text `a+bi` (the decimal
digits of `a`, a plus sign, the decimal digits of `b`, the letter `i`), then `Get[T](key)`
returns a number whose real part is `a` and whose imaginary part is `b`. -/
theorem C15_complex_parts (P : Platform) (env : Env) (key : String) (T : EnvType)
    (info : FloatInfo) (a b : Nat) (hT : partFormat T = some info)
    (ha : exactlyRepresentable info a) (hb : exactlyRepresentable info b)
    (hk : env key = some (FormatUint a ++ "+" ++ FormatUint b ++ "i")) :
    ∃ (v : T.Val) (z : GoComplex), Get P env T key = .ok v ∧ T.toComplex v = some z
      ∧ GoFloat.natValue z.re = some a ∧ GoFloat.natValue z.im = some b := by
  obtain ⟨La, hLa, hnea, hda, hva⟩ := FormatUint_spec a
  obtain ⟨Lb, hLb, hneb, hdb, hvb⟩ := FormatUint_spec b
  have hg := Getenv_of_some env key _ hk
  rw [complex_text a b La Lb hLa hLb] at hg
  rw [← hva] at ha ⊢
  rw [← hvb] at hb ⊢
  unfold Get
  rw [hg]
  cases T with
  | complex64 =>
    simp only [partFormat, Option.some.injEq] at hT
    subst hT
    obtain ⟨z, h1, h2, h3⟩ := getVal_complex64_digits P.IntSize (P.getLocal env) La Lb
      hnea hneb hda hdb ha hb
    exact ⟨z, z, h1, rfl, h2, h3⟩
  | complex128 =>
    simp only [partFormat, Option.some.injEq] at hT
    subst hT
    obtain ⟨z, h1, h2, h3⟩ := getVal_complex128_digits P.IntSize (P.getLocal env) La Lb
      hnea hneb hda hdb ha hb
    exact ⟨z, z, h1, rfl, h2, h3⟩
  | _ => exact absurd hT (by simp [partFormat])

/-- Witness of C15: the test environment holds `COMPLEX="10+10i"`, and `10 = 5 * 2^1` is
exactly representable in both formats; both parts are read as `10` at both types. -/
theorem C15_complex_parts_witness :
    (∃ (v : GoComplex) (z : GoComplex), Get linux64 testEnvs .complex128 "COMPLEX" = .ok v
      ∧ EnvType.toComplex .complex128 v = some z
      ∧ GoFloat.natValue z.re = some 10 ∧ GoFloat.natValue z.im = some 10)
    ∧ (∃ (v : GoComplex) (z : GoComplex), Get linux64 testEnvs .complex64 "COMPLEX" = .ok v
      ∧ EnvType.toComplex .complex64 v = some z
      ∧ GoFloat.natValue z.re = some 10 ∧ GoFloat.natValue z.im = some 10) :=
  ⟨C15_complex_parts linux64 testEnvs "COMPLEX" .complex128 float64info 10 10 rfl
      ⟨5, 1, by decide, by decide, Nat.lt_of_lt_of_le (by decide : 10 < 2 ^ 4)
        (Nat.pow_le_pow_right (by decide) (by decide))⟩
      ⟨5, 1, by decide, by decide, Nat.lt_of_lt_of_le (by decide : 10 < 2 ^ 4)
        (Nat.pow_le_pow_right (by decide) (by decide))⟩ (by decide),
   C15_complex_parts linux64 testEnvs "COMPLEX" .complex64 float32info 10 10 rfl
      ⟨5, 1, by decide, by decide, by decide⟩
      ⟨5, 1, by decide, by decide, by decide⟩ (by decide)⟩

/-! ## Timestamps rendered by `Time.Format` -/

theorem eval_FormatRFC1123 :
    FormatRFC1123 "GMT" 0 (1717099574 + unixToInternal) = "Thu, 30 May 2024 20:06:14 GMT"
      ∧ FormatRFC1123 "GMT" 0 (0 + unixToInternal) = "Thu, 01 Jan 1970 00:00:00 GMT"
      ∧ FormatRFC1123 "GMT" 0 (1677628800 + unixToInternal) = "Wed, 01 Mar 2023 00:00:00 GMT"
      ∧ FormatRFC1123 "GMT" 0 (951868799 + unixToInternal) = "Tue, 29 Feb 2000 23:59:59 GMT"
      ∧ FormatRFC1123 "GMT" 0 (-2203891200 + unixToInternal) = "Thu, 01 Mar 1900 00:00:00 GMT"
      ∧ FormatRFC1123 "GMT" 0 (-62167219200 + unixToInternal) = "Sat, 01 Jan 0000 00:00:00 GMT"
      ∧ FormatRFC1123 "GMT" 0 (253402300799 + unixToInternal) = "Fri, 31 Dec 9999 23:59:59 GMT"
      ∧ FormatRFC1123 "" (-25200) (1717099574 + unixToInternal)
          = "Thu, 30 May 2024 13:06:14 -0700"
      ∧ FormatRFC1123 "GMT" 0 (253402300800 + unixToInternal)
          = "Sat, 01 Jan 10000 00:00:00 GMT" := by
  decide

set_option maxRecDepth 100000 in
theorem monthDay_spec : ∀ leap : Bool, ∀ yday < 366, yday < 365 + leap.toNat →
    1 ≤ (monthDay leap yday).1 ∧ (monthDay leap yday).1 ≤ 12
      ∧ 1 ≤ (monthDay leap yday).2
      ∧ ((monthDay leap yday).2 : Int)
          ≤ (if (monthDay leap yday).1 = 2 ∧ leap = true then 29
             else daysBefore (monthDay leap yday).1 - daysBefore ((monthDay leap yday).1 - 1))
      ∧ daysBefore ((monthDay leap yday).1 - 1)
          + (if leap = true ∧ (monthDay leap yday).1 ≥ 3 then 1 else 0)
          + (((monthDay leap yday).2 : Int) - 1) = yday := by
  decide

theorem isLeap_iff (year : Int) :
    isLeap year = true ↔ year % 4 = 0 ∧ (year % 100 ≠ 0 ∨ year % 400 = 0) := by
  simp [isLeap]

theorem cut400 (D n1 d1 : Nat) (e1 : n1 = D / 146097) (e2 : d1 = D - 146097 * n1) :
    D = 146097 * n1 + d1 ∧ d1 < 146097 := by
  omega

theorem cut100 (d1 n2 m2 d2 : Nat) (e3 : n2 = d1 / 36524) (e4 : m2 = n2 - n2 / 4)
    (e5 : d2 = d1 - 36524 * m2) (h : d1 < 146097) :
    d1 = 36524 * m2 + d2 ∧ m2 ≤ 3 ∧ d2 ≤ 36524 ∧ (m2 ≤ 2 → d2 < 36524) := by
  omega

theorem cut4 (d2 n3 d3 : Nat) (e6 : n3 = d2 / 1461) (e7 : d3 = d2 - 1461 * n3)
    (h : d2 ≤ 36524) :
    d2 = 1461 * n3 + d3 ∧ n3 ≤ 24 ∧ d3 < 1461 ∧ (d2 < 36524 → n3 = 24 → d3 < 1460) := by
  omega

theorem cut1 (d3 n4 m4 d4 : Nat) (e8 : n4 = d3 / 365) (e9 : m4 = n4 - n4 / 4)
    (e10 : d4 = d3 - 365 * m4) (h : d3 < 1461) :
    d3 = 365 * m4 + d4 ∧ m4 ≤ 3 ∧ d4 ≤ 365 ∧ (m4 ≤ 2 → d4 < 365)
      ∧ (d3 < 1460 → d4 < 365) := by
  omega

theorem yearDay_clean (D k m2 n3 m4 d4 : Nat) (y : Int)
    (hD : D = 146097 * (730692555 + k) + 36524 * m2 + 1461 * n3 + 365 * m4 + d4)
    (hm2 : m2 ≤ 3) (hn3 : n3 ≤ 24) (hm4 : m4 ≤ 3)
    (hy : y = 400 * (k : Int) + 100 * m2 + 4 * n3 + m4 - 399) :
    365 * (y - 1) + (y - 1) / 4 - (y - 1) / 100 + (y - 1) / 400 + (d4 : Int)
        = (D : Int) - 106751990353932
      ∧ (y % 4 = 0 ↔ m4 = 3) ∧ (y % 100 = 0 ↔ (n3 = 24 ∧ m4 = 3))
      ∧ (y % 400 = 0 ↔ (m2 = 3 ∧ n3 = 24 ∧ m4 = 3)) := by
  have q400 : (y - 1) / 400 = (k : Int) - 1 := by omega
  have q100 : (y - 1) / 100 = 4 * ((k : Int) - 1) + m2 := by omega
  have q4 : (y - 1) / 4 = 100 * ((k : Int) - 1) + 25 * m2 + n3 := by omega
  refine ⟨?_, by omega, by omega, by omega⟩
  rw [q400, q100, q4, hy, hD]
  push_cast
  ring

theorem yearDay_arith (D n1 d1 n2 m2 d2 n3 d3 n4 m4 d4 : Nat) (y : Int)
    (e1 : n1 = D / 146097) (e2 : d1 = D - 146097 * n1) (e3 : n2 = d1 / 36524)
    (e4 : m2 = n2 - n2 / 4) (e5 : d2 = d1 - 36524 * m2) (e6 : n3 = d2 / 1461)
    (e7 : d3 = d2 - 1461 * n3) (e8 : n4 = d3 / 365) (e9 : m4 = n4 - n4 / 4)
    (e10 : d4 = d3 - 365 * m4)
    (ey : y = ((400 * n1 + 100 * m2 + 4 * n3 + m4 : Nat) : Int) - 292277022399)
    (hD1 : 106751990353566 ≤ D) (hD2 : D ≤ 106751994005990) :
    0 ≤ y ∧ y ≤ 9999
      ∧ ((y % 4 = 0 ∧ (y % 100 ≠ 0 ∨ y % 400 = 0)) → d4 < 366)
      ∧ (¬ (y % 4 = 0 ∧ (y % 100 ≠ 0 ∨ y % 400 = 0)) → d4 < 365)
      ∧ 365 * (y - 1) + (y - 1) / 4 - (y - 1) / 100 + (y - 1) / 400 + (d4 : Int)
        = (D : Int) - 106751990353932 := by
  obtain ⟨a1, a2⟩ := cut400 D n1 d1 e1 e2
  obtain ⟨b1, b2, b3, b4⟩ := cut100 d1 n2 m2 d2 e3 e4 e5 a2
  obtain ⟨c1, c2, c3, c4⟩ := cut4 d2 n3 d3 e6 e7 b3
  obtain ⟨f1, f2, f3, f4, f5⟩ := cut1 d3 n4 m4 d4 e8 e9 e10 c3
  clear e1 e2 e3 e4 e5 e6 e7 e8 e9 e10
  have hn1 : 730692555 ≤ n1 ∧ n1 ≤ 730692581 := by omega
  obtain ⟨k, hk⟩ : ∃ k : Nat, n1 = 730692555 + k := ⟨n1 - 730692555, by omega⟩
  have hD : D = 146097 * (730692555 + k) + 36524 * m2 + 1461 * n3 + 365 * m4 + d4 := by
    omega
  have hy : y = 400 * (k : Int) + 100 * m2 + 4 * n3 + m4 - 399 := by
    rw [ey, hk]
    push_cast
    ring
  obtain ⟨g1, r4, r100, r400⟩ := yearDay_clean D k m2 n3 m4 d4 y hD b2 c2 f2 hy
  have hk26 : k ≤ 26 := by omega
  refine ⟨by omega, by omega, fun _ => by omega, ?_, g1⟩
  rw [r4, Ne, r100, r400]
  intro hn
  by_cases h3 : m4 = 3
  · have h24 : n3 = 24 := by
      by_contra h24
      exact hn ⟨h3, Or.inl (fun h => h24 h.1)⟩
    have hm2 : m2 ≤ 2 := by
      by_contra hm2
      exact hn ⟨h3, Or.inr ⟨by omega, h24, h3⟩⟩
    exact f5 (c4 (b4 hm2) h24)
  · exact f4 (by omega)

theorem absClock_spec (abs : Nat) :
    (absClock abs).1 < 24 ∧ (absClock abs).2.1 < 60 ∧ (absClock abs).2.2 < 60
      ∧ (absClock abs).1 * 3600 + (absClock abs).2.1 * 60 + (absClock abs).2.2
        = abs % 86400 := by
  simp only [absClock, secondsPerDay]
  omega

theorem absWeekday_lt (abs : Nat) : absWeekday abs < 7 := by
  simp only [absWeekday, secondsPerWeek, secondsPerDay]
  omega

theorem absYearDay_spec (abs : Nat) (h1 : 9223371966548102400 ≤ abs)
    (h2 : abs ≤ 9223372282117622399) :
    0 ≤ (absYearDay abs).1 ∧ (absYearDay abs).1 ≤ 9999
      ∧ (absYearDay abs).2 < 365 + (isLeap (absYearDay abs).1).toNat
      ∧ (absYearDay abs).2 < 366
      ∧ 365 * ((absYearDay abs).1 - 1) + ((absYearDay abs).1 - 1) / 4
          - ((absYearDay abs).1 - 1) / 100 + ((absYearDay abs).1 - 1) / 400
          + ((absYearDay abs).2 : Int)
        = ((abs / 86400 : Nat) : Int) - 106751990353932 := by
  have hD1 : 106751990353566 ≤ abs / 86400 := by omega
  have hD2 : abs / 86400 ≤ 106751994005990 := by omega
  obtain ⟨g1, g2, g3, g4, g5⟩ := yearDay_arith (abs / 86400) _ _ _ _ _ _ _ _ _
    (absYearDay abs).2 (absYearDay abs).1 rfl rfl rfl rfl rfl rfl rfl rfl rfl rfl rfl hD1 hD2
  refine ⟨g1, g2, ?_, ?_, g5⟩
  · cases hl : isLeap (absYearDay abs).1 with
    | true => exact g3 ((isLeap_iff _).1 hl)
    | false =>
      have hn : ¬ isLeap (absYearDay abs).1 = true := by simp [hl]
      exact g4 (fun h => hn ((isLeap_iff _).2 h))
  · by_cases h : (absYearDay abs).1 % 4 = 0
        ∧ ((absYearDay abs).1 % 100 ≠ 0 ∨ (absYearDay abs).1 % 400 = 0)
    · exact g3 h
    · exact Nat.lt_trans (g4 h) (by norm_num)

theorem wrapU_abs (s : Int) (h1 : -31622400 ≤ s) (h2 : s ≤ 315537897599) :
    wrapU 64 (s + 0 + internalToAbsolute) = (s + 9223371966579724800).toNat := by
  unfold wrapU internalToAbsolute
  rw [add_zero, Int.emod_eq_of_lt (by omega) (by norm_num; omega)]

theorem absDate_civil (s : Int) (h1 : -31622400 ≤ s) (h2 : s ≤ 315537897599) :
    ∃ year month day hour min sec : Nat,
      absDate (wrapU 64 (s + 0 + internalToAbsolute)) = ((year : Int), month, day)
        ∧ absClock (wrapU 64 (s + 0 + internalToAbsolute)) = (hour, min, sec)
        ∧ validCivil year month day hour min sec
        ∧ dateUTC year month day hour min sec = s := by
  rw [wrapU_abs s h1 h2]
  generalize hA : (s + 9223371966579724800).toNat = A
  have hA1 : 9223371966548102400 ≤ A := by omega
  have hA2 : A ≤ 9223372282117622399 := by omega
  have hs : s = (A : Int) - 9223371966579724800 := by omega
  obtain ⟨y1, y2, y3, y4, y5⟩ := absYearDay_spec A hA1 hA2
  obtain ⟨c1, c2, c3, c4⟩ := absClock_spec A
  obtain ⟨m1, m2, m3, m4, m5⟩ := monthDay_spec (isLeap (absYearDay A).1) (absYearDay A).2 y4 y3
  refine ⟨(absYearDay A).1.toNat, (monthDay (isLeap (absYearDay A).1) (absYearDay A).2).1,
    (monthDay (isLeap (absYearDay A).1) (absYearDay A).2).2,
    (absClock A).1, (absClock A).2.1, (absClock A).2.2, ?_, rfl, ?_, ?_⟩
  · unfold absDate
    rw [Int.toNat_of_nonneg y1]
  · refine ⟨by omega, m1, m2, m3, ?_, c1, c2, c3⟩
    rw [Int.toNat_of_nonneg y1]
    unfold daysIn
    exact m4
  · unfold dateUTC
    rw [Int.toNat_of_nonneg y1]
    have hdm := Nat.div_add_mod A 86400
    have e : (if isLeap (absYearDay A).1 = true
          ∧ (monthDay (isLeap (absYearDay A).1) (absYearDay A).2).1 ≥ 3 then (1 : Int) else 0)
        = (if isLeap (absYearDay A).1 = true
          ∧ (monthDay (isLeap (absYearDay A).1) (absYearDay A).2).1 ≥ 3 then 1 else 0) := rfl
    simp only
    omega
theorem formatDigits_succ (f u : Nat) (acc : List Char) :
    formatDigits (f + 1) u acc
      = if u ≥ 10 then formatDigits f (u / 10) (Char.ofNat (u % 10 + '0'.toNat) :: acc)
        else Char.ofNat (u + '0'.toNat) :: acc := rfl

theorem formatDigits_four (y : Nat) (hy : y ≤ 9999) :
    List.replicate (4 - (formatDigits (y + 1) y []).length) '0' ++ formatDigits (y + 1) y []
      = fourDigits y := by
  have hz : '0'.toNat = 48 := rfl
  have h0 : '0' = Char.ofNat 48 := rfl
  unfold fourDigits digitChar
  rw [hz]
  by_cases h1 : y < 10
  · rw [formatDigits_succ, if_neg (by omega), hz]
    have e1 : y / 1000 % 10 = 0 := by omega
    have e2 : y / 100 % 10 = 0 := by omega
    have e3 : y / 10 % 10 = 0 := by omega
    have e4 : y % 10 = y := by omega
    rw [e1, e2, e3, e4]
    rfl
  · by_cases h2 : y < 100
    · have hf : y + 1 = (y - 1) + 1 + 1 := by omega
      rw [hf, formatDigits_succ, if_pos (by omega), formatDigits_succ, if_neg (by omega), hz]
      have e1 : y / 1000 % 10 = 0 := by omega
      have e2 : y / 100 % 10 = 0 := by omega
      have e3 : y / 10 % 10 = y / 10 := by omega
      rw [e1, e2, e3]
      rfl
    · by_cases h3 : y < 1000
      · have hf : y + 1 = (y - 2) + 1 + 1 + 1 := by omega
        rw [hf, formatDigits_succ, if_pos (by omega), formatDigits_succ, if_pos (by omega),
          formatDigits_succ, if_neg (by omega), hz]
        have e1 : y / 1000 % 10 = 0 := by omega
        have e2 : y / 100 % 10 = y / 10 / 10 := by omega
        rw [e1, e2]
        rfl
      · have hf : y + 1 = (y - 3) + 1 + 1 + 1 + 1 := by omega
        rw [hf, formatDigits_succ, if_pos (by omega), formatDigits_succ, if_pos (by omega),
          formatDigits_succ, if_pos (by omega), formatDigits_succ, if_neg (by omega), hz]
        have e1 : y / 1000 % 10 = y / 10 / 10 / 10 := by omega
        have e2 : y / 100 % 10 = y / 10 / 10 % 10 := by omega
        rw [e1, e2]
        rfl

theorem appendInt_four (y : Nat) (hy : y ≤ 9999) : appendInt (y : Int) 4 = fourDigits y := by
  unfold appendInt
  have hneg : ¬ ((y : Int) < 0) := by omega
  simp only [Int.natAbs_ofNat, hneg, if_false, List.nil_append]
  exact formatDigits_four y hy

set_option maxRecDepth 1000000 in
theorem appendInt_two_all : ∀ n < 100, appendInt ((n : Nat) : Int) 2 = twoDigits n := by
  decide

theorem dayName_take : ∀ wd < 7,
    (longDayNames.getD wd "").data.take 3 = (shortDayNames.getD wd "").data := by
  decide

theorem monthName_take : ∀ m < 12,
    (longMonthNames.getD m "").data.take 3 = (shortMonthNames.getD m "").data := by
  decide

theorem FormatRFC1123_GMT (s : Int) :
    FormatRFC1123 "GMT" 0 s
      = String.mk (((longDayNames.getD
            (absWeekday (wrapU 64 (s + 0 + internalToAbsolute))) "").data.take 3)
          ++ [',', ' ']
          ++ appendInt (absDate (wrapU 64 (s + 0 + internalToAbsolute))).2.2 2 ++ [' ']
          ++ ((longMonthNames.getD
            ((absDate (wrapU 64 (s + 0 + internalToAbsolute))).2.1 - 1) "").data.take 3)
          ++ [' ']
          ++ appendInt (absDate (wrapU 64 (s + 0 + internalToAbsolute))).1 4 ++ [' ']
          ++ appendInt (absClock (wrapU 64 (s + 0 + internalToAbsolute))).1 2 ++ [':']
          ++ appendInt (absClock (wrapU 64 (s + 0 + internalToAbsolute))).2.1 2 ++ [':']
          ++ appendInt (absClock (wrapU 64 (s + 0 + internalToAbsolute))).2.2 2
          ++ [' '] ++ ['G', 'M', 'T']) := by
  unfold FormatRFC1123
  have hname : ("GMT" : String) ≠ "" := by decide
  simp only [hname, ne_eq, not_false_eq_true, if_true]

/-- The text that `Time.Format` gives for a time with a four-digit year in the zone `GMT`
is the rendering, field by field, of a valid date and time of day that `time.Date` maps
back to the same number of seconds. -/
theorem FormatRFC1123_render (s : Int) (h1 : -31622400 ≤ s) (h2 : s ≤ 315537897599) :
    ∃ wd year month day hour min sec : Nat,
      wd < 7 ∧ validCivil year month day hour min sec
        ∧ dateUTC year month day hour min sec = s
        ∧ FormatRFC1123 "GMT" 0 s
          = String.mk (renderRFC1123 wd year month day hour min sec) := by
  obtain ⟨year, month, day, hour, min, sec, hd, hc, hv, hs⟩ := absDate_civil s h1 h2
  refine ⟨absWeekday (wrapU 64 (s + 0 + internalToAbsolute)), year, month, day, hour, min,
    sec, absWeekday_lt _, hv, hs, ?_⟩
  obtain ⟨hy, hm1, hm2, hd1, hd2, hh, hmi, hse⟩ := hv
  have hday : day < 100 := by
    have : (day : Int) ≤ 31 := by
      refine le_trans hd2 ?_
      unfold daysIn
      split_ifs
      · norm_num
      · interval_cases month <;> simp [daysBefore]
    omega
  have e1 := dayName_take _ (absWeekday_lt (wrapU 64 (s + 0 + internalToAbsolute)))
  have e2 := monthName_take (month - 1) (by omega)
  have e3 := appendInt_two_all day hday
  have e4 := appendInt_two_all hour (by omega)
  have e5 := appendInt_two_all min (by omega)
  have e6 := appendInt_two_all sec (by omega)
  have e7 := appendInt_four year hy
  rw [FormatRFC1123_GMT, hd, hc]
  simp only [e1, e2, e3, e4, e5, e6, e7]
  simp only [renderRFC1123, List.append_assoc, List.cons_append, List.nil_append]

theorem getVal_time_rendered (n : Nat) (l : Location) (u : Int) (h1 : -62167219200 ≤ u)
    (h2 : u ≤ 253402300799) :
    ∃ t : Time, getVal n l .time (FormatRFC1123 "GMT" 0 (u + unixToInternal)) = .ok t
      ∧ t.sec = u + unixToInternal - ((l.lookupName "GMT" u).getD 0) ∧ t.nsec = 0 := by
  have hu : unixToInternal = 62135596800 := rfl
  obtain ⟨wd, year, month, day, hour, min, sec, hwd, hv, hs, hf⟩ :=
    FormatRFC1123_render (u + unixToInternal) (by omega) (by omega)
  have hp := ParseRFC1123_render l wd year month day hour min sec hwd hv
  have hne : FormatRFC1123 "GMT" 0 (u + unixToInternal) ≠ "" := by
    rw [hf]
    unfold renderRFC1123
    apply mk_ne_empty
    simp
  simp only [getVal, hne, if_false]
  rw [hf, hp, hs]
  have hsub : u + unixToInternal - unixToInternal = u := by omega
  rw [hsub]
  cases hl : l.lookupName "GMT" u with
  | none => exact ⟨_, rfl, by simp, rfl⟩
  | some offset => exact ⟨_, rfl, by simp, rfl⟩

/-! ## Claim about timestamps in the layout -/

/-- Counterexample to C13 as stated: the test text `"Thu, 30 May 2024 20:06:14 GMT"` is
the rendering of the instant 2024-05-30T20:06:14Z (1717099574 seconds after the Unix
epoch), but in a process whose local location gives `GMT` the offset of one hour
`Get[time.Time]` returns the instant one hour earlier. -/
theorem C13_counterexample :
    testEnvs "TIME" = some (FormatRFC1123 "GMT" 0 (1717099574 + unixToInternal))
      ∧ Get gmtPlusOne testEnvs .time "TIME"
          = .ok (Time.mk (1717099574 - 3600 + unixToInternal) 0 .local)
      ∧ Get gmtPlusOne testEnvs .time "TIME"
          ≠ .ok (Time.mk (1717099574 + unixToInternal) 0 .local)
      ∧ (1717099574 - 3600 + unixToInternal : Int) ≠ 1717099574 + unixToInternal := by
  decide

/-- C13 (amended): for every instant at whole-second precision with a four-digit year,
given by its number `u` of seconds since the Unix epoch (from 0000-01-01T00:00:00Z to
9999-12-31T23:59:59Z), if the key holds the text that `Time.Format` gives for it in the
layout RFC1123 with zone `GMT`, then `Get[time.Time](key)` is the instant `u` moved back
by the offset that the local location in force gives to the abbreviation `GMT`, with no
fraction of a second; it is the instant `u` itself when the local location does not know
`GMT` or gives it the offset zero.  The renderings named are those of the calendar:
1717099574 is `Thu, 30 May 2024 20:06:14 GMT`, and so on. -/
theorem C13_rfc1123_roundtrip (P : Platform) (env : Env) (key : String) (u : Int)
    (h1 : -62167219200 ≤ u) (h2 : u ≤ 253402300799)
    (hk : env key = some (FormatRFC1123 "GMT" 0 (u + unixToInternal))) :
    (∃ t : Time, Get P env .time key = .ok t
      ∧ t.sec = u + unixToInternal - (((P.getLocal env).lookupName "GMT" u).getD 0)
      ∧ t.nsec = 0)
    ∧ FormatRFC1123 "GMT" 0 (1717099574 + unixToInternal) = "Thu, 30 May 2024 20:06:14 GMT"
    ∧ FormatRFC1123 "GMT" 0 (0 + unixToInternal) = "Thu, 01 Jan 1970 00:00:00 GMT"
    ∧ FormatRFC1123 "GMT" 0 (1677628800 + unixToInternal) = "Wed, 01 Mar 2023 00:00:00 GMT"
    ∧ FormatRFC1123 "GMT" 0 (951868799 + unixToInternal) = "Tue, 29 Feb 2000 23:59:59 GMT"
    ∧ FormatRFC1123 "GMT" 0 (-2203891200 + unixToInternal) = "Thu, 01 Mar 1900 00:00:00 GMT"
    ∧ FormatRFC1123 "GMT" 0 (-62167219200 + unixToInternal)
        = "Sat, 01 Jan 0000 00:00:00 GMT"
    ∧ FormatRFC1123 "GMT" 0 (253402300799 + unixToInternal)
        = "Fri, 31 Dec 9999 23:59:59 GMT" := by
  refine ⟨?_, by decide, by decide, by decide, by decide, by decide, by decide, by decide⟩
  unfold Get
  rw [Getenv_of_some env key _ hk]
  exact getVal_time_rendered P.IntSize (P.getLocal env) u h1 h2

/-- Witness of C13 (amended): in a process run with `TZ=Europe/London`, whose local
location knows `GMT` with the offset zero, `TIME="Thu, 30 May 2024 20:06:14 GMT"` is read
as the instant 2024-05-30T20:06:14Z. -/
theorem C13_rfc1123_roundtrip_witness :
    Get londonLoaded testEnvs .time "TIME"
        = .ok (Time.mk (1717099574 + unixToInternal) 0 .local)
    ∧ (∃ t : Time, Get londonLoaded testEnvs .time "TIME" = .ok t
      ∧ t.sec = 1717099574 + unixToInternal
          - (((londonLoaded.getLocal testEnvs).lookupName "GMT" 1717099574).getD 0)
      ∧ t.nsec = 0)
    ∧ FormatRFC1123 "GMT" 0 (1717099574 + unixToInternal) = "Thu, 30 May 2024 20:06:14 GMT"
    ∧ FormatRFC1123 "GMT" 0 (0 + unixToInternal) = "Thu, 01 Jan 1970 00:00:00 GMT"
    ∧ FormatRFC1123 "GMT" 0 (1677628800 + unixToInternal) = "Wed, 01 Mar 2023 00:00:00 GMT"
    ∧ FormatRFC1123 "GMT" 0 (951868799 + unixToInternal) = "Tue, 29 Feb 2000 23:59:59 GMT"
    ∧ FormatRFC1123 "GMT" 0 (-2203891200 + unixToInternal) = "Thu, 01 Mar 1900 00:00:00 GMT"
    ∧ FormatRFC1123 "GMT" 0 (-62167219200 + unixToInternal)
        = "Sat, 01 Jan 0000 00:00:00 GMT"
    ∧ FormatRFC1123 "GMT" 0 (253402300799 + unixToInternal)
        = "Fri, 31 Dec 9999 23:59:59 GMT" :=
  ⟨by decide,
   C13_rfc1123_roundtrip londonLoaded testEnvs "TIME" 1717099574 (by decide) (by decide)
     (by decide)⟩

/-! ## What `time.Parse` requires of a text -/

end Genv
